import Mathlib

/-!
Verification of the `prost-reflect` descriptor pool resolver against its
natural-language specification.

The development shallowly embeds the Rust sources:
  * `prost-reflect/src/descriptor/build/resolve.rs` (the resolve pass), and
  * the legacy `src/descriptor/ty/mod.rs` / `src/descriptor/mod.rs` type map,
as executable Lean functions.  Machine integers are modelled as `Nat`/`Int`
with explicit wrap-around (`% 256`, `% 2^32`) where the Rust code performs
wrapping (release-mode) arithmetic.  Rust panics (out-of-bounds indexing,
string slicing at a non-character-boundary, explicit `panic!` arms) are
modelled as a distinguished outcome (`Option.none` / `UnescapeResult.crash`),
never silently totalized.
-/

namespace ProstReflect

/-! ## C-escape decoder (`unescape_c_escape_string`, resolve.rs lines 811-899)

Strings are modelled by their UTF-8 byte sequences (`List Nat`, entries < 256),
matching the byte-oriented Rust loop over `s.as_bytes()`. -/

/-- Outcome of the decoder: a byte vector, a `&'static str` error, or a Rust
panic (reachable through `&s[p + 1..p + 3]` slicing at a non-character
boundary). -/
inductive UnescapeResult where
  | ok (bytes : List Nat)
  | err (msg : String)
  | crash
  deriving DecidableEq

/-- Prepend one decoded byte to the result of decoding the remainder,
propagating errors and panics (the imperative source pushes into `dst` and
discards it on error, which is observably the same). -/
def UnescapeResult.consB (b : Nat) : UnescapeResult → UnescapeResult
  | .ok l => .ok (b :: l)
  | r => r

/-- `b'0'..=b'7'` test from the octal arm. -/
def isOctDigit (b : Nat) : Bool := 48 ≤ b && b ≤ 55

/-- Value of one ASCII hex digit (`0-9`, `a-f`, `A-F`), `none` otherwise. -/
def hexDigitVal (b : Nat) : Option Nat :=
  if 48 ≤ b && b ≤ 57 then some (b - 48)
  else if 97 ≤ b && b ≤ 102 then some (b - 87)
  else if 65 ≤ b && b ≤ 70 then some (b - 55)
  else none

/-- `u8::from_str_radix(s, 16)` restricted to the two-byte slice the decoder
passes it: the Rust host parser accepts an optional leading `+` sign before
the digits; a `-` sign (unsigned type) or any non-hex-digit is an error. -/
def u8FromStrRadix16 (a b : Nat) : Option Nat :=
  if a = 43 then hexDigitVal b
  else
    match hexDigitVal a, hexDigitVal b with
    | some x, some y => some (16 * x + y)
    | _, _ => none

/-- A byte in `0x80..0xC0` is a UTF-8 continuation byte; `str::is_char_boundary`
is exactly the complement of this test (or end of string). -/
def isUtf8Cont (b : Nat) : Bool := 128 ≤ b && b < 192

/-- Rust's `is_char_boundary` at the position starting the given suffix. -/
def boundaryAt (l : List Nat) : Bool :=
  match l with
  | [] => true
  | b :: _ => !(isUtf8Cont b)

/-- `unescape_c_escape_string` from resolve.rs: decodes a C-escaped string
into bytes.  The `\xHH` arm mirrors the source exactly: first the length
check `p + 3 > len` (error if fewer than two bytes follow the `x`), then the
slice `&s[p + 1..p + 3]` — which panics (`crash`) when either end of the
slice is not a character boundary — then `u8::from_str_radix(_, 16)`.
Octal accumulation is `u8` wrapping arithmetic, hence `% 256`. -/
def unescapeCEscapeString : List Nat → UnescapeResult
  | [] => .ok []
  | 92 :: rest =>
    match rest with
    | [] => .err "missing escape character"
    | c :: rest2 =>
      if c = 97 then .consB 7 (unescapeCEscapeString rest2)
      else if c = 98 then .consB 8 (unescapeCEscapeString rest2)
      else if c = 102 then .consB 12 (unescapeCEscapeString rest2)
      else if c = 110 then .consB 10 (unescapeCEscapeString rest2)
      else if c = 114 then .consB 13 (unescapeCEscapeString rest2)
      else if c = 116 then .consB 9 (unescapeCEscapeString rest2)
      else if c = 118 then .consB 11 (unescapeCEscapeString rest2)
      else if c = 92 then .consB 92 (unescapeCEscapeString rest2)
      else if c = 63 then .consB 63 (unescapeCEscapeString rest2)
      else if c = 39 then .consB 39 (unescapeCEscapeString rest2)
      else if c = 34 then .consB 34 (unescapeCEscapeString rest2)
      else if isOctDigit c then
        match rest2 with
        | [] => .consB ((c - 48) % 256) (unescapeCEscapeString [])
        | d2 :: rest3 =>
          if isOctDigit d2 then
            match rest3 with
            | [] => .consB ((8 * (c - 48) + (d2 - 48)) % 256) (unescapeCEscapeString [])
            | d3 :: rest4 =>
              if isOctDigit d3 then
                .consB ((64 * (c - 48) + 8 * (d2 - 48) + (d3 - 48)) % 256)
                  (unescapeCEscapeString rest4)
              else
                .consB ((8 * (c - 48) + (d2 - 48)) % 256)
                  (unescapeCEscapeString (d3 :: rest4))
          else .consB ((c - 48) % 256) (unescapeCEscapeString (d2 :: rest3))
      else if c = 120 || c = 88 then
        match rest2 with
        | a :: b :: rest3 =>
          if isUtf8Cont a then .crash
          else if !(boundaryAt rest3) then .crash
          else
            match u8FromStrRadix16 a b with
            | some v => .consB v (unescapeCEscapeString rest3)
            | none => .err "invalid hex escape"
        | _ => .err "hex escape must contain two characters"
      else .err "invalid escape character"
  | b :: rest => .consB b (unescapeCEscapeString rest)

end ProstReflect

namespace ProstReflect

/-! ## Raw descriptor protos

The in-memory form of a `FileDescriptorSet` (generated protobuf code; the
fields below are the ones the embedded sources read).  Optional proto2 fields
are `Option`; the Rust getters (`name()`, `number()`, …) defaulting an unset
field are the `g…` functions.  `type` and `syntax` are Lean keywords and are
stored as `ty` and `syn`. -/

structure FieldOptions where
  packed : Option Bool
  deriving DecidableEq

structure MessageOptions where
  map_entry : Option Bool
  deriving DecidableEq

structure EnumOptions where
  allow_alias : Option Bool
  deriving DecidableEq

structure EnumValueDescriptorProto where
  name : Option String
  number : Option Int
  deriving DecidableEq

/-- `EnumDescriptorProto.EnumReservedRange`: inclusive on both ends. -/
structure EnumReservedRange where
  rstart : Option Int
  rend : Option Int
  deriving DecidableEq

structure EnumDescriptorProto where
  name : Option String
  value : List EnumValueDescriptorProto
  options : Option EnumOptions
  reserved_range : List EnumReservedRange
  deriving DecidableEq

structure FieldDescriptorProto where
  name : Option String
  number : Option Int
  label : Option Int
  ty : Option Int
  type_name : Option String
  extendee : Option String
  default_value : Option String
  oneof_index : Option Int
  json_name : Option String
  proto3_optional : Option Bool
  options : Option FieldOptions
  deriving DecidableEq

structure OneofDescriptorProto where
  name : Option String
  deriving DecidableEq

/-- `DescriptorProto.ReservedRange` and `DescriptorProto.ExtensionRange`
share this shape; both are half-open `[start, end)`. -/
structure ProtoRange where
  rstart : Option Int
  rend : Option Int
  deriving DecidableEq

/-- `DescriptorProto` nests, so it is an inductive with named projections. -/
inductive DescriptorProto where
  | mk (name : Option String) (field : List FieldDescriptorProto)
      (nested_type : List DescriptorProto) (enum_type : List EnumDescriptorProto)
      (extension_range : List ProtoRange) (extension : List FieldDescriptorProto)
      (oneof_decl : List OneofDescriptorProto) (options : Option MessageOptions)
      (reserved_range : List ProtoRange)

def DescriptorProto.name : DescriptorProto → Option String
  | .mk n _ _ _ _ _ _ _ _ => n

def DescriptorProto.field : DescriptorProto → List FieldDescriptorProto
  | .mk _ f _ _ _ _ _ _ _ => f

def DescriptorProto.nested_type : DescriptorProto → List DescriptorProto
  | .mk _ _ n _ _ _ _ _ _ => n

def DescriptorProto.enum_type : DescriptorProto → List EnumDescriptorProto
  | .mk _ _ _ e _ _ _ _ _ => e

def DescriptorProto.extension_range : DescriptorProto → List ProtoRange
  | .mk _ _ _ _ r _ _ _ _ => r

def DescriptorProto.extension : DescriptorProto → List FieldDescriptorProto
  | .mk _ _ _ _ _ x _ _ _ => x

def DescriptorProto.oneof_decl : DescriptorProto → List OneofDescriptorProto
  | .mk _ _ _ _ _ _ o _ _ => o

def DescriptorProto.options : DescriptorProto → Option MessageOptions
  | .mk _ _ _ _ _ _ _ o _ => o

def DescriptorProto.reserved_range : DescriptorProto → List ProtoRange
  | .mk _ _ _ _ _ _ _ _ r => r

structure MethodDescriptorProto where
  name : Option String
  input_type : Option String
  output_type : Option String
  deriving DecidableEq

structure ServiceDescriptorProto where
  name : Option String
  method : List MethodDescriptorProto
  deriving DecidableEq

structure FileDescriptorProto where
  name : Option String
  package : Option String
  dependency : List String
  public_dependency : List Int
  weak_dependency : List Int
  message_type : List DescriptorProto
  enum_type : List EnumDescriptorProto
  service : List ServiceDescriptorProto
  extension : List FieldDescriptorProto
  syn : Option String

/-! ### Getters (prost accessor semantics) -/

/-- `field_descriptor_proto::Type`; wire values 1–18. -/
inductive ProtoType where
  | double | float | int64 | uint64 | int32 | fixed64 | fixed32 | bool
  | string | group | message | bytes | uint32 | enum | sfixed32 | sfixed64
  | sint32 | sint64
  deriving DecidableEq

def ProtoType.fromI32 : Int → Option ProtoType
  | 1 => some .double | 2 => some .float | 3 => some .int64 | 4 => some .uint64
  | 5 => some .int32 | 6 => some .fixed64 | 7 => some .fixed32 | 8 => some .bool
  | 9 => some .string | 10 => some .group | 11 => some .message | 12 => some .bytes
  | 13 => some .uint32 | 14 => some .enum | 15 => some .sfixed32 | 16 => some .sfixed64
  | 17 => some .sint32 | 18 => some .sint64
  | _ => none

def ProtoType.toI32 : ProtoType → Int
  | .double => 1 | .float => 2 | .int64 => 3 | .uint64 => 4 | .int32 => 5
  | .fixed64 => 6 | .fixed32 => 7 | .bool => 8 | .string => 9 | .group => 10
  | .message => 11 | .bytes => 12 | .uint32 => 13 | .enum => 14 | .sfixed32 => 15
  | .sfixed64 => 16 | .sint32 => 17 | .sint64 => 18

/-- `field_descriptor_proto::Label` values 1–3 as an enum. -/
inductive FieldLabel where
  | optional | required | repeated
  deriving DecidableEq

def FieldDescriptorProto.gname (f : FieldDescriptorProto) : String := f.name.getD ""

def FieldDescriptorProto.gnumber (f : FieldDescriptorProto) : Int := f.number.getD 0

/-- `field.label()`: unset defaults to `Optional`, as does an invalid wire
value (`from_i32` returning `None` is `unwrap_or(Label::Optional)`). -/
def FieldDescriptorProto.glabel (f : FieldDescriptorProto) : FieldLabel :=
  match f.label.getD 1 with
  | 2 => .required
  | 3 => .repeated
  | _ => .optional

/-- `field.r#type()`: unset or invalid defaults to `Type::Double`. -/
def FieldDescriptorProto.gtype (f : FieldDescriptorProto) : ProtoType :=
  (f.ty.bind ProtoType.fromI32).getD .double

def FieldDescriptorProto.gtypeName (f : FieldDescriptorProto) : String :=
  f.type_name.getD ""

def FieldDescriptorProto.gextendee (f : FieldDescriptorProto) : String :=
  f.extendee.getD ""

def FieldDescriptorProto.gjsonName (f : FieldDescriptorProto) : String :=
  f.json_name.getD ""

def FieldDescriptorProto.gproto3Optional (f : FieldDescriptorProto) : Bool :=
  f.proto3_optional.getD false

def FieldOptions.gpacked (o : FieldOptions) : Bool := o.packed.getD false

def MessageOptions.gmapEntry (o : MessageOptions) : Bool := o.map_entry.getD false

def EnumOptions.gallowAlias (o : EnumOptions) : Bool := o.allow_alias.getD false

def EnumValueDescriptorProto.gname (v : EnumValueDescriptorProto) : String :=
  v.name.getD ""

def EnumValueDescriptorProto.gnumber (v : EnumValueDescriptorProto) : Int :=
  v.number.getD 0

def ProtoRange.grstart (r : ProtoRange) : Int := r.rstart.getD 0

def ProtoRange.grend (r : ProtoRange) : Int := r.rend.getD 0

def EnumReservedRange.grstart (r : EnumReservedRange) : Int := r.rstart.getD 0

def EnumReservedRange.grend (r : EnumReservedRange) : Int := r.rend.getD 0

def EnumDescriptorProto.gname (e : EnumDescriptorProto) : String := e.name.getD ""

def DescriptorProto.gname (m : DescriptorProto) : String := m.name.getD ""

def FileDescriptorProto.gpackage (f : FileDescriptorProto) : String :=
  f.package.getD ""

def MethodDescriptorProto.ginputType (m : MethodDescriptorProto) : String :=
  m.input_type.getD ""

def MethodDescriptorProto.goutputType (m : MethodDescriptorProto) : String :=
  m.output_type.getD ""

def ServiceDescriptorProto.gname (s : ServiceDescriptorProto) : String :=
  s.name.getD ""

def MethodDescriptorProto.gname (m : MethodDescriptorProto) : String :=
  m.name.getD ""

/-! ### Host parsers and parsed default values

`crate::Value` carries a parsed default.  Floating-point values are kept as
their source text (IEEE-754 semantics are outside the embedding; no claim
inspects them), everything else is exact. -/

inductive Value where
  | f64 (text : String)
  | f32 (text : String)
  | i32 (n : Int)
  | i64 (n : Int)
  | u32 (n : Nat)
  | u64 (n : Nat)
  | bool (b : Bool)
  | string (s : String)
  | bytes (bs : List Nat)
  | enumNumber (n : Int)
  deriving DecidableEq

/-- Value of a non-empty all-ASCII-digit run, else `none`. -/
def digitsVal : List Char → Option Nat
  | [] => none
  | l => if l.all Char.isDigit then some (l.foldl (fun a c => 10 * a + (c.toNat - 48)) 0) else none

/-- Rust `str::parse` for signed integers: optional `+`/`-` sign, then ASCII
digits only. -/
def rustParseInt (s : String) : Option Int :=
  match s.data with
  | '+' :: ds => (digitsVal ds).map Int.ofNat
  | '-' :: ds => (digitsVal ds).map fun n => -(n : Int)
  | ds => (digitsVal ds).map Int.ofNat

/-- Rust `str::parse` for unsigned integers: a `-` sign is rejected. -/
def rustParseUInt (s : String) : Option Nat :=
  match s.data with
  | '+' :: ds => digitsVal ds
  | '-' :: _ => none
  | ds => digitsVal ds

def rustParseI32 (s : String) : Option Int :=
  (rustParseInt s).bind fun n => if -(2 ^ 31) ≤ n ∧ n < 2 ^ 31 then some n else none

def rustParseI64 (s : String) : Option Int :=
  (rustParseInt s).bind fun n => if -(2 ^ 63) ≤ n ∧ n < 2 ^ 63 then some n else none

def rustParseU32 (s : String) : Option Nat :=
  (rustParseUInt s).bind fun n => if n < 2 ^ 32 then some n else none

def rustParseU64 (s : String) : Option Nat :=
  (rustParseUInt s).bind fun n => if n < 2 ^ 64 then some n else none

/-- Rust `str::parse::<bool>` accepts exactly `true` and `false`. -/
def rustParseBool (s : String) : Option Bool :=
  if s = "true" then some true else if s = "false" then some false else none

/-- Modelled from the spec: the host floating-point parser (§4.F: decimal
forms with optional exponent, plus `inf` / `infinity` / `nan`,
case-insensitive, optional sign).  Only acceptance is modelled; accepted
values are stored as text. -/
def rustParseFloatOk (s : String) : Bool :=
  let l := s.toLower
  let body := if l.startsWith "+" || l.startsWith "-" then l.drop 1 else l
  if body = "inf" || body = "infinity" || body = "nan" then true
  else
    let (mant, ex) :=
      match body.splitOn "e" with
      | [m] => (m, none)
      | [m, x] => (m, some x)
      | _ => ("", some "")
    let mantOk :=
      match mant.splitOn "." with
      | [a] => a ≠ "" && a.data.all Char.isDigit
      | [a, b] =>
        (a ≠ "" || b ≠ "") && a.data.all Char.isDigit && b.data.all Char.isDigit
      | _ => false
    let exOk :=
      match ex with
      | none => true
      | some x =>
        let xb := if x.startsWith "+" || x.startsWith "-" then x.drop 1 else x
        xb ≠ "" && xb.data.all Char.isDigit
    mantOk && exOk

/-- UTF-8 bytes of a string (`s.as_bytes()` on the Rust side). -/
def strBytes (s : String) : List Nat :=
  s.toUTF8.toList.map fun b => b.toNat

end ProstReflect

namespace ProstReflect.Legacy

open ProstReflect

/-! ## Legacy type map (`src/descriptor/ty/mod.rs`, `src/descriptor/mod.rs`)

The earlier generation of the crate: `TypeMap::add_files` interns every
message/enum/scalar type in a dense arena.  The arena allocator itself
(`ty/map.rs`) is not under `src/`; it is modelled from the spec (§4.C: dense
vector addressed by small integer handles, `add_with_name` appends, scalars
are interned via `get_scalar`).  Scalars are pre-interned at ids 0–14 in
declaration order, which fixes `get_scalar` to a pure function. -/

inductive Scalar where
  | double | float | int32 | int64 | uint32 | uint64 | sint32 | sint64
  | fixed32 | fixed64 | sfixed32 | sfixed64 | bool | string | bytes
  deriving DecidableEq

/-- `Scalar::is_packable`: every scalar except `String` and `Bytes`. -/
def Scalar.isPackable : Scalar → Bool
  | .string => false
  | .bytes => false
  | _ => true

inductive Cardinality where
  | optional | required | repeated
  deriving DecidableEq

structure MessageField where
  name : String
  json_name : String
  is_group : Bool
  cardinality : Cardinality
  is_packed : Bool
  supports_presence : Bool
  default_value : Option Value
  ty : Nat
  deriving DecidableEq

/-- `Message`: `fields` is the `BTreeMap<u32, MessageField>` (a key-sorted
association list here); `field_names` the derived name → number map. -/
structure Message where
  name : String
  is_map_entry : Bool
  fields : List (Nat × MessageField)
  field_names : List (String × Nat)
  deriving DecidableEq

structure EnumValue where
  name : String
  number : Int
  deriving DecidableEq

structure Enum where
  name : String
  values : List EnumValue
  deriving DecidableEq

/-- `ty::Type`. -/
inductive Ty where
  | message (m : Message)
  | enum (e : Enum)
  | scalar (s : Scalar)
  deriving DecidableEq

def Ty.isMessageTy : Ty → Bool
  | .message _ => true
  | _ => false

def Ty.isEnumTy : Ty → Bool
  | .enum _ => true
  | _ => false

/-- `Type::is_packable`. -/
def Ty.isPackable : Ty → Bool
  | .scalar s => s.isPackable
  | .enum _ => true
  | _ => false

/-- The arena: types by id, plus the name → id index. -/
structure TypeMap where
  types : List Ty
  names : List (String × Nat)
  deriving DecidableEq

def scalarIdx : Scalar → Nat
  | .double => 0 | .float => 1 | .int32 => 2 | .int64 => 3 | .uint32 => 4
  | .uint64 => 5 | .sint32 => 6 | .sint64 => 7 | .fixed32 => 8 | .fixed64 => 9
  | .sfixed32 => 10 | .sfixed64 => 11 | .bool => 12 | .string => 13 | .bytes => 14

def TypeMap.new : TypeMap :=
  ⟨[.scalar .double, .scalar .float, .scalar .int32, .scalar .int64,
    .scalar .uint32, .scalar .uint64, .scalar .sint32, .scalar .sint64,
    .scalar .fixed32, .scalar .fixed64, .scalar .sfixed32, .scalar .sfixed64,
    .scalar .bool, .scalar .string, .scalar .bytes], []⟩

def TypeMap.getScalar (_tm : TypeMap) (s : Scalar) : Nat := scalarIdx s

def TypeMap.tryGetByName (tm : TypeMap) (name : String) : Option Nat :=
  (tm.names.find? fun p => p.1 = name).map Prod.snd

def TypeMap.addWithName (tm : TypeMap) (name : String) (t : Ty) : Nat × TypeMap :=
  (tm.types.length, ⟨tm.types ++ [t], tm.names ++ [(name, tm.types.length)]⟩)

def TypeMap.setTy (tm : TypeMap) (id : Nat) (t : Ty) : TypeMap :=
  { tm with types := tm.types.set id t }

def TypeMap.tyAt (tm : TypeMap) (id : Nat) : Option Ty := tm.types.get? id

/-- File syntax (`Syntax` enum of the crate). -/
inductive Syn where
  | proto2 | proto3
  deriving DecidableEq

/-- Structured form of the legacy `DescriptorError` constructors, modelled
from their call sites (error.rs is not under src/). -/
inductive LegacyError where
  | typeNotFound (name : String)
  | typeAlreadyExists (name : String)
  | unknownSyntax (s : String)
  | invalidDefaultValue (message field value : String)
  | invalidMapEntry (name : String)
  | emptyEnum
  deriving DecidableEq

/-- The legacy copy of `unescape_c_escape_string` (ty/mod.rs lines 451-539):
identical to the resolver's copy except that errors carry no message and the
hex arm checks only `p + 2 > len`, so a `\x` followed by exactly one byte
reads the slice `&s[p + 1..p + 3]` past the end of the string and panics. -/
def unescapeLegacy : List Nat → UnescapeResult
  | [] => .ok []
  | 92 :: rest =>
    match rest with
    | [] => .err ""
    | c :: rest2 =>
      if c = 97 then .consB 7 (unescapeLegacy rest2)
      else if c = 98 then .consB 8 (unescapeLegacy rest2)
      else if c = 102 then .consB 12 (unescapeLegacy rest2)
      else if c = 110 then .consB 10 (unescapeLegacy rest2)
      else if c = 114 then .consB 13 (unescapeLegacy rest2)
      else if c = 116 then .consB 9 (unescapeLegacy rest2)
      else if c = 118 then .consB 11 (unescapeLegacy rest2)
      else if c = 92 then .consB 92 (unescapeLegacy rest2)
      else if c = 63 then .consB 63 (unescapeLegacy rest2)
      else if c = 39 then .consB 39 (unescapeLegacy rest2)
      else if c = 34 then .consB 34 (unescapeLegacy rest2)
      else if isOctDigit c then
        match rest2 with
        | [] => .consB ((c - 48) % 256) (unescapeLegacy [])
        | d2 :: rest3 =>
          if isOctDigit d2 then
            match rest3 with
            | [] => .consB ((8 * (c - 48) + (d2 - 48)) % 256) (unescapeLegacy [])
            | d3 :: rest4 =>
              if isOctDigit d3 then
                .consB ((64 * (c - 48) + 8 * (d2 - 48) + (d3 - 48)) % 256)
                  (unescapeLegacy rest4)
              else
                .consB ((8 * (c - 48) + (d2 - 48)) % 256)
                  (unescapeLegacy (d3 :: rest4))
          else .consB ((c - 48) % 256) (unescapeLegacy (d2 :: rest3))
      else if c = 120 || c = 88 then
        match rest2 with
        | [] => .err ""
        | [_] => .crash
        | a :: b :: rest3 =>
          if isUtf8Cont a then .crash
          else if !(boundaryAt rest3) then .crash
          else
            match u8FromStrRadix16 a b with
            | some v => .consB v (unescapeLegacy rest3)
            | none => .err ""
      else .err ""
  | b :: rest => .consB b (unescapeLegacy rest)

/-- The `TyProto` worklist entry produced by `iter_tys`. -/
inductive TyProto where
  | message (mp : DescriptorProto) (syn : Syn)
  | enum (ep : EnumDescriptorProto)

def lookupProto (protos : List (String × TyProto)) (name : String) : Option TyProto :=
  (protos.find? fun p => p.1 = name).map Prod.snd

/-- `HashMap::insert` + duplicate check from `iter_tys` / `iter_message`. -/
def insertTy (acc : List (String × TyProto)) (k : String) (v : TyProto) :
    Except LegacyError (List (String × TyProto)) :=
  if (acc.find? fun p => p.1 = k).isSome then .error (.typeAlreadyExists k)
  else .ok (acc ++ [(k, v)])

def insEnums (ns : String) (acc : List (String × TyProto)) :
    List EnumDescriptorProto → Except LegacyError (List (String × TyProto))
  | [] => .ok acc
  | e :: rest =>
    match insertTy acc (ns ++ "." ++ e.gname) (.enum e) with
    | .error er => .error er
    | .ok acc => insEnums ns acc rest

mutual

/-- `iter_message`: walks `nested_type` (registering each nested message and
its own subtree) and then registers the nested enums. -/
def iterMessage (ns : String) (acc : List (String × TyProto)) :
    DescriptorProto → Syn → Except LegacyError (List (String × TyProto))
  | .mk _ _ nested etys _ _ _ _ _, syn =>
    match iterMessages ns acc nested syn with
    | .error e => .error e
    | .ok acc => insEnums ns acc etys

def iterMessages (ns : String) (acc : List (String × TyProto)) :
    List DescriptorProto → Syn → Except LegacyError (List (String × TyProto))
  | [], _ => .ok acc
  | m :: rest, syn =>
    match iterMessage (ns ++ "." ++ m.gname) acc m syn with
    | .error e => .error e
    | .ok acc1 =>
      match insertTy acc1 (ns ++ "." ++ m.gname) (.message m syn) with
      | .error e => .error e
      | .ok acc2 => iterMessages ns acc2 rest syn

end

/-- File syntax resolution from `iter_tys`: unset or `proto2` is Proto2,
`proto3` is Proto3, anything else is `UnknownSyntax`. -/
def synOf (f : FileDescriptorProto) : Except LegacyError Syn :=
  match f.syn with
  | none => .ok .proto2
  | some s =>
    if s = "proto2" then .ok .proto2
    else if s = "proto3" then .ok .proto3
    else .error (.unknownSyntax s)

/-- `iter_tys`: builds the name → raw-descriptor map over all files.  The
namespace of a file is `""` for an empty package and `"." ++ package`
otherwise, so every registered full name carries a leading dot. -/
def iterTysFiles : List FileDescriptorProto → List (String × TyProto) →
    Except LegacyError (List (String × TyProto))
  | [], acc => .ok acc
  | f :: rest, acc =>
    match synOf f with
    | .error e => .error e
    | .ok syn =>
      let ns := match f.gpackage with
        | "" => ""
        | p => "." ++ p
      match iterMessages ns acc f.message_type syn with
      | .error e => .error e
      | .ok acc1 =>
        match insEnums ns acc1 f.enum_type with
        | .error e => .error e
        | .ok acc2 => iterTysFiles rest acc2

/-- `TypeMap::add_enum`. -/
def addEnum (tm : TypeMap) (name : String) (ep : EnumDescriptorProto) :
    Except LegacyError (Nat × TypeMap) :=
  match tm.tryGetByName name with
  | some id => .ok (id, tm)
  | none =>
    let vals := ep.value.map fun v => EnumValue.mk v.gname v.gnumber
    if vals.isEmpty then .error .emptyEnum
    else .ok (tm.addWithName name (.enum ⟨name, vals⟩))

/-- `i32 as u32` (wrapping cast) used for field tags. -/
def u32OfInt (n : Int) : Nat := (n % (2 ^ 32 : Int)).toNat

/-- Sorted insert-or-replace into the `BTreeMap<u32, MessageField>`. -/
def btInsert (m : List (Nat × MessageField)) (k : Nat) (v : MessageField) :
    List (Nat × MessageField) :=
  match m with
  | [] => [(k, v)]
  | (k', v') :: rest =>
    if k < k' then (k, v) :: (k', v') :: rest
    else if k = k' then (k, v) :: rest
    else (k', v') :: btInsert rest k v

def hasKey (m : List (Nat × MessageField)) (k : Nat) : Bool :=
  (m.find? fun p => p.1 = k).isSome

/-- Default-value parsing from the legacy field loop (`ty/mod.rs` lines
151-195), keyed on the interned type of the field.  The outer `Option` is a
Rust panic (arena index failure, or the legacy decoder's hex panic). -/
def parseLegacyDefault (tm : TypeMap) (ty : Nat) (msgName fieldName value : String) :
    Option (Except LegacyError Value) :=
  let err : Option (Except LegacyError Value) :=
    some (.error (.invalidDefaultValue msgName fieldName value))
  match tm.tyAt ty with
  | none => none
  | some t =>
    match t with
    | .scalar .double => if rustParseFloatOk value then some (.ok (.f64 value)) else err
    | .scalar .float => if rustParseFloatOk value then some (.ok (.f32 value)) else err
    | .scalar .int32 | .scalar .sint32 | .scalar .sfixed32 =>
      match rustParseI32 value with
      | some n => some (.ok (.i32 n))
      | none => err
    | .scalar .int64 | .scalar .sint64 | .scalar .sfixed64 =>
      match rustParseI64 value with
      | some n => some (.ok (.i64 n))
      | none => err
    | .scalar .uint32 | .scalar .fixed32 =>
      match rustParseU32 value with
      | some n => some (.ok (.u32 n))
      | none => err
    | .scalar .uint64 | .scalar .fixed64 =>
      match rustParseU64 value with
      | some n => some (.ok (.u64 n))
      | none => err
    | .scalar .bool =>
      match rustParseBool value with
      | some b => some (.ok (.bool b))
      | none => err
    | .scalar .string => some (.ok (.string value))
    | .scalar .bytes =>
      match unescapeLegacy (strBytes value) with
      | .ok bs => some (.ok (.bytes bs))
      | .err _ => err
      | .crash => none
    | .enum et =>
      match et.values.find? fun v => v.name = value with
      | some v => some (.ok (.enumNumber v.number))
      | none => err
    | .message _ => err

mutual

/-- `TypeMap::add_message`: early return for an already-interned name, dummy
insertion (empty fields, `is_map_entry` already set) to break reference
cycles, field resolution, the map-entry key/value containment check, and the
final overwrite of the dummy.  `none` is fuel exhaustion or a Rust panic. -/
def addMessage (fuel : Nat) (tm : TypeMap) (name : String) (mp : DescriptorProto)
    (syn : Syn) (protos : List (String × TyProto)) :
    Option (Except LegacyError (Nat × TypeMap)) :=
  match fuel with
  | 0 => none
  | fuel + 1 =>
    match tm.tryGetByName name with
    | some id => some (.ok (id, tm))
    | none =>
      let isME := match mp.options with
        | some o => o.gmapEntry
        | none => false
      let pair := tm.addWithName name (.message ⟨"", isME, [], []⟩)
      match addFields fuel pair.2 mp.field syn protos name [] with
      | none => none
      | some (.error e) => some (.error e)
      | some (.ok (flds, tm2)) =>
        let fnames := flds.map fun p => (p.2.name, p.1)
        if isME && (!(hasKey flds 1) || !(hasKey flds 2)) then
          some (.error (.invalidMapEntry name))
        else
          some (.ok (pair.1, tm2.setTy pair.1 (.message ⟨name, isME, flds, fnames⟩)))

/-- The per-field closure of `add_message`, folded over the raw field list
(`collect::<Result<BTreeMap<_, _>, _>>` short-circuits on the first error). -/
def addFields (fuel : Nat) (tm : TypeMap) (fps : List FieldDescriptorProto)
    (syn : Syn) (protos : List (String × TyProto)) (msgName : String)
    (acc : List (Nat × MessageField)) :
    Option (Except LegacyError (List (Nat × MessageField) × TypeMap)) :=
  match fuel with
  | 0 => none
  | fuel + 1 =>
    match fps with
    | [] => some (.ok (acc, tm))
    | fp :: rest =>
      match addMessageField fuel tm fp protos with
      | none => none
      | some (.error e) => some (.error e)
      | some (.ok (ty, tm1)) =>
        let tag := u32OfInt fp.gnumber
        let card : Cardinality :=
          match fp.glabel with
          | .optional => .optional
          | .required => .required
          | .repeated => .repeated
        match tm1.tyAt ty with
        | none => none
        | some fieldTy =>
          let isPacked := fieldTy.isPackable &&
            (match fp.options with
              | none => syn == .proto3
              | some o => o.gpacked)
          let presence := fp.gproto3Optional || fp.oneof_index.isSome ||
            (card == .optional && (fp.gtype == .message || syn == .proto2))
          let defRes : Option (Except LegacyError (Option Value)) :=
            match fp.default_value with
            | none => some (.ok none)
            | some v =>
              match parseLegacyDefault tm1 ty msgName fp.gname v with
              | none => none
              | some (.error e) => some (.error e)
              | some (.ok dv) => some (.ok (some dv))
          match defRes with
          | none => none
          | some (.error e) => some (.error e)
          | some (.ok dv) =>
            let mf : MessageField :=
              { name := fp.gname
                json_name := fp.gjsonName
                is_group := fp.gtype == .group
                cardinality := card
                is_packed := isPacked
                supports_presence := presence
                default_value := dv
                ty := ty }
            addFields fuel tm1 rest syn protos msgName (btInsert acc tag mf)

/-- `TypeMap::add_message_field`: scalars are interned directly; enum,
message and group types are resolved through the `iter_tys` map by their raw
`type_name`. -/
def addMessageField (fuel : Nat) (tm : TypeMap) (fp : FieldDescriptorProto)
    (protos : List (String × TyProto)) :
    Option (Except LegacyError (Nat × TypeMap)) :=
  match fuel with
  | 0 => none
  | fuel + 1 =>
    match fp.gtype with
    | .double => some (.ok (tm.getScalar .double, tm))
    | .float => some (.ok (tm.getScalar .float, tm))
    | .int64 => some (.ok (tm.getScalar .int64, tm))
    | .uint64 => some (.ok (tm.getScalar .uint64, tm))
    | .int32 => some (.ok (tm.getScalar .int32, tm))
    | .fixed64 => some (.ok (tm.getScalar .fixed64, tm))
    | .fixed32 => some (.ok (tm.getScalar .fixed32, tm))
    | .bool => some (.ok (tm.getScalar .bool, tm))
    | .string => some (.ok (tm.getScalar .string, tm))
    | .bytes => some (.ok (tm.getScalar .bytes, tm))
    | .uint32 => some (.ok (tm.getScalar .uint32, tm))
    | .sfixed32 => some (.ok (tm.getScalar .sfixed32, tm))
    | .sfixed64 => some (.ok (tm.getScalar .sfixed64, tm))
    | .sint32 => some (.ok (tm.getScalar .sint32, tm))
    | .sint64 => some (.ok (tm.getScalar .sint64, tm))
    | .enum | .message | .group =>
      match lookupProto protos fp.gtypeName with
      | none => some (.error (.typeNotFound fp.gtypeName))
      | some (.message mp syn) => addMessage fuel tm fp.gtypeName mp syn protos
      | some (.enum ep) =>
        match addEnum tm fp.gtypeName ep with
        | .error e => some (.error e)
        | .ok r => some (.ok r)

end

/-- The `add_files` worklist: one `add_message` / `add_enum` call per entry
of the `iter_tys` map.  The surrounding `protos` map stays fixed.  The Rust
`HashMap` iterates in an unspecified order, so the theorems below quantify
over an arbitrary `todo` list; `addFiles` instantiates it with the
insertion-ordered list. -/
def addAll (fuel : Nat) (tm : TypeMap) (todo protos : List (String × TyProto)) :
    Option (Except LegacyError TypeMap) :=
  match todo with
  | [] => some (.ok tm)
  | (name, .message mp syn) :: rest =>
    match addMessage fuel tm name mp syn protos with
    | none => none
    | some (.error e) => some (.error e)
    | some (.ok (_, tm1)) => addAll fuel tm1 rest protos
  | (name, .enum ep) :: rest =>
    match addEnum tm name ep with
    | .error e => some (.error e)
    | .ok (_, tm1) => addAll fuel tm1 rest protos

/-- `TypeMap::add_files` on a fresh map (as called by
`FileDescriptor::from_raw`). -/
def addFiles (fuel : Nat) (files : List FileDescriptorProto) :
    Option (Except LegacyError TypeMap) :=
  match iterTysFiles files [] with
  | .error e => some (.error e)
  | .ok protos => addAll fuel TypeMap.new protos protos

/-- `FileDescriptor::get_message_by_name`; the outer `Option` distinguishes
the arena-indexing panic (impossible on maps built by `add_files`). -/
def getMessageByName (tm : TypeMap) (name : String) : Option (Option Nat) :=
  match tm.tryGetByName name with
  | none => some none
  | some id =>
    match tm.tyAt id with
    | none => none
    | some t => some (if t.isMessageTy then some id else none)

/-- `FileDescriptor::get_enum_by_name`. -/
def getEnumByName (tm : TypeMap) (name : String) : Option (Option Nat) :=
  match tm.tryGetByName name with
  | none => some none
  | some id =>
    match tm.tyAt id with
    | none => none
    | some t => some (if t.isEnumTy then some id else none)

/-- Arena well-formedness: every name points below the arena length.  Maps
built by `add_files` satisfy it (see the C10 theorem). -/
def TypeMap.WF (tm : TypeMap) : Prop :=
  ∀ p ∈ tm.names, p.2 < tm.types.length

/-- The map-entry containment property of one arena slot: a message flagged
`is_map_entry` has fields numbered 1 and 2. -/
def mapEntryOk : Ty → Prop
  | .message m => m.is_map_entry = true → hasKey m.fields 1 = true ∧ hasKey m.fields 2 = true
  | _ => True

/-- Evolution of the arena across one `add_…` call: it only grows, existing
slots are untouched, and every slot added at or above the old length
satisfies `mapEntryOk` once the call returns successfully. -/
def Grow (tm tm' : TypeMap) : Prop :=
  tm.types.length ≤ tm'.types.length ∧
  (∀ j, j < tm.types.length → tm'.types.get? j = tm.types.get? j) ∧
  (∀ j t, tm.types.length ≤ j → tm'.types.get? j = some t → mapEntryOk t)

/-! ### Concrete inputs for the C7 scenarios -/

/-- An `int32` field with the given name and number (proto2-style optional). -/
def mkI32Field (nm : String) (num : Int) : FieldDescriptorProto :=
  { name := some nm, number := some num, label := some 1, ty := some 5,
    type_name := none, extendee := none, default_value := none,
    oneof_index := none, json_name := none, proto3_optional := none,
    options := none }

/-- A message flagged `map_entry = true` that has THREE fields, numbered 1, 2
and 3 — the containment check accepts it. -/
def c7BadMessage : DescriptorProto :=
  .mk (some "M") [mkI32Field "key" 1, mkI32Field "value" 2, mkI32Field "extra" 3]
    [] [] [] [] [] (some ⟨some true⟩) []

def c7BadFile : FileDescriptorProto :=
  { name := some "test.proto", package := none, dependency := [],
    public_dependency := [], weak_dependency := [], message_type := [c7BadMessage],
    enum_type := [], service := [], extension := [], syn := some "proto3" }

/-- A well-formed two-field map entry, for the witness. -/
def c7GoodMessage : DescriptorProto :=
  .mk (some "M") [mkI32Field "key" 1, mkI32Field "value" 2]
    [] [] [] [] [] (some ⟨some true⟩) []

def c7GoodFile : FileDescriptorProto :=
  { name := some "test.proto", package := none, dependency := [],
    public_dependency := [], weak_dependency := [], message_type := [c7GoodMessage],
    enum_type := [], service := [], extension := [], syn := some "proto3" }

/-- Extracts `(is_map_entry, number of fields)` of the named message from an
`add_files` result. -/
def mapEntryShape (res : Option (Except LegacyError TypeMap)) (name : String) :
    Option (Bool × Nat) :=
  match res with
  | some (.ok tm) =>
    match (tm.tryGetByName name).bind tm.tyAt with
    | some (.message m) => some (m.is_map_entry, m.fields.length)
    | _ => none
  | _ => none

/-- The `MessageField` that `add_files` derives for the int32 fields of
`c7GoodFile` (legacy packed inference has no cardinality conjunct, so an
optional int32 field of a proto3 file comes out `is_packed = true`). -/
def c7GoodField (nm : String) : MessageField :=
  ⟨nm, "", false, .optional, true, false, none, 2⟩

def c7GoodMsgVal : Message :=
  ⟨".M", true, [(1, c7GoodField "key"), (2, c7GoodField "value")],
    [("key", 1), ("value", 2)]⟩

/-- The type map `add_files 10 [c7GoodFile]` evaluates to. -/
def c7GoodTm : TypeMap :=
  ⟨TypeMap.new.types ++ [.message c7GoodMsgVal], [(".M", 15)]⟩

end ProstReflect.Legacy

namespace ProstReflect.Resolve

open ProstReflect

/-! ## The resolve pass (`prost-reflect/src/descriptor/build/resolve.rs`)

State-passing embedding of `ResolveVisitor`.  The descriptor store types
(`KindIndex`, `FieldDescriptorInner`, …, `DescriptorPoolInner`) live in
`descriptor/mod.rs`, which is not under src/; they are modelled from the
spec's data model (§3) exactly as the resolve pass reads and writes them.
Every function returns `Option`: `none` is a Rust panic (out-of-bounds
indexing or an explicit `panic!` arm), never reached on driver-generated
inputs but modelled faithfully. -/

/-- File syntax. -/
inductive Syn where
  | proto2 | proto3
  deriving DecidableEq

/-- `KindIndex` (§3): the 15 scalars plus message / enum / group handles. -/
inductive KindIndex where
  | double | float | int64 | uint64 | int32 | fixed64 | fixed32 | bool
  | string | bytes | uint32 | sfixed32 | sfixed64 | sint32 | sint64
  | message (m : Nat) | enum (e : Nat) | group (g : Nat)
  deriving DecidableEq

/-- Modelled from the spec (§4.E.3, `KindIndex::is_packable` is in
descriptor/mod.rs, not under src/): any scalar except String and Bytes, or
any enum. -/
def KindIndex.is_packable : KindIndex → Bool
  | .string | .bytes | .message _ | .group _ => false
  | _ => true

/-- Modelled from the spec (`KindIndex::is_message` is in descriptor/mod.rs,
not under src/): message-kind includes groups, which are messages at a
different wire encoding (§3 Kind, glossary). -/
def KindIndex.is_message : KindIndex → Bool
  | .message _ | .group _ => true
  | _ => false

inductive Cardinality where
  | optional | required | repeated
  deriving DecidableEq

/-- `u32::MAX`, the sentinel handle for failed message references. -/
def MessageIndexMAX : Nat := 4294967295

/-- `i32 as u32` wrapping cast (field numbers are stored as `u32`). -/
def u32OfInt (n : Int) : Nat := (n % (2 ^ 32 : Int)).toNat

structure Identity where
  file : Nat
  path : List Int
  full_name : String
  name : String
  deriving DecidableEq

def Identity.new (file : Nat) (path : List Int) (full_name name : String) : Identity :=
  ⟨file, path, full_name, name⟩

structure FieldDescriptorInner where
  id : Identity
  number : Nat
  kind : KindIndex
  oneof : Option Nat
  is_packed : Bool
  supports_presence : Bool
  cardinality : Cardinality
  default : Option Value
  deriving DecidableEq

structure OneofInner where
  id : Identity
  fields : List Nat
  deriving DecidableEq

structure MessageInner where
  id : Identity
  fields : List FieldDescriptorInner
  oneofs : List OneofInner
  field_numbers : List (Nat × Nat)
  field_names : List (String × Nat)
  field_json_names : List (String × Nat)
  extensions : List Nat
  deriving DecidableEq

structure EnumValueInner where
  id : Identity
  number : Int
  deriving DecidableEq

structure EnumInner where
  id : Identity
  values : List EnumValueInner
  allow_alias : Bool
  value_numbers : List (Int × Nat)
  value_names : List (String × Nat)
  deriving DecidableEq

structure MethodDescriptorInner where
  id : Identity
  input : Nat
  output : Nat
  deriving DecidableEq

structure ServiceDescriptorInner where
  id : Identity
  methods : List MethodDescriptorInner
  deriving DecidableEq

structure ExtensionDescriptorInner where
  id : Identity
  parent : Option Nat
  number : Nat
  json_name : String
  extendee : Nat
  kind : KindIndex
  is_packed : Bool
  cardinality : Cardinality
  default : Option Value
  deriving DecidableEq

inductive DefinitionKind where
  | message (idx : Nat)
  | enum (idx : Nat)
  | service (idx : Nat)
  | oneof (idx : Nat)
  | field
  | extensionField
  | enumValue
  deriving DecidableEq

structure Definition where
  file : Nat
  path : List Int
  kind : DefinitionKind
  deriving DecidableEq

/-- One file of the pool: syntax, the (mutable) raw descriptor, resolved
dependency handles. -/
structure FileState where
  syn : Syn
  raw : FileDescriptorProto
  dependencies : List Nat

/-- The pool during / after the resolve pass.  `names` is the name table
built by the earlier names pass. -/
structure DescriptorPoolInner where
  files : List FileState
  file_names : List (String × Nat)
  names : List (String × Definition)
  messages : List MessageInner
  enums : List EnumInner
  services : List ServiceDescriptorInner
  extensions : List ExtensionDescriptorInner

/-- Modelled from the spec (§7): an error position, a `(FileHandle,
source_path)` pair with a description; rendering via the file list is
display-only and omitted. -/
structure Label where
  message : String
  file : Nat
  path : List Int
  deriving DecidableEq

def Label.new (_files : List FileState) (msg : String) (file : Nat)
    (path : List Int) : Label :=
  ⟨msg, file, path⟩

inductive DescriptorErrorKind where
  | fileNotFound (name : String) (found : Label)
  | invalidImportIndex
  | duplicateFieldNumber (number : Nat) (first second : Label)
  | duplicateName (name : String) (first second : Label)
  | duplicateFieldJsonName (name : String) (first second : Label)
  | duplicateEnumNumber (number : Int) (first second : Label)
  | invalidOneofIndex
  | invalidFieldNumber (number : Int) (found : Label)
  | fieldNumberInReservedRange (number rstart rend : Int) (defined found : Label)
  | fieldNumberInExtensionRange (number rstart rend : Int) (defined found : Label)
  | extensionNumberOutOfRange (number : Int) (message : String) (found : Label)
  | enumNumberInReservedRange (number rstart rend : Int) (defined found : Label)
  | invalidType (name expected : String) (found defined : Label)
  | nameNotFound (name : String) (found : Label)
  | invalidFieldDefault (value kind : String) (found : Label)
  | missingRequiredField (label : Label)
  deriving DecidableEq

/-- The visitor: the pool plus the accumulated error list (`ResolveVisitor`). -/
structure VisitState where
  pool : DescriptorPoolInner
  errors : List DescriptorErrorKind

def pushErr (st : VisitState) (e : DescriptorErrorKind) : VisitState :=
  { st with errors := st.errors ++ [e] }

def pushErrs (st : VisitState) (es : List DescriptorErrorKind) : VisitState :=
  { st with errors := st.errors ++ es }

/-! ### Source-location tags (descriptor.proto field numbers; the `tag`
module is not under src/, values modelled from descriptor.proto). -/

def tagFileDependency : Int := 3
def tagFileMessageType : Int := 4
def tagFileEnumType : Int := 5
def tagFileService : Int := 6
def tagFileExtension : Int := 7
def tagMessageField : Int := 2
def tagMessageNestedType : Int := 3
def tagMessageEnumType : Int := 4
def tagMessageExtensionRange : Int := 5
def tagMessageExtension : Int := 6
def tagMessageOneofDecl : Int := 8
def tagMessageReservedRange : Int := 9
def tagFieldName : Int := 1
def tagFieldExtendee : Int := 2
def tagFieldNumber : Int := 3
def tagFieldType : Int := 5
def tagFieldTypeName : Int := 6
def tagFieldDefaultValue : Int := 7
def tagMethodInputType : Int := 2
def tagMethodOutputType : Int := 3
def tagServiceMethod : Int := 2
def tagEnumValue : Int := 2
def tagEnumReservedRange : Int := 4
def tagEnumValueName : Int := 1
def tagEnumValueNumber : Int := 2

/-- `join_path` (§4.A). -/
def joinPath (p t : List Int) : List Int := p ++ t

/-! ### Relative name resolution (§4.B; `resolve_name` in build/mod.rs is
not under src/, modelled from the spec). -/

/-- `join_full_name` (§4.A). -/
def joinFullName (ns loc : String) : String :=
  if ns = "" then loc else ns ++ "." ++ loc

def lookupName (names : List (String × Definition)) (k : String) : Option Definition :=
  (names.find? fun p => p.1 = k).map Prod.snd

/-- The prefixes of `scope`, longest first, ending with the empty scope. -/
def scopeChain (scope : String) : List String :=
  let segs := if scope = "" then [] else scope.splitOn "."
  ((List.range (segs.length + 1)).reverse).map fun k =>
    String.intercalate "." (segs.take k)

def firstSegment (name : String) : String := (name.splitOn ".").headD name

/-- Modelled from the spec §4.B: a leading dot means absolute lookup;
otherwise the first dotted segment is the pivot, the longest scope prefix
under which the pivot exists fixes the base, and the full candidate is then
looked up (failure there is final).  Returns the leading-dot canonical name
and the definition. -/
def resolveNameTable (names : List (String × Definition)) (scope name : String) :
    Option (String × Definition) :=
  if name.startsWith "." then
    (lookupName names (name.drop 1)).map fun d => (name, d)
  else
    let pivot := firstSegment name
    match (scopeChain scope).find? fun pfx =>
        (lookupName names (joinFullName pfx pivot)).isSome with
    | none => none
    | some pfx =>
      match lookupName names (joinFullName pfx name) with
      | some d => some ("." ++ joinFullName pfx name, d)
      | none => none

/-! ### Locating raw protos by source path (`find_message_proto` /
`find_enum_proto` are in descriptor/mod.rs, not under src/; modelled from
the source-location path conventions, §Glossary). -/

def findMessageProtoIn (m : DescriptorProto) : List Int → Option DescriptorProto
  | [] => some m
  | t :: i :: rest =>
    if t = tagMessageNestedType ∧ 0 ≤ i then
      match m.nested_type.get? i.toNat with
      | some m' => findMessageProtoIn m' rest
      | none => none
    else none
  | _ => none

def findMessageProto (f : FileDescriptorProto) (path : List Int) :
    Option DescriptorProto :=
  match path with
  | t :: i :: rest =>
    if t = tagFileMessageType ∧ 0 ≤ i then
      match f.message_type.get? i.toNat with
      | some m => findMessageProtoIn m rest
      | none => none
    else none
  | _ => none

def findEnumProtoIn (m : DescriptorProto) : List Int → Option EnumDescriptorProto
  | [t, i] => if t = tagMessageEnumType ∧ 0 ≤ i then m.enum_type.get? i.toNat else none
  | t :: i :: rest =>
    if t = tagMessageNestedType ∧ 0 ≤ i then
      (m.nested_type.get? i.toNat).bind fun m' => findEnumProtoIn m' rest
    else none
  | _ => none

def findEnumProto (f : FileDescriptorProto) (path : List Int) :
    Option EnumDescriptorProto :=
  match path with
  | [t, i] => if t = tagFileEnumType ∧ 0 ≤ i then f.enum_type.get? i.toNat else none
  | t :: i :: rest =>
    if t = tagFileMessageType ∧ 0 ≤ i then
      (f.message_type.get? i.toNat).bind fun m => findEnumProtoIn m rest
    else none
  | _ => none

/-! ### Canonicalization write-back (`set_file_type_name` and friends,
resolve.rs lines 901-975; `debug_assert`s are release no-ops, `panic!` arms
are `none`). -/

def dpWithField (m : DescriptorProto) (fs : List FieldDescriptorProto) :
    DescriptorProto :=
  match m with
  | .mk n _ nt et er ex od op rr => .mk n fs nt et er ex od op rr

def dpWithNestedType (m : DescriptorProto) (nt : List DescriptorProto) :
    DescriptorProto :=
  match m with
  | .mk n f _ et er ex od op rr => .mk n f nt et er ex od op rr

def dpWithExtension (m : DescriptorProto)
    (ex : List FieldDescriptorProto) : DescriptorProto :=
  match m with
  | .mk n f nt et er _ od op rr => .mk n f nt et er ex od op rr

/-- `field.set_type(ty)`. -/
def setType (f : FieldDescriptorProto) (t : ProtoType) : FieldDescriptorProto :=
  { f with ty := some t.toI32 }

def setFieldTypeName (f : FieldDescriptorProto) (tag : Int) (tn : String)
    (t : ProtoType) : Option FieldDescriptorProto :=
  if tag = tagFieldTypeName then
    let f1 := { f with type_name := some tn }
    some (if f1.gtype ≠ .group then setType f1 t else f1)
  else if tag = tagFieldExtendee then
    some { f with extendee := some tn }
  else none

def setMessageTypeName (m : DescriptorProto) (path : List Int) (tag : Int)
    (tn : String) (t : ProtoType) : Option DescriptorProto :=
  match path with
  | p0 :: i :: rest =>
    if p0 = tagMessageField then
      if 0 ≤ i then
        match m.field.get? i.toNat with
        | some f => (setFieldTypeName f tag tn t).map fun f' =>
            dpWithField m (m.field.set i.toNat f')
        | none => none
      else none
    else if p0 = tagMessageExtension then
      if 0 ≤ i then
        match m.extension.get? i.toNat with
        | some f => (setFieldTypeName f tag tn t).map fun f' =>
            dpWithExtension m (m.extension.set i.toNat f')
        | none => none
      else none
    else if p0 = tagMessageNestedType then
      if 0 ≤ i then
        match m.nested_type.get? i.toNat with
        | some nm => (setMessageTypeName nm rest tag tn t).map fun nm' =>
            dpWithNestedType m (m.nested_type.set i.toNat nm')
        | none => none
      else none
    else none
  | _ => none
  termination_by path.length

def setFileTypeName (f : FileDescriptorProto) (path : List Int) (tag : Int)
    (tn : String) (t : ProtoType) : Option FileDescriptorProto :=
  match path with
  | p0 :: i :: rest =>
    if p0 = tagFileMessageType then
      if 0 ≤ i then
        match f.message_type.get? i.toNat with
        | some m => (setMessageTypeName m rest tag tn t).map fun m' =>
            { f with message_type := f.message_type.set i.toNat m' }
        | none => none
      else none
    else if p0 = tagFileService then
      match rest with
      | _p2 :: mi :: _ =>
        if 0 ≤ i ∧ 0 ≤ mi then
          match f.service.get? i.toNat with
          | some sv =>
            match sv.method.get? mi.toNat with
            | some md =>
              if tag = tagMethodInputType then
                let md' := { md with input_type := some tn }
                let sv' := { sv with method := sv.method.set mi.toNat md' }
                some { f with service := f.service.set i.toNat sv' }
              else if tag = tagMethodOutputType then
                let md' := { md with output_type := some tn }
                let sv' := { sv with method := sv.method.set mi.toNat md' }
                some { f with service := f.service.set i.toNat sv' }
              else none
            | none => none
          | none => none
        else none
      | _ => none
    else if p0 = tagFileExtension then
      if 0 ≤ i then
        match f.extension.get? i.toNat with
        | some e => (setFieldTypeName e tag tn t).map fun e' =>
            { f with extension := f.extension.set i.toNat e' }
        | none => none
      else none
    else none
  | _ => none

/-! ### The visitor callbacks (`impl Visitor for ResolveVisitor`) -/

/-- `HashMap::insert`: returns the previous value and the updated map. -/
def insertAssocNat (m : List (Nat × Nat)) (k v : Nat) : Option Nat × List (Nat × Nat) :=
  match m.find? fun p => p.1 = k with
  | some p => (some p.2, m.map fun q => if q.1 = k then (k, v) else q)
  | none => (none, m ++ [(k, v)])

def insertAssocStr (m : List (String × Nat)) (k : String) (v : Nat) :
    Option Nat × List (String × Nat) :=
  match m.find? fun p => p.1 = k with
  | some p => (some p.2, m.map fun q => if q.1 = k then (k, v) else q)
  | none => (none, m ++ [(k, v)])

def lookupStr (m : List (String × Nat)) (k : String) : Option Nat :=
  (m.find? fun p => p.1 = k).map Prod.snd

def setRaw (st : VisitState) (file : Nat) (fs : FileState)
    (raw' : FileDescriptorProto) : VisitState :=
  { st with pool := { st.pool with
      files := st.pool.files.set file { fs with raw := raw' } } }

/-- `ResolveVisitor::resolve_name` (resolve.rs 744-775): relative resolution
through the name table, then the canonicalization write-back into the raw
file.  For a message definition the numeric tag is MESSAGE, for every other
definition kind ENUM. -/
def resolveNameSt (st : VisitState) (scope name : String) (file : Nat)
    (path : List Int) (tag : Int) : Option (VisitState × Option Definition) :=
  match resolveNameTable st.pool.names scope name with
  | some (typeName, d) =>
    let t : ProtoType := match d.kind with
      | .message _ => .message
      | _ => .enum
    match st.pool.files.get? file with
    | none => none
    | some fs =>
      match setFileTypeName fs.raw path tag typeName t with
      | none => none
      | some raw' => some (setRaw st file fs raw', some d)
  | none => some (st, none)

/-- `ResolveVisitor::find_message` (resolve.rs 699-742). -/
def findMessageSt (st : VisitState) (scope name : String) (file : Nat)
    (path1 : List Int) (path2 : Int) : Option (VisitState × Option Nat) :=
  match resolveNameSt st scope name file path1 path2 with
  | none => none
  | some (st1, some d) =>
    match d.kind with
    | .message m => some (st1, some m)
    | _ => some (pushErr st1 (.invalidType name "a message type"
        (Label.new st1.pool.files "found here" file (joinPath path1 [path2]))
        (Label.new st1.pool.files "defined here" d.file d.path)), none)
  | some (st1, none) =>
    some (pushErr st1 (.nameNotFound name
      (Label.new st1.pool.files "found here" file (joinPath path1 [path2]))), none)

def addMissingRequiredFieldError (st : VisitState) (file : Nat)
    (path : List Int) : VisitState :=
  pushErr st (.missingRequiredField (Label.new st.pool.files "found here" file path))

/-- `ResolveVisitor::resolve_field_type` (resolve.rs 527-620). -/
def resolveFieldTypeSt (st : VisitState) (ty : Option Int) (tyName scope : String)
    (file : Nat) (path : List Int) : Option (VisitState × Except Unit KindIndex) :=
  if tyName = "" then
    match ty.bind ProtoType.fromI32 with
    | none =>
      some (addMissingRequiredFieldError st file (joinPath path [tagFieldType]),
        .error ())
    | some t =>
      match t with
      | .double => some (st, .ok .double)
      | .float => some (st, .ok .float)
      | .int64 => some (st, .ok .int64)
      | .uint64 => some (st, .ok .uint64)
      | .int32 => some (st, .ok .int32)
      | .fixed64 => some (st, .ok .fixed64)
      | .fixed32 => some (st, .ok .fixed32)
      | .bool => some (st, .ok .bool)
      | .string => some (st, .ok .string)
      | .bytes => some (st, .ok .bytes)
      | .uint32 => some (st, .ok .uint32)
      | .sfixed32 => some (st, .ok .sfixed32)
      | .sfixed64 => some (st, .ok .sfixed64)
      | .sint32 => some (st, .ok .sint32)
      | .sint64 => some (st, .ok .sint64)
      | .group | .message | .enum =>
        some (addMissingRequiredFieldError st file (joinPath path [tagFieldTypeName]),
          .error ())
  else
    match resolveNameSt st scope tyName file path tagFieldTypeName with
    | none => none
    | some (st1, some d) =>
      match d.kind with
      | .message m =>
        if ty = some 10 then some (st1, .ok (.group m))
        else some (st1, .ok (.message m))
      | .enum e => some (st1, .ok (.enum e))
      | _ =>
        some (pushErr st1 (.invalidType tyName "a message or enum type"
          (Label.new st1.pool.files "found here" file (joinPath path [tagFieldTypeName]))
          (Label.new st1.pool.files "defined here" d.file d.path)), .error ())
    | some (st1, none) =>
      some (pushErr st1 (.nameNotFound tyName
        (Label.new st1.pool.files "found here" file
          (joinPath path [tagFieldTypeName]))), .error ())

/-- `parse_simple_value` (resolve.rs 784-806); the `unreachable!()` arms for
enum / message / group kinds are a panic (`none`). -/
def parseSimpleValue (kind : KindIndex) (value : String) :
    Option (Except Unit Value) :=
  match kind with
  | .double => some (if rustParseFloatOk value then .ok (.f64 value) else .error ())
  | .float => some (if rustParseFloatOk value then .ok (.f32 value) else .error ())
  | .int32 | .sint32 | .sfixed32 =>
    some (match rustParseI32 value with
      | some n => .ok (.i32 n)
      | none => .error ())
  | .int64 | .sint64 | .sfixed64 =>
    some (match rustParseI64 value with
      | some n => .ok (.i64 n)
      | none => .error ())
  | .uint32 | .fixed32 =>
    some (match rustParseU32 value with
      | some n => .ok (.u32 n)
      | none => .error ())
  | .uint64 | .fixed64 =>
    some (match rustParseU64 value with
      | some n => .ok (.u64 n)
      | none => .error ())
  | .bool =>
    some (match rustParseBool value with
      | some b => .ok (.bool b)
      | none => .error ())
  | .string => some (.ok (.string value))
  | .bytes =>
    match unescapeCEscapeString (strBytes value) with
    | .ok bs => some (.ok (.bytes bs))
    | .err _ => some (.error ())
    | .crash => none
  | .enum _ | .message _ | .group _ => none

/-- `format!("{:?}", kind)` for the scalar kinds (the only ones that reach
the error message). -/
def KindIndex.debugStr : KindIndex → String
  | .double => "Double" | .float => "Float" | .int64 => "Int64"
  | .uint64 => "Uint64" | .int32 => "Int32" | .fixed64 => "Fixed64"
  | .fixed32 => "Fixed32" | .bool => "Bool" | .string => "String"
  | .bytes => "Bytes" | .uint32 => "Uint32" | .sfixed32 => "Sfixed32"
  | .sfixed64 => "Sfixed64" | .sint32 => "Sint32" | .sint64 => "Sint64"
  | .message _ => "Message" | .enum _ => "Enum" | .group _ => "Group"

/-- `ResolveVisitor::parse_field_default_value` (resolve.rs 622-697). -/
def parseFieldDefaultValueSt (st : VisitState) (kind : KindIndex)
    (dv : Option String) (file : Nat) (path : List Int) :
    Option (VisitState × Option Value) :=
  match dv with
  | none => some (st, none)
  | some value =>
    match kind with
    | .enum e =>
      match st.pool.enums.get? e with
      | none => none
      | some en =>
        match en.values.find? fun v => v.id.name = value with
        | some v => some (st, some (.enumNumber v.number))
        | none => some (pushErr st (.invalidFieldDefault value en.id.full_name
            (Label.new st.pool.files "found here" file
              (joinPath path [tagFieldDefaultValue]))), none)
    | .message _ | .group _ =>
      some (pushErr st (.invalidFieldDefault value "message type"
        (Label.new st.pool.files "found here" file
          (joinPath path [tagFieldDefaultValue]))), none)
    | k =>
      match parseSimpleValue k value with
      | none => none
      | some (.ok v) => some (st, some v)
      | some (.error _) => some (pushErr st (.invalidFieldDefault value k.debugStr
          (Label.new st.pool.files "found here" file
            (joinPath path [tagFieldDefaultValue]))), none)

/-- Modelled from the spec (the constants live in descriptor/mod.rs, not
under src/): `VALID_MESSAGE_FIELD_NUMBERS = 1..=536870911` and the reserved
window `19000..=19999`. -/
def inValidFieldRange (n : Int) : Bool := 1 ≤ n && n ≤ 536870911

def inReservedFieldRange (n : Int) : Bool := 19000 ≤ n && n ≤ 19999

/-- `ResolveVisitor::check_field_number` (resolve.rs 404-492), as the list
of errors it pushes, in push order. -/
def checkFieldNumber (pool : DescriptorPoolInner) (message : Nat)
    (field : FieldDescriptorProto) (file : Nat) (path : List Int) :
    Option (List DescriptorErrorKind) :=
  match pool.messages.get? message with
  | none => none
  | some msg =>
    match pool.files.get? msg.id.file with
    | none => none
    | some fileOfMsg =>
      match findMessageProto fileOfMsg.raw msg.id.path with
      | none => none
      | some mp =>
        let n := field.gnumber
        let e1 : List DescriptorErrorKind :=
          if !(inValidFieldRange n) || inReservedFieldRange n then
            [.invalidFieldNumber n (Label.new pool.files "defined here" file
              (joinPath path [tagFieldNumber]))]
          else []
        let e2 : List DescriptorErrorKind := mp.reserved_range.enum.filterMap fun p =>
          if p.2.grstart ≤ n ∧ n < p.2.grend then
            some (.fieldNumberInReservedRange n p.2.grstart p.2.grend
              (Label.new pool.files "reserved range defined here" msg.id.file
                (joinPath msg.id.path [tagMessageReservedRange, (p.1 : Int)]))
              (Label.new pool.files "defined here" file (joinPath path [tagFieldNumber])))
          else none
        let extHit := mp.extension_range.enum.find? fun p =>
          decide (p.2.grstart ≤ n ∧ n < p.2.grend)
        let e3 : List DescriptorErrorKind :=
          match field.extendee, extHit with
          | none, none => []
          | some _, some _ => []
          | none, some p =>
            [.fieldNumberInExtensionRange n p.2.grstart p.2.grend
              (Label.new pool.files "extension range defined here" msg.id.file
                (joinPath msg.id.path [tagMessageExtensionRange, (p.1 : Int)]))
              (Label.new pool.files "defined here" file (joinPath path [tagFieldNumber]))]
          | some _, none =>
            [.extensionNumberOutOfRange n msg.id.full_name
              (Label.new pool.files "defined here" file (joinPath path [tagFieldNumber]))]
        some (e1 ++ e2 ++ e3)

/-- `ResolveVisitor::check_enum_number` (resolve.rs 494-525): enum reserved
ranges are inclusive on both ends. -/
def checkEnumNumber (pool : DescriptorPoolInner) (enumIdx : Nat)
    (value : EnumValueDescriptorProto) (file : Nat) (path : List Int) :
    Option (List DescriptorErrorKind) :=
  match pool.enums.get? enumIdx with
  | none => none
  | some en =>
    match pool.files.get? en.id.file with
    | none => none
    | some fo =>
      match findEnumProto fo.raw en.id.path with
      | none => none
      | some ep =>
        let n := value.gnumber
        some (ep.reserved_range.enum.filterMap fun p =>
          if p.2.grstart ≤ n ∧ n ≤ p.2.grend then
            some (.enumNumberInReservedRange n p.2.grstart p.2.grend
              (Label.new pool.files "reserved range defined here" en.id.file
                (joinPath en.id.path [tagEnumReservedRange, (p.1 : Int)]))
              (Label.new pool.files "defined here" file (joinPath path [tagFieldNumber])))
          else none)

/-- The dependency loop of `visit_file` (resolve.rs 51-68): resolve each
dependency string through `file_names`, pushing the handle into
`files[index].dependencies`, or record `FileNotFound`. -/
def visitFileDeps (st : VisitState) (index : Nat) (path : List Int) :
    List (Nat × String) → Option VisitState
  | [] => some st
  | (i, dep) :: rest =>
    match lookupStr st.pool.file_names dep with
    | some depIdx =>
      match st.pool.files.get? index with
      | none => none
      | some fs =>
        visitFileDeps
          { st with pool := { st.pool with
              files := st.pool.files.set index
                { fs with dependencies := fs.dependencies ++ [depIdx] } } }
          index path rest
    | none =>
      visitFileDeps
        (pushErr st (.fileNotFound dep (Label.new st.pool.files "found here" index
          (joinPath path [tagFileDependency, (i : Int)])))) index path rest

/-- `visit_file` (resolve.rs 51-79): dependencies, then the
`public_dependency` / `weak_dependency` index checks
(`usize::try_from(i).is_ok_and(i < len)`). -/
def visitFileSt (st : VisitState) (path : List Int) (index : Nat)
    (file : FileDescriptorProto) : Option VisitState :=
  match visitFileDeps st index path file.dependency.enum with
  | none => none
  | some st =>
    let st := file.public_dependency.foldl
      (fun st pd =>
        if 0 ≤ pd ∧ pd.toNat < file.dependency.length then st
        else pushErr st .invalidImportIndex) st
    let st := file.weak_dependency.foldl
      (fun st wd =>
        if 0 ≤ wd ∧ wd.toNat < file.dependency.length then st
        else pushErr st .invalidImportIndex) st
    some st

/-- The cardinality derived from the raw label (resolve.rs 99-103). -/
def cardinalityOf (field : FieldDescriptorProto) : Cardinality :=
  match field.glabel with
  | .optional => .optional
  | .required => .required
  | .repeated => .repeated

/-- The `is_packed` computation of `visit_field` / `visit_extension`
(resolve.rs 107-112 and 378-383): repeated cardinality, packable resolved
kind, and `options.as_ref().map_or(syntax == Proto3, |o| o.value.packed())`
— if an options message is present, only an explicit `packed = true` counts;
the Proto3 default applies only when the options message is absent. -/
def fieldIsPacked (cardinality : Cardinality) (kind : Except Unit KindIndex)
    (options : Option FieldOptions) (syn : Syn) : Bool :=
  cardinality == .repeated &&
  (match kind with
    | .ok k => k.is_packable
    | .error _ => false) &&
  (match options with
    | none => syn == .proto3
    | some o => o.gpacked)

/-- The `supports_presence` computation of `visit_field` (resolve.rs
114-117). -/
def fieldSupportsPresence (field : FieldDescriptorProto)
    (cardinality : Cardinality) (kind : Except Unit KindIndex) (syn : Syn) : Bool :=
  field.gproto3Optional || field.oneof_index.isSome ||
  (cardinality != .repeated &&
    ((match kind with
      | .ok k => k.is_message
      | .error _ => false) || syn == .proto2))

/-- The default-value step of `visit_field` / `visit_extension`: run
`parse_field_default_value` only when the kind resolved (a failed kind skips
the default parse, `None`). -/
def parseDefaultIfOk (st : VisitState) (kind : Except Unit KindIndex)
    (dv : Option String) (file : Nat) (path : List Int) :
    Option (VisitState × Option Value) :=
  match kind with
  | .ok k => parseFieldDefaultValueSt st k dv file path
  | .error _ => some (st, none)

/-- The oneof-index step of `visit_field` (resolve.rs 119-133): a negative or
out-of-range index is an `InvalidOneofIndex` error (the field keeps
`oneof = None`); otherwise the local field index is pushed into the oneof. -/
def oneofCheck (st : VisitState) (msg : MessageInner) (index : Nat)
    (oneofIdx : Option Int) : Option (MessageInner × VisitState × Option Nat) :=
  match oneofIdx with
  | none => some (msg, st, none)
  | some oi =>
    if oi < 0 ∨ (msg.oneofs.length : Int) ≤ oi then
      some (msg, pushErr st .invalidOneofIndex, none)
    else
      match msg.oneofs.get? oi.toNat with
      | none => none
      | some oo =>
        let oo' := { oo with fields := oo.fields ++ [index] }
        some ({ msg with oneofs := msg.oneofs.set oi.toNat oo' }, st, some oi.toNat)

/-- One `HashMap::insert` duplicate report of `visit_field`: when `insert`
returned an old local index, cite the first site (read from the freshly
pushed field list) and the new one. -/
def dupCheck {α : Type} (st : VisitState) (old : Option Nat)
    (xs : List α) (mk : α → DescriptorErrorKind) : Option VisitState :=
  match old with
  | none => some st
  | some existing =>
    match xs.get? existing with
    | none => none
    | some ex => some (pushErr st (mk ex))

/-- The tail of `visit_field` (resolve.rs 135-208): push the new field and
register it in the number / name / JSON-name maps, reporting duplicates
(both sites cited), then write the message back. -/
def finishField (st : VisitState) (msg : MessageInner) (messageIdx index : Nat)
    (field : FieldDescriptorProto) (path : List Int) (fullName : String)
    (newField : FieldDescriptorInner) : Option VisitState :=
  let file := newField.id.file
  let msg := { msg with fields := msg.fields ++ [newField] }
  let ins1 := insertAssocNat msg.field_numbers (u32OfInt field.gnumber) index
  let msg := { msg with field_numbers := ins1.2 }
  match dupCheck st ins1.1 msg.fields (fun ex => .duplicateFieldNumber
      (u32OfInt field.gnumber)
      (Label.new st.pool.files "first defined here" file
        (joinPath ex.id.path [tagFieldNumber]))
      (Label.new st.pool.files "defined again here" file
        (joinPath path [tagFieldNumber]))) with
  | none => none
  | some st =>
    let ins2 := insertAssocStr msg.field_names field.gname index
    let msg := { msg with field_names := ins2.2 }
    match dupCheck st ins2.1 msg.fields (fun ex => .duplicateName fullName
        (Label.new st.pool.files "first defined here" file
          (joinPath ex.id.path [tagFieldName]))
        (Label.new st.pool.files "defined again here" file
          (joinPath path [tagFieldName]))) with
    | none => none
    | some st =>
      let ins3 := insertAssocStr msg.field_json_names field.gjsonName index
      let msg := { msg with field_json_names := ins3.2 }
      match dupCheck st ins3.1 msg.fields (fun ex => .duplicateFieldJsonName
          field.gjsonName
          (Label.new st.pool.files "first defined here" file
            (joinPath ex.id.path [tagFieldName]))
          (Label.new st.pool.files "defined again here" file
            (joinPath path [tagFieldName]))) with
      | none => none
      | some st =>
        some { st with pool := { st.pool with
          messages := st.pool.messages.set messageIdx msg } }

/-- `visit_field` (resolve.rs 81-209). -/
def visitFieldSt (st : VisitState) (path : List Int) (fullName : String)
    (file messageIdx index : Nat) (field : FieldDescriptorProto) :
    Option VisitState :=
  match st.pool.files.get? file with
  | none => none
  | some fs0 =>
    let syn := fs0.syn
    match checkFieldNumber st.pool messageIdx field file path with
    | none => none
    | some errs1 =>
      let st := pushErrs st errs1
      let cardinality := cardinalityOf field
      match resolveFieldTypeSt st field.ty field.gtypeName fullName file path with
      | none => none
      | some (st, kind) =>
        let is_packed := fieldIsPacked cardinality kind field.options syn
        let supports_presence := fieldSupportsPresence field cardinality kind syn
        match parseDefaultIfOk st kind field.default_value file path with
        | none => none
        | some (st, default) =>
          match st.pool.messages.get? messageIdx with
          | none => none
          | some msg =>
            match oneofCheck st msg index field.oneof_index with
            | none => none
            | some (msg, st, oneof) =>
              let newField : FieldDescriptorInner :=
                { id := Identity.new file path fullName field.gname
                  number := u32OfInt field.gnumber
                  kind := match kind with
                    | .ok k => k
                    | .error _ => .double
                  oneof := oneof
                  is_packed := is_packed
                  supports_presence := supports_presence
                  cardinality := cardinality
                  default := default }
              finishField st msg messageIdx index field path fullName newField

/-- `visit_service` (resolve.rs 211-225). -/
def visitServiceSt (st : VisitState) (path : List Int) (fullName : String)
    (file _index : Nat) (service : ServiceDescriptorProto) : VisitState :=
  { st with pool := { st.pool with
      services := st.pool.services ++
        [{ id := Identity.new file path fullName service.gname, methods := [] }] } }

/-- `visit_method` (resolve.rs 227-267): failed input / output resolution
leaves the `MessageIndex::MAX` sentinel and the method is still recorded. -/
def visitMethodSt (st : VisitState) (path : List Int) (fullName : String)
    (file serviceIdx : Nat) (_index : Nat) (method : MethodDescriptorProto) :
    Option VisitState :=
  match findMessageSt st fullName method.ginputType file path tagMethodInputType with
  | none => none
  | some (st, inOpt) =>
    match findMessageSt st fullName method.goutputType file path tagMethodOutputType with
    | none => none
    | some (st, outOpt) =>
      match st.pool.services.get? serviceIdx with
      | none => none
      | some sv =>
        some { st with pool := { st.pool with
          services := st.pool.services.set serviceIdx
            { sv with methods := sv.methods ++
              [{ id := Identity.new file path fullName method.gname
                 input := inOpt.getD MessageIndexMAX
                 output := outOpt.getD MessageIndexMAX }] } } }

/-- The `binary_search_by` step of `visit_enum_value` (resolve.rs 283-320):
an existing value with the same number is a `DuplicateEnumNumber` unless
`allow_alias`; the returned position keeps `value_numbers` sorted. -/
def enumNumberInsertPos (st : VisitState) (en : EnumInner)
    (value : EnumValueDescriptorProto) (file : Nat) (path : List Int) :
    Option (Nat × VisitState) :=
  match en.value_numbers.enum.find? fun p => decide (p.2.1 = value.gnumber) with
  | some hit =>
    if !en.allow_alias then
      match en.values.get? hit.2.2 with
      | none => none
      | some ev => some (hit.1, pushErr st (.duplicateEnumNumber value.gnumber
          (Label.new st.pool.files "first defined here" en.id.file
            (joinPath ev.id.path [tagEnumValueNumber]))
          (Label.new st.pool.files "defined again here" file
            (joinPath path [tagEnumValueNumber]))))
    else some (hit.1, st)
  | none =>
    some ((en.value_numbers.filter fun p =>
      decide (p.1 < value.gnumber)).length, st)

/-- `visit_enum_value` (resolve.rs 269-336): reserved-range check, sorted
insertion into `value_numbers` (`binary_search_by`: a hit with
`allow_alias = false` is a `DuplicateEnumNumber`, and the value is inserted
either way), then name uniqueness. -/
def visitEnumValueSt (st : VisitState) (path : List Int) (fullName : String)
    (file enumIdx index : Nat) (value : EnumValueDescriptorProto) :
    Option VisitState :=
  match checkEnumNumber st.pool enumIdx value file path with
  | none => none
  | some errs =>
    let st := pushErrs st errs
    match st.pool.enums.get? enumIdx with
    | none => none
    | some en =>
      match enumNumberInsertPos st en value file path with
      | none => none
      | some (pos, st) =>
        let en := { en with
          value_numbers := en.value_numbers.insertIdx pos (value.gnumber, index) }
        let ins := insertAssocStr en.value_names value.gname index
        let en := { en with value_names := ins.2 }
        match dupCheck st ins.1 en.values (fun ev => .duplicateName fullName
            (Label.new st.pool.files "first defined here" file
              (joinPath ev.id.path [tagEnumValueName]))
            (Label.new st.pool.files "defined again here" file
              (joinPath path [tagEnumValueName]))) with
        | none => none
        | some st =>
          some { st with pool := { st.pool with
            enums := st.pool.enums.set enumIdx en } }

/-- `visit_extension` (resolve.rs 338-400): extendee resolution (with the
`MessageIndex::MAX` sentinel on failure), number check against the
extendee, then the same kind / packed / default computations as for fields,
and the push into the global extensions arena. -/
def visitExtensionSt (st : VisitState) (path : List Int) (fullName : String)
    (file : Nat) (parent : Option Nat) (index : Nat)
    (extension : FieldDescriptorProto) : Option VisitState :=
  match findMessageSt st fullName extension.gextendee file path tagFieldExtendee with
  | none => none
  | some (st, extendee) =>
    match (match extendee with
      | none => some st
      | some ext =>
        match st.pool.messages.get? ext with
        | none => none
        | some m =>
          let st := { st with pool := { st.pool with
              messages := st.pool.messages.set ext
                { m with extensions := m.extensions ++ [index] } } }
          match checkFieldNumber st.pool ext extension file path with
          | none => none
          | some errs => some (pushErrs st errs)) with
    | none => none
    | some st =>
      match st.pool.files.get? file with
      | none => none
      | some fs =>
        let syn := fs.syn
        let cardinality := cardinalityOf extension
        match resolveFieldTypeSt st extension.ty extension.gtypeName fullName
            file path with
        | none => none
        | some (st, kind) =>
          let is_packed := fieldIsPacked cardinality kind extension.options syn
          match parseDefaultIfOk st kind extension.default_value file path with
          | none => none
          | some (st, default) =>
            some { st with pool := { st.pool with
              extensions := st.pool.extensions ++
                [{ id := Identity.new file path fullName extension.gname
                   parent := parent
                   number := u32OfInt extension.gnumber
                   json_name := "[" ++ fullName ++ "]"
                   extendee := extendee.getD MessageIndexMAX
                   kind := match kind with
                     | .ok k => k
                     | .error _ => .double
                   is_packed := is_packed
                   cardinality := cardinality
                   default := default }] } }

/-! ### The visitor driver (`build/visit.rs` is not under src/; modelled
from the spec §4.D: one deterministic traversal starting at the offsets,
computing full name, source path and parent handle for every declaration,
pure dispatch with no validation). -/

inductive VisitEvent where
  | file (path : List Int) (index : Nat) (fd : FileDescriptorProto)
  | field (path : List Int) (fullName : String) (file messageIdx index : Nat)
      (fd : FieldDescriptorProto)
  | service (path : List Int) (fullName : String) (file index : Nat)
      (sd : ServiceDescriptorProto)
  | method (path : List Int) (fullName : String) (file serviceIdx index : Nat)
      (md : MethodDescriptorProto)
  | enumValue (path : List Int) (fullName : String) (file enumIdx index : Nat)
      (vd : EnumValueDescriptorProto)
  | extension (path : List Int) (fullName : String) (file : Nat)
      (parent : Option Nat) (index : Nat) (fd : FieldDescriptorProto)

def stepEvent (st : VisitState) : VisitEvent → Option VisitState
  | .file path index fd => visitFileSt st path index fd
  | .field path fn file m i fd => visitFieldSt st path fn file m i fd
  | .service path fn file i sd => some (visitServiceSt st path fn file i sd)
  | .method path fn file sv i md => visitMethodSt st path fn file sv i md
  | .enumValue path fn file e i vd => visitEnumValueSt st path fn file e i vd
  | .extension path fn file p i fd => visitExtensionSt st path fn file p i fd

def runEvents : List VisitEvent → VisitState → Option VisitState
  | [], st => some st
  | e :: rest, st =>
    match stepEvent st e with
    | none => none
    | some st' => runEvents rest st'

/-- Modelled from the spec (§4.D, §6): the handle offsets at which an
incremental traversal starts. -/
structure DescriptorPoolOffsets where
  file : Nat
  message : Nat
  enum : Nat
  service : Nat
  extension : Nat

/-- Running handle counters during event generation. -/
structure VisitCounters where
  message : Nat
  enum : Nat
  extension : Nat

/-- Events for one enum: one `visit_enum_value` per value. -/
def enumEvents (file : Nat) (epath : List Int) (enumFull : String) (eIdx : Nat)
    (ep : EnumDescriptorProto) : List VisitEvent :=
  ep.value.enum.map fun p =>
    .enumValue (epath ++ [tagEnumValue, (p.1 : Int)])
      (joinFullName enumFull p.2.gname) file eIdx p.1 p.2

mutual

/-- Events for one message (handle already allocated): its fields, then the
nested subtree, then nested enums and their values, then nested extensions. -/
def messageEvents (file : Nat) (mpath : List Int) (mFull : String)
    (mIdx : Nat) (mp : DescriptorProto) (c : VisitCounters) :
    List VisitEvent × VisitCounters :=
  match mp with
  | .mk _ fields nested etys _ exts _ _ _ =>
    let fieldEvs := fields.enum.map fun p =>
      VisitEvent.field (mpath ++ [tagMessageField, (p.1 : Int)])
        (joinFullName mFull p.2.gname) file mIdx p.1 p.2
    let nestedRes := messagesEvents file mpath tagMessageNestedType mFull 0 nested c
    let enumEvs := etys.enum.foldl
      (fun (acc : List VisitEvent × VisitCounters) p =>
        let evs := enumEvents file (mpath ++ [tagMessageEnumType, (p.1 : Int)])
          (joinFullName mFull p.2.gname) acc.2.enum p.2
        (acc.1 ++ evs, { acc.2 with enum := acc.2.enum + 1 }))
      ([], nestedRes.2)
    let extEvs := exts.enum.foldl
      (fun (acc : List VisitEvent × VisitCounters) p =>
        (acc.1 ++ [VisitEvent.extension (mpath ++ [tagMessageExtension, (p.1 : Int)])
          (joinFullName mFull p.2.gname) file (some mIdx) acc.2.extension p.2],
         { acc.2 with extension := acc.2.extension + 1 }))
      ([], enumEvs.2)
    (fieldEvs ++ nestedRes.1 ++ enumEvs.1 ++ extEvs.1, extEvs.2)

/-- Events for a declaration-ordered list of sibling messages (pre-order
handle allocation); the `Nat` argument is the path index of the first
sibling. -/
def messagesEvents (file : Nat) (base : List Int) (tag : Int) (ns : String) :
    Nat → List DescriptorProto → VisitCounters → List VisitEvent × VisitCounters
  | _, [], c => ([], c)
  | i, mp :: rest, c =>
    let mIdx := c.message
    let here := messageEvents file (base ++ [tag, (i : Int)]) (joinFullName ns mp.gname)
      mIdx mp { c with message := c.message + 1 }
    let after := messagesEvents file base tag ns (i + 1) rest here.2
    (here.1 ++ after.1, after.2)

end

/-- Events for one file: `visit_file`, message subtree, file enums, services
and their methods, file extensions (§4.D order). -/
def fileEvents (fileIdx : Nat) (fd : FileDescriptorProto) (svcBase : Nat)
    (c : VisitCounters) : List VisitEvent × Nat × VisitCounters :=
  let ns := fd.gpackage
  let msgRes := messagesEvents fileIdx [] tagFileMessageType ns 0 fd.message_type c
  let enumRes := fd.enum_type.enum.foldl
    (fun (acc : List VisitEvent × VisitCounters) p =>
      let evs := enumEvents fileIdx [tagFileEnumType, (p.1 : Int)]
        (joinFullName ns p.2.gname) acc.2.enum p.2
      (acc.1 ++ evs, { acc.2 with enum := acc.2.enum + 1 }))
    ([], msgRes.2)
  let svcEvs := fd.service.enum.foldl
    (fun (acc : List VisitEvent) p =>
      let spath := [tagFileService, (p.1 : Int)]
      let sFull := joinFullName ns p.2.gname
      let sIdx := svcBase + p.1
      acc ++ [VisitEvent.service spath sFull fileIdx sIdx p.2] ++
        (p.2.method.enum.map fun q =>
          VisitEvent.method (spath ++ [tagServiceMethod, (q.1 : Int)])
            (joinFullName sFull q.2.gname) fileIdx sIdx q.1 q.2))
    []
  let extRes := fd.extension.enum.foldl
    (fun (acc : List VisitEvent × VisitCounters) p =>
      (acc.1 ++ [VisitEvent.extension [tagFileExtension, (p.1 : Int)]
        (joinFullName ns p.2.gname) fileIdx none acc.2.extension p.2],
       { acc.2 with extension := acc.2.extension + 1 }))
    ([], enumRes.2)
  (VisitEvent.file [] fileIdx fd :: (msgRes.1 ++ enumRes.1 ++ svcEvs ++ extRes.1),
    svcBase + fd.service.length, extRes.2)

/-- `visit(offsets, files, visitor)`: the full event stream. -/
def visitEvents (offsets : DescriptorPoolOffsets) (files : List FileDescriptorProto) :
    List VisitEvent :=
  (files.enum.foldl
    (fun (acc : List VisitEvent × Nat × VisitCounters) p =>
      let r := fileEvents (offsets.file + p.1) p.2 acc.2.1 acc.2.2
      (acc.1 ++ r.1, r.2.1, r.2.2))
    ([], offsets.service,
      ⟨offsets.message, offsets.enum, offsets.extension⟩)).1

/-- `DescriptorPoolInner::resolve_names` (resolve.rs 26-43): run the
traversal from an empty error list; `Ok(())` exactly when no error was
accumulated, otherwise an error carrying the whole list.  The final pool is
returned alongside (`self` after mutation). -/
def resolveNames (offsets : DescriptorPoolOffsets) (files : List FileDescriptorProto)
    (pool : DescriptorPoolInner) :
    Option (Except (List DescriptorErrorKind) Unit × DescriptorPoolInner) :=
  match runEvents (visitEvents offsets files) ⟨pool, []⟩ with
  | none => none
  | some st => some (if st.errors = [] then .ok () else .error st.errors, st.pool)

/-! ### Frame predicates used by the theorems -/

/-- The error list only ever grows (push-only accumulation). -/
def ErrExt (st st' : VisitState) : Prop :=
  ∃ es, st'.errors = st.errors ++ es

/-- Everything except the raw file descriptors (and the per-file dependency
lists) is untouched: the frame of the canonicalization write-back. -/
def SameArenas (st st' : VisitState) : Prop :=
  st'.pool.messages = st.pool.messages ∧
  st'.pool.enums = st.pool.enums ∧
  st'.pool.services = st.pool.services ∧
  st'.pool.extensions = st.pool.extensions ∧
  st'.pool.names = st.pool.names ∧
  st'.pool.file_names = st.pool.file_names ∧
  st'.pool.files.map (fun fs => fs.syn) = st.pool.files.map (fun fs => fs.syn)

/-- Message field lists and the extension arena are untouched (frame of the
events that do not append fields or extensions). -/
def SameFieldsExts (st st' : VisitState) : Prop :=
  st'.pool.messages.map (fun m => m.fields) = st.pool.messages.map (fun m => m.fields) ∧
  st'.pool.extensions = st.pool.extensions

/-- A legal field number: inside `[1, 2^29 - 1]` and outside the reserved
window `[19000, 19999]` (spec §8.4). -/
def goodFieldNumber (n : Nat) : Prop :=
  1 ≤ n ∧ n ≤ 536870911 ∧ ¬(19000 ≤ n ∧ n ≤ 19999)

/-- Every field of every message, and every extension, carries a legal
number. -/
def InvGoodNumbers (st : VisitState) : Prop :=
  (∀ m ∈ st.pool.messages, ∀ f ∈ m.fields, goodFieldNumber f.number) ∧
  (∀ e ∈ st.pool.extensions, goodFieldNumber e.number)

/-- The spec's (claim C2's) packedness predicate, written from its words:
"either `options.packed` is explicitly true, or `options.packed` is unset
and the enclosing file's syntax is Proto3" — note that it treats `packed`
unset inside a present options message like absent options.  Compare with
`fieldIsPacked`, the code's computation. -/
def claimIsPacked (cardinality : Cardinality) (kind : Except Unit KindIndex)
    (options : Option FieldOptions) (syn : Syn) : Bool :=
  cardinality == .repeated &&
  (match kind with
    | .ok k => k.is_packable
    | .error _ => false) &&
  ((match options with
     | some o => o.packed == some true
     | none => false) ||
   ((match options with
      | some o => o.packed == none
      | none => true) && syn == .proto3))

/-- The numeric type tag written back by `resolve_name`: MESSAGE for a
message definition, ENUM otherwise (resolve.rs 760-763). -/
def definitionProtoType (d : Definition) : ProtoType :=
  match d.kind with
  | .message _ => .message
  | _ => .enum

/-! ### The shape of the canonicalization write-back (claim C4).  These
predicates say, following the spec's words, that exactly one type-name
reference changed — the referenced `type_name` / `extendee` /
`input_type` / `output_type` replaced by the resolved name, the numeric
type tag set for non-GROUP field type references — and nothing else. -/

/-- One field: only the addressed reference (and, for a non-GROUP type
reference, the numeric tag) changes. -/
def FieldWrite (tag : Int) (tn : String) (t : ProtoType)
    (f f' : FieldDescriptorProto) : Prop :=
  f'.name = f.name ∧ f'.number = f.number ∧ f'.label = f.label ∧
  f'.default_value = f.default_value ∧ f'.oneof_index = f.oneof_index ∧
  f'.json_name = f.json_name ∧ f'.proto3_optional = f.proto3_optional ∧
  f'.options = f.options ∧
  ((tag = tagFieldTypeName ∧ f'.type_name = some tn ∧ f'.extendee = f.extendee ∧
      (f.gtype = ProtoType.group → f'.ty = f.ty) ∧
      (f.gtype ≠ ProtoType.group → f'.ty = some t.toI32)) ∨
   (tag = tagFieldExtendee ∧ f'.extendee = some tn ∧ f'.ty = f.ty ∧
      f'.type_name = f.type_name))

/-- One method: only the addressed `input_type` or `output_type` changes. -/
def MethodWrite (tag : Int) (tn : String)
    (md md' : MethodDescriptorProto) : Prop :=
  md'.name = md.name ∧
  ((tag = tagMethodInputType ∧ md'.input_type = some tn ∧
      md'.output_type = md.output_type) ∨
   (tag = tagMethodOutputType ∧ md'.output_type = some tn ∧
      md'.input_type = md.input_type))

/-- One service: one method rewritten by `MethodWrite`, the rest kept. -/
def ServiceWrite (tag : Int) (tn : String)
    (sv sv' : ServiceDescriptorProto) : Prop :=
  sv'.name = sv.name ∧
  ∃ i md md', sv.method.get? i = some md ∧ sv'.method = sv.method.set i md' ∧
    MethodWrite tag tn md md'

/-- One message: one field, one extension, or (recursively) one nested
message rewritten; every sibling entry and every other component kept. -/
inductive MessageWrite (tag : Int) (tn : String) (t : ProtoType) :
    DescriptorProto → DescriptorProto → Prop where
  | field (m : DescriptorProto) (i : Nat) (f f' : FieldDescriptorProto)
      (hget : m.field.get? i = some f) (hw : FieldWrite tag tn t f f') :
      MessageWrite tag tn t m (dpWithField m (m.field.set i f'))
  | extension (m : DescriptorProto) (i : Nat) (f f' : FieldDescriptorProto)
      (hget : m.extension.get? i = some f) (hw : FieldWrite tag tn t f f') :
      MessageWrite tag tn t m (dpWithExtension m (m.extension.set i f'))
  | nested (m : DescriptorProto) (i : Nat) (nm nm' : DescriptorProto)
      (hget : m.nested_type.get? i = some nm)
      (hw : MessageWrite tag tn t nm nm') :
      MessageWrite tag tn t m (dpWithNestedType m (m.nested_type.set i nm'))

/-- One file: exactly one of its top-level lists has one entry rewritten by
the corresponding write; everything else is kept. -/
def FileWrite (tag : Int) (tn : String) (t : ProtoType)
    (f f' : FileDescriptorProto) : Prop :=
  f'.name = f.name ∧ f'.package = f.package ∧ f'.dependency = f.dependency ∧
  f'.public_dependency = f.public_dependency ∧
  f'.weak_dependency = f.weak_dependency ∧ f'.enum_type = f.enum_type ∧
  f'.syn = f.syn ∧
  ((∃ i m m', f.message_type.get? i = some m ∧
      f'.message_type = f.message_type.set i m' ∧ MessageWrite tag tn t m m' ∧
      f'.service = f.service ∧ f'.extension = f.extension) ∨
   (∃ i sv sv', f.service.get? i = some sv ∧
      f'.service = f.service.set i sv' ∧ ServiceWrite tag tn sv sv' ∧
      f'.message_type = f.message_type ∧ f'.extension = f.extension) ∨
   (∃ i e e', f.extension.get? i = some e ∧
      f'.extension = f.extension.set i e' ∧ FieldWrite tag tn t e e' ∧
      f'.message_type = f.message_type ∧ f'.service = f.service))

end ProstReflect.Resolve

/-! ## Theorems -/

namespace ProstReflect

/-! Sanity examples matching the source's own `#[test]` block. -/

example : unescapeCEscapeString [] = .ok [] := by decide

example : unescapeCEscapeString [92, 48] = .ok [0] := by decide

example : unescapeCEscapeString [92, 48, 49, 50, 92, 49, 53, 54] = .ok [10, 110] := by
  decide

example : unescapeCEscapeString [92, 120, 49, 49] = .ok [17] := by decide

example : unescapeCEscapeString [92, 119] = .err "invalid escape character" := by decide

example : unescapeCEscapeString [92, 120, 95, 95] = .err "invalid hex escape" := by decide

/-- C8: the claim asserts the C-escape decoder is total (it never panics) and
that two non-hex-digit characters after `\x` always give the error
"invalid hex escape".  Evaluating the embedded decoder at the deciding
inputs: on the bytes of `"\xaé"` (`[0x5c,0x78,0x61,0xc3,0xa9]`) the code
panics, because the slice `&s[2..4]` ends at byte index 4, inside the
two-byte UTF-8 character `é`; on `"\x+f"` it returns `Ok([0x0f])`, because
`u8::from_str_radix` accepts a leading `+` sign even though `+` is not a hex
digit.  The remaining conjuncts confirm the behaviours the claim gets right:
fewer than two bytes after the `x` give the "hex escape must contain two
characters" error, and `"\x111"` decodes to `[0x11, 0x31]`. -/
theorem c8_unescape_hex_code_bug :
    unescapeCEscapeString [92, 120, 97, 195, 169] = .crash ∧
    unescapeCEscapeString [92, 120, 43, 102] = .ok [15] ∧
    unescapeCEscapeString [92, 120] = .err "hex escape must contain two characters" ∧
    unescapeCEscapeString [92, 120, 49] = .err "hex escape must contain two characters" ∧
    unescapeCEscapeString [92, 120, 49, 49, 49] = .ok [17, 49] := by
  refine ⟨?_, ?_, ?_, ?_, ?_⟩ <;> decide

/-- C9: a `\` followed by an octal digit consumes greedily up to three octal
digits and appends exactly one byte whose value is the octal number modulo
256 (u8 wrapping arithmetic); decoding then continues independently with the
remaining input.  The conjuncts cover the three-digit case, the two- and
one-digit cases (stopping at the first non-octal byte), a lone trailing
digit, and the claim's concrete examples `"\012\156" = [0o12, 0o156]` and
`"\777" = [255]`. -/
theorem c9_octal_escape_greedy_mod256 (d1 d2 d3 e : Nat) (rest : List Nat)
    (h1 : isOctDigit d1 = true) (h2 : isOctDigit d2 = true) (h3 : isOctDigit d3 = true)
    (he : isOctDigit e = false) :
    (unescapeCEscapeString (92 :: d1 :: d2 :: d3 :: rest) =
      .consB ((64 * (d1 - 48) + 8 * (d2 - 48) + (d3 - 48)) % 256)
        (unescapeCEscapeString rest)) ∧
    (unescapeCEscapeString (92 :: d1 :: d2 :: e :: rest) =
      .consB ((8 * (d1 - 48) + (d2 - 48)) % 256) (unescapeCEscapeString (e :: rest))) ∧
    (unescapeCEscapeString (92 :: d1 :: e :: rest) =
      .consB ((d1 - 48) % 256) (unescapeCEscapeString (e :: rest))) ∧
    (unescapeCEscapeString [92, d1] = .ok [(d1 - 48) % 256]) ∧
    unescapeCEscapeString [92, 48, 49, 50, 92, 49, 53, 54] = .ok [10, 110] ∧
    unescapeCEscapeString [92, 55, 55, 55] = .ok [255] := by
  have b1 : 48 ≤ d1 ∧ d1 ≤ 55 := by simpa [isOctDigit] using h1
  have n97 : ¬ d1 = 97 := by omega
  have n98 : ¬ d1 = 98 := by omega
  have n102 : ¬ d1 = 102 := by omega
  have n110 : ¬ d1 = 110 := by omega
  have n114 : ¬ d1 = 114 := by omega
  have n116 : ¬ d1 = 116 := by omega
  have n118 : ¬ d1 = 118 := by omega
  have n92 : ¬ d1 = 92 := by omega
  have n63 : ¬ d1 = 63 := by omega
  have n39 : ¬ d1 = 39 := by omega
  have n34 : ¬ d1 = 34 := by omega
  refine ⟨?_, ?_, ?_, ?_, by decide, by decide⟩
  · simp only [unescapeCEscapeString]
    rw [if_neg n97, if_neg n98, if_neg n102, if_neg n110, if_neg n114,
      if_neg n116, if_neg n118, if_neg n92, if_neg n63, if_neg n39,
      if_neg n34, if_pos h1, if_pos h2, if_pos h3]
  · simp only [unescapeCEscapeString]
    rw [if_neg n97, if_neg n98, if_neg n102, if_neg n110, if_neg n114,
      if_neg n116, if_neg n118, if_neg n92, if_neg n63, if_neg n39,
      if_neg n34, if_pos h1, if_pos h2, if_neg (by simp [he])]
  · cases rest with
    | nil =>
      simp only [unescapeCEscapeString]
      rw [if_neg n97, if_neg n98, if_neg n102, if_neg n110, if_neg n114,
        if_neg n116, if_neg n118, if_neg n92, if_neg n63, if_neg n39,
        if_neg n34, if_pos h1, if_neg (by simp [he])]
    | cons r tl =>
      simp only [unescapeCEscapeString]
      rw [if_neg n97, if_neg n98, if_neg n102, if_neg n110, if_neg n114,
        if_neg n116, if_neg n118, if_neg n92, if_neg n63, if_neg n39,
        if_neg n34, if_pos h1, if_neg (by simp [he])]
  · simp only [unescapeCEscapeString]
    rw [if_neg n97, if_neg n98, if_neg n102, if_neg n110, if_neg n114,
      if_neg n116, if_neg n118, if_neg n92, if_neg n63, if_neg n39,
      if_neg n34, if_pos h1]
    rfl

/-- Witness for C9 at `d1 = 55, d2 = 55, d3 = 55, e = 56`, input `"\777x"`. -/
theorem c9_octal_escape_greedy_mod256_witness :
    unescapeCEscapeString (92 :: 55 :: 55 :: 55 :: [120]) =
      .consB ((64 * (55 - 48) + 8 * (55 - 48) + (55 - 48)) % 256)
        (unescapeCEscapeString [120]) :=
  (c9_octal_escape_greedy_mod256 55 55 55 56 [120] (by decide) (by decide) (by decide)
    (by decide)).1

end ProstReflect


namespace ProstReflect.Legacy

/-! ### C7: map-entry well-formedness (legacy type map) -/

theorem listGet_set_ne {l : List Ty} {i j : Nat} {a : Ty} (h : i ≠ j) :
    (l.set i a).get? j = l.get? j := by
  simp [List.get?_eq_getElem?, List.getElem?_set_ne h]

theorem listGet_set_self {l : List Ty} {i : Nat} {a : Ty} (h : i < l.length) :
    (l.set i a).get? i = some a := by
  simp [List.get?_eq_getElem?, List.getElem?_set_eq_of_lt a h]

theorem listGet_append_left {l l2 : List Ty} {j : Nat} (h : j < l.length) :
    (l ++ l2).get? j = l.get? j := by
  simp [List.get?_eq_getElem?, List.getElem?_append_left h]

theorem listGet_none {l : List Ty} {j : Nat} (h : l.length ≤ j) : l.get? j = none :=
  List.get?_eq_none.mpr h

theorem addWithName_fst (tm : TypeMap) (name : String) (t : Ty) :
    (tm.addWithName name t).1 = tm.types.length := rfl

theorem addWithName_types (tm : TypeMap) (name : String) (t : Ty) :
    (tm.addWithName name t).2.types = tm.types ++ [t] := rfl

theorem setTy_types (tm : TypeMap) (id : Nat) (t : Ty) :
    (tm.setTy id t).types = tm.types.set id t := rfl

theorem grow_refl (tm : TypeMap) : Grow tm tm := by
  refine ⟨Nat.le_refl _, fun j _ => rfl, fun j t hj ht => ?_⟩
  rw [listGet_none hj] at ht
  cases ht

theorem grow_trans {a b c : TypeMap} (h1 : Grow a b) (h2 : Grow b c) : Grow a c := by
  obtain ⟨l1, u1, n1⟩ := h1
  obtain ⟨l2, u2, n2⟩ := h2
  refine ⟨Nat.le_trans l1 l2, fun j hj => ?_, fun j t hj ht => ?_⟩
  · rw [u2 j (Nat.lt_of_lt_of_le hj l1), u1 j hj]
  · rcases Nat.lt_or_ge j b.types.length with hb | hb
    · exact n1 j t hj (by rw [← u2 j hb]; exact ht)
    · exact n2 j t hb ht

theorem grow_addWithName (tm : TypeMap) (name : String) (t : Ty) (h : mapEntryOk t) :
    Grow tm (tm.addWithName name t).2 := by
  refine ⟨by simp [addWithName_types], fun j hj => ?_, fun j u hj hu => ?_⟩
  · rw [addWithName_types]
    exact listGet_append_left hj
  · rw [addWithName_types] at hu
    rcases Nat.lt_or_ge j (tm.types.length + 1) with hlt | hge
    · have hj' : j = tm.types.length := by omega
      subst hj'
      rw [List.get?_concat_length] at hu
      cases hu
      exact h
    · rw [listGet_none (by simp; omega)] at hu
      cases hu

theorem grow_addEnum {tm : TypeMap} {name : String} {ep : EnumDescriptorProto}
    {id : Nat} {tm' : TypeMap} (h : addEnum tm name ep = .ok (id, tm')) :
    Grow tm tm' := by
  simp only [addEnum] at h
  split at h
  · cases h; exact grow_refl _
  · split at h
    · cases h
    · cases h
      exact grow_addWithName _ _ _ trivial

theorem grow_add (fuel : Nat) :
    (∀ tm name mp syn protos id tm',
      addMessage fuel tm name mp syn protos = some (.ok (id, tm')) → Grow tm tm') ∧
    (∀ tm fps syn protos msgName acc flds tm',
      addFields fuel tm fps syn protos msgName acc = some (.ok (flds, tm')) →
        Grow tm tm') ∧
    (∀ tm fp protos ty tm',
      addMessageField fuel tm fp protos = some (.ok (ty, tm')) → Grow tm tm') := by
  induction fuel with
  | zero =>
    refine ⟨fun tm name mp syn protos id tm' h => ?_,
      fun tm fps syn protos msgName acc flds tm' h => ?_,
      fun tm fp protos ty tm' h => ?_⟩ <;>
      simp [addMessage, addFields, addMessageField] at h
  | succ n ih =>
    obtain ⟨ihM, ihFs, ihF⟩ := ih
    refine ⟨?_, ?_, ?_⟩
    · intro tm name mp syn protos id tm' h
      simp only [addMessage] at h
      split at h
      · cases h; exact grow_refl tm
      · split at h
        · cases h
        · simp at h
        · rename_i flds tm2 heq2
          split at h
          · simp at h
          · rename_i hc
            cases h
            have hG2 : Grow (tm.addWithName name (.message
                ⟨"", (match mp.options with
                  | some o => o.gmapEntry
                  | none => false), [], []⟩)).2 tm2 :=
              ihFs _ _ _ _ _ _ _ _ heq2
            obtain ⟨lG, uG, nG⟩ := hG2
            rw [addWithName_types] at lG uG nG
            simp only [List.length_append, List.length_singleton] at lG uG nG
            refine ⟨?_, fun j hj => ?_, fun j t hj ht => ?_⟩
            · rw [setTy_types]
              simp only [List.length_set]
              omega
            · rw [setTy_types, addWithName_fst, listGet_set_ne (by omega),
                uG j (by omega), listGet_append_left hj]
            · rw [setTy_types, addWithName_fst] at ht
              by_cases hid : j = tm.types.length
              · subst hid
                rw [listGet_set_self (by omega)] at ht
                cases ht
                intro hme
                have hme' : (match mp.options with
                    | some o => o.gmapEntry
                    | none => false) = true := hme
                revert hc
                rw [hme']
                cases hK1 : hasKey flds 1 <;> cases hK2 : hasKey flds 2 <;> simp
              · rw [listGet_set_ne (by omega)] at ht
                exact nG j t (by omega) ht
    · intro tm fps syn protos msgName acc flds tm' h
      simp only [addFields] at h
      split at h
      · cases h; exact grow_refl tm
      · split at h
        · cases h
        · simp at h
        · rename_i ty tm1 heqF
          split at h
          · cases h
          · split at h
            · cases h
            · simp at h
            · exact grow_trans (ihF _ _ _ _ _ heqF) (ihFs _ _ _ _ _ _ _ _ h)
    · intro tm fp protos ty tm' h
      simp only [addMessageField] at h
      split at h
      any_goals (cases h; exact grow_refl tm)
      all_goals
        (split at h <;>
          first
          | (solve | simp at h)
          | exact ihM _ _ _ _ _ _ _ h
          | (split at h <;>
              first
              | (solve | simp at h)
              | (rename_i rr heqE
                 simp only [Option.some.injEq, Except.ok.injEq] at h
                 subst h
                 exact grow_addEnum heqE)))

theorem grow_addAll (fuel : Nat) (todo : List (String × TyProto)) :
    ∀ protos tm tm', addAll fuel tm todo protos = some (.ok tm') → Grow tm tm' := by
  induction todo with
  | nil =>
    intro protos tm tm' h
    simp only [addAll] at h
    cases h
    exact grow_refl _
  | cons hd rest ih =>
    intro protos tm tm' h
    obtain ⟨nm, tp⟩ := hd
    cases tp with
    | message mp syn =>
      simp only [addAll] at h
      split at h
      · cases h
      · simp at h
      · rename_i id tm1 heq
        exact grow_trans ((grow_add fuel).1 _ _ _ _ _ _ _ heq) (ih _ _ _ h)
    | enum ep =>
      simp only [addAll] at h
      split at h
      · simp at h
      · rename_i id tm1 heq
        exact grow_trans (grow_addEnum heq) (ih _ _ _ h)

end ProstReflect.Legacy

namespace ProstReflect.Legacy

/-- C7 counterexample: the claim says a map-entry message in a successfully
built pool has EXACTLY two fields, numbered 1 and 2.  `c7BadFile` declares a
message with `options.map_entry = true` and three int32 fields numbered 1, 2
and 3; `add_files` accepts it (the check only demands that keys 1 and 2 are
present), and the resulting message reports `is_map_entry = true` with three
fields. -/
theorem c7_map_entry_three_fields_counterexample :
    mapEntryShape (addFiles 10 [c7BadFile]) ".M" = some (true, 3) := by decide

/-- C7 (amended): in every successfully built type map, a message with
`is_map_entry = true` CONTAINS fields numbered 1 and 2 (the field count is
not otherwise constrained).  The second conjunct proves the same for an
arbitrary work-list order, covering the unspecified `HashMap` iteration
order of the Rust source. -/
theorem c7_map_entry_contains_key_value :
    (∀ fuel files tm, addFiles fuel files = some (.ok tm) →
      ∀ id m, tm.tyAt id = some (.message m) → m.is_map_entry = true →
        hasKey m.fields 1 = true ∧ hasKey m.fields 2 = true) ∧
    (∀ fuel todo protos tm, addAll fuel TypeMap.new todo protos = some (.ok tm) →
      ∀ id m, tm.tyAt id = some (.message m) → m.is_map_entry = true →
        hasKey m.fields 1 = true ∧ hasKey m.fields 2 = true) := by
  have base : ∀ fuel todo protos tm, addAll fuel TypeMap.new todo protos = some (.ok tm) →
      ∀ id m, tm.tyAt id = some (.message m) → m.is_map_entry = true →
        hasKey m.fields 1 = true ∧ hasKey m.fields 2 = true := by
    intro fuel todo protos tm h id m hid hme
    obtain ⟨lG, uG, nG⟩ := grow_addAll fuel todo protos TypeMap.new tm h
    by_cases hlt : id < TypeMap.new.types.length
    · exfalso
      rw [TypeMap.tyAt, uG id hlt] at hid
      have hid15 : id < 15 := by simpa [TypeMap.new] using hlt
      interval_cases id <;> simp [TypeMap.new] at hid
    · exact nG id (.message m) (Nat.le_of_not_lt hlt) hid hme
  refine ⟨?_, base⟩
  intro fuel files tm h
  simp only [addFiles] at h
  split at h
  · cases h
  · exact base fuel _ _ tm h

/-- Witness for the amended C7 theorem: applied to the well-formed two-field
map entry of `c7GoodFile`. -/
theorem c7_map_entry_contains_key_value_witness :
    hasKey c7GoodMsgVal.fields 1 = true ∧ hasKey c7GoodMsgVal.fields 2 = true :=
  c7_map_entry_contains_key_value.1 10 [c7GoodFile] c7GoodTm (by rfl) 15 c7GoodMsgVal
    (by rfl) (by rfl)

end ProstReflect.Legacy

namespace ProstReflect.Legacy

/-! ### C10: message / enum lookup disjointness (legacy accessors) -/

theorem wf_addWithName {tm : TypeMap} {name : String} {t : Ty} (h : tm.WF) :
    (tm.addWithName name t).2.WF := by
  intro p hp
  simp only [TypeMap.addWithName] at hp ⊢
  rw [List.mem_append] at hp
  rcases hp with hp | hp
  · have := h p hp
    simp only [List.length_append, List.length_singleton]
    omega
  · simp only [List.mem_singleton] at hp
    subst hp
    simp only [List.length_append, List.length_singleton]
    omega

theorem wf_setTy {tm : TypeMap} {id : Nat} {t : Ty} (h : tm.WF) :
    (tm.setTy id t).WF := by
  intro p hp
  simp only [TypeMap.setTy] at hp ⊢
  rw [List.length_set]
  exact h p hp

theorem wf_addEnum {tm : TypeMap} {name : String} {ep : EnumDescriptorProto}
    {id : Nat} {tm' : TypeMap} (h : addEnum tm name ep = .ok (id, tm'))
    (hwf : tm.WF) : tm'.WF := by
  simp only [addEnum] at h
  split at h
  · cases h; exact hwf
  · split at h
    · cases h
    · cases h
      exact wf_addWithName hwf

theorem wf_add (fuel : Nat) :
    (∀ tm name mp syn protos id tm',
      addMessage fuel tm name mp syn protos = some (.ok (id, tm')) →
        tm.WF → tm'.WF) ∧
    (∀ tm fps syn protos msgName acc flds tm',
      addFields fuel tm fps syn protos msgName acc = some (.ok (flds, tm')) →
        tm.WF → tm'.WF) ∧
    (∀ tm fp protos ty tm',
      addMessageField fuel tm fp protos = some (.ok (ty, tm')) →
        tm.WF → tm'.WF) := by
  induction fuel with
  | zero =>
    refine ⟨fun tm name mp syn protos id tm' h => ?_,
      fun tm fps syn protos msgName acc flds tm' h => ?_,
      fun tm fp protos ty tm' h => ?_⟩ <;>
      simp [addMessage, addFields, addMessageField] at h
  | succ n ih =>
    obtain ⟨ihM, ihFs, ihF⟩ := ih
    refine ⟨?_, ?_, ?_⟩
    · intro tm name mp syn protos id tm' h hwf
      simp only [addMessage] at h
      split at h
      · cases h; exact hwf
      · split at h
        · cases h
        · simp at h
        · rename_i flds tm2 heq2
          split at h
          · simp at h
          · cases h
            exact wf_setTy (ihFs _ _ _ _ _ _ _ _ heq2 (wf_addWithName hwf))
    · intro tm fps syn protos msgName acc flds tm' h hwf
      simp only [addFields] at h
      split at h
      · cases h; exact hwf
      · split at h
        · cases h
        · simp at h
        · rename_i ty tm1 heqF
          split at h
          · cases h
          · split at h
            · cases h
            · simp at h
            · exact ihFs _ _ _ _ _ _ _ _ h (ihF _ _ _ _ _ heqF hwf)
    · intro tm fp protos ty tm' h hwf
      simp only [addMessageField] at h
      split at h
      any_goals (cases h; exact hwf)
      all_goals
        (split at h <;>
          first
          | (solve | simp at h)
          | exact ihM _ _ _ _ _ _ _ h hwf
          | (split at h <;>
              first
              | (solve | simp at h)
              | (rename_i rr heqE
                 simp only [Option.some.injEq, Except.ok.injEq] at h
                 subst h
                 exact wf_addEnum heqE hwf)))

theorem wf_addAll (fuel : Nat) (todo : List (String × TyProto)) :
    ∀ protos tm tm', addAll fuel tm todo protos = some (.ok tm') → tm.WF → tm'.WF := by
  induction todo with
  | nil =>
    intro protos tm tm' h hwf
    simp only [addAll] at h
    cases h
    exact hwf
  | cons hd rest ih =>
    intro protos tm tm' h hwf
    obtain ⟨nm, tp⟩ := hd
    cases tp with
    | message mp syn =>
      simp only [addAll] at h
      split at h
      · cases h
      · simp at h
      · rename_i id tm1 heq
        exact ih _ _ _ h ((wf_add fuel).1 _ _ _ _ _ _ _ heq hwf)
    | enum ep =>
      simp only [addAll] at h
      split at h
      · simp at h
      · rename_i id tm1 heq
        exact ih _ _ _ h (wf_addEnum heq hwf)

/-- C10: `get_message_by_name` and `get_enum_by_name` never both return
`Some`; each returns `Some` exactly when the name maps (through the name
index) to a message / enum slot of the type map.  Conjuncts: (1) maps built
by `add_files` are well-formed, so (2, 3) the two getters never hit the
arena-indexing panic on a built map; (4, 5) the exact characterizations;
(6) disjointness, which needs no well-formedness at all. -/
theorem c10_get_by_name_disjoint :
    (∀ fuel files tm, addFiles fuel files = some (.ok tm) → tm.WF) ∧
    (∀ tm : TypeMap, tm.WF → ∀ name, ∃ r, getMessageByName tm name = some r) ∧
    (∀ tm : TypeMap, tm.WF → ∀ name, ∃ r, getEnumByName tm name = some r) ∧
    (∀ tm name id, getMessageByName tm name = some (some id) ↔
      (tm.tryGetByName name = some id ∧ ∃ m, tm.tyAt id = some (.message m))) ∧
    (∀ tm name id, getEnumByName tm name = some (some id) ↔
      (tm.tryGetByName name = some id ∧ ∃ e, tm.tyAt id = some (.enum e))) ∧
    (∀ tm name i j, getMessageByName tm name = some (some i) →
      getEnumByName tm name = some (some j) → False) := by
  have hvalid : ∀ (tm : TypeMap), tm.WF → ∀ name id,
      tm.tryGetByName name = some id → ∃ t, tm.tyAt id = some t := by
    intro tm hwf name id h
    simp only [TypeMap.tryGetByName] at h
    obtain ⟨p, hp, hpid⟩ : ∃ p, tm.names.find? (fun q => q.1 = name) = some p ∧ p.2 = id := by
      cases hfind : tm.names.find? fun q => q.1 = name with
      | none => rw [hfind] at h; cases h
      | some p => rw [hfind] at h; exact ⟨p, rfl, by simpa using h⟩
    have hmem := List.mem_of_find?_eq_some hp
    have hlt := hwf p hmem
    subst hpid
    cases hat : tm.types.get? p.2 with
    | none =>
      rw [List.get?_eq_none] at hat
      omega
    | some t => exact ⟨t, by simpa [TypeMap.tyAt] using hat⟩
  have hmsg : ∀ tm name id, getMessageByName tm name = some (some id) ↔
      (tm.tryGetByName name = some id ∧ ∃ m, tm.tyAt id = some (.message m)) := by
    intro tm name id
    simp only [getMessageByName]
    constructor
    · intro h
      split at h
      · simp at h
      · rename_i id' hget
        split at h
        · cases h
        · rename_i t hat
          simp only [Option.some.injEq] at h
          split at h
          · rename_i hm
            cases h
            cases t with
            | message m => exact ⟨hget, m, hat⟩
            | enum e => simp [Ty.isMessageTy] at hm
            | scalar s => simp [Ty.isMessageTy] at hm
          · cases h
    · rintro ⟨hget, m, hat⟩
      simp [hget, hat, Ty.isMessageTy]
  have henum : ∀ tm name id, getEnumByName tm name = some (some id) ↔
      (tm.tryGetByName name = some id ∧ ∃ e, tm.tyAt id = some (.enum e)) := by
    intro tm name id
    simp only [getEnumByName]
    constructor
    · intro h
      split at h
      · simp at h
      · rename_i id' hget
        split at h
        · cases h
        · rename_i t hat
          simp only [Option.some.injEq] at h
          split at h
          · rename_i hm
            cases h
            cases t with
            | message m => simp [Ty.isEnumTy] at hm
            | enum e => exact ⟨hget, e, hat⟩
            | scalar s => simp [Ty.isEnumTy] at hm
          · cases h
    · rintro ⟨hget, e, hat⟩
      simp [hget, hat, Ty.isEnumTy]
  refine ⟨?_, ?_, ?_, hmsg, henum, ?_⟩
  · intro fuel files tm h
    simp only [addFiles] at h
    split at h
    · cases h
    · refine wf_addAll fuel _ _ _ _ h ?_
      intro p hp
      simp [TypeMap.new] at hp
  · intro tm hwf name
    simp only [getMessageByName]
    cases hget : tm.tryGetByName name with
    | none => exact ⟨none, rfl⟩
    | some id =>
      obtain ⟨t, hat⟩ := hvalid tm hwf name id hget
      exact ⟨if t.isMessageTy then some id else none, by simp [hat]⟩
  · intro tm hwf name
    simp only [getEnumByName]
    cases hget : tm.tryGetByName name with
    | none => exact ⟨none, rfl⟩
    | some id =>
      obtain ⟨t, hat⟩ := hvalid tm hwf name id hget
      exact ⟨if t.isEnumTy then some id else none, by simp [hat]⟩
  · intro tm name i j hm he
    obtain ⟨hget1, m, hat1⟩ := (hmsg tm name i).mp hm
    obtain ⟨hget2, e, hat2⟩ := (henum tm name j).mp he
    rw [hget1] at hget2
    cases hget2
    rw [hat1] at hat2
    cases hat2

/-- Witness for C10 at the concrete two-entry map built from `c7GoodFile`:
the build is well-formed and the message lookup characterization holds at
`".M"`, id 15. -/
theorem c10_get_by_name_disjoint_witness :
    c7GoodTm.WF ∧
    (getMessageByName c7GoodTm ".M" = some (some 15) ↔
      (c7GoodTm.tryGetByName ".M" = some 15 ∧
        ∃ m, c7GoodTm.tyAt 15 = some (.message m))) :=
  ⟨c10_get_by_name_disjoint.1 10 [c7GoodFile] c7GoodTm (by rfl),
    c10_get_by_name_disjoint.2.2.2.1 c7GoodTm ".M" 15⟩

end ProstReflect.Legacy

namespace ProstReflect.Resolve

/-! ### Frame lemmas for the resolve pass -/

theorem errExt_refl (st : VisitState) : ErrExt st st := ⟨[], by simp⟩

theorem errExt_trans {a b c : VisitState} (h1 : ErrExt a b) (h2 : ErrExt b c) :
    ErrExt a c := by
  obtain ⟨e1, h1⟩ := h1
  obtain ⟨e2, h2⟩ := h2
  exact ⟨e1 ++ e2, by rw [h2, h1, List.append_assoc]⟩

theorem errExt_push (st : VisitState) (e : DescriptorErrorKind) :
    ErrExt st (pushErr st e) := ⟨[e], rfl⟩

theorem errExt_pushs (st : VisitState) (es : List DescriptorErrorKind) :
    ErrExt st (pushErrs st es) := ⟨es, rfl⟩

theorem sameArenas_refl (st : VisitState) : SameArenas st st :=
  ⟨rfl, rfl, rfl, rfl, rfl, rfl, rfl⟩

theorem sameArenas_trans {a b c : VisitState} (h1 : SameArenas a b)
    (h2 : SameArenas b c) : SameArenas a c := by
  obtain ⟨m1, e1, s1, x1, n1, f1, y1⟩ := h1
  obtain ⟨m2, e2, s2, x2, n2, f2, y2⟩ := h2
  exact ⟨m2.trans m1, e2.trans e1, s2.trans s1, x2.trans x1, n2.trans n1,
    f2.trans f1, y2.trans y1⟩

theorem sameArenas_of_pool (a b : VisitState) (h : b.pool = a.pool) :
    SameArenas a b := by
  rw [SameArenas, h]
  exact sameArenas_refl a

theorem listSet_id {α : Type} (l : List α) (i : Nat) (a : α)
    (h : l.get? i = some a) : l.set i a = l := by
  induction l generalizing i with
  | nil => rfl
  | cons x xs ih =>
    cases i with
    | zero => simp at h; rw [h]; rfl
    | succ n =>
      simp only [List.get?] at h
      simp [List.set, ih n h]

theorem mapSyn_set_raw {files : List FileState} {file : Nat} {fs : FileState}
    (raw' : FileDescriptorProto) (h : files.get? file = some fs) :
    (files.set file { fs with raw := raw' }).map (fun x => x.syn) =
      files.map fun x => x.syn := by
  rw [List.map_set]
  exact listSet_id _ _ _ (by rw [List.get?_map, h]; rfl)

theorem errExt_push_of_eq {a b : VisitState} (h : b.errors = a.errors)
    (e : DescriptorErrorKind) : ErrExt a (pushErr b e) :=
  ⟨[e], by simp [pushErr, h]⟩

theorem push_one_of_eq {a b : VisitState} (h : b.errors = a.errors)
    (e : DescriptorErrorKind) : ∃ e', (pushErr b e).errors = a.errors ++ [e'] :=
  ⟨e, by simp [pushErr, h]⟩

theorem resolveNameSt_frame {st : VisitState} {scope name : String} {file : Nat}
    {path : List Int} {tag : Int} {st' : VisitState} {d : Option Definition}
    (h : resolveNameSt st scope name file path tag = some (st', d)) :
    st'.errors = st.errors ∧ SameArenas st st' := by
  simp only [resolveNameSt] at h
  split at h
  · split at h
    · cases h
    · rename_i fs heqFs
      split at h
      · cases h
      · rename_i raw' heqSet
        cases h
        refine ⟨rfl, rfl, rfl, rfl, rfl, rfl, rfl, ?_⟩
        exact mapSyn_set_raw raw' heqFs
  · cases h
    exact ⟨rfl, sameArenas_refl st⟩

theorem findMessageSt_frame {st : VisitState} {scope name : String} {file : Nat}
    {path1 : List Int} {path2 : Int} {st' : VisitState} {r : Option Nat}
    (h : findMessageSt st scope name file path1 path2 = some (st', r)) :
    ErrExt st st' ∧ SameArenas st st' ∧
    (r = none → ∃ e, st'.errors = st.errors ++ [e]) := by
  simp only [findMessageSt] at h
  split at h
  · cases h
  · rename_i st1 d heq
    have hf := resolveNameSt_frame heq
    split at h
    · cases h
      exact ⟨⟨[], by simp [hf.1]⟩, hf.2, by intro hc; cases hc⟩
    · cases h
      refine ⟨errExt_push_of_eq hf.1 _,
        sameArenas_trans hf.2 (sameArenas_of_pool _ _ rfl), ?_⟩
      intro _
      exact push_one_of_eq hf.1 _
  · rename_i st1 heq
    have hf := resolveNameSt_frame heq
    cases h
    refine ⟨errExt_push_of_eq hf.1 _,
      sameArenas_trans hf.2 (sameArenas_of_pool _ _ rfl), ?_⟩
    intro _
    exact push_one_of_eq hf.1 _

end ProstReflect.Resolve

namespace ProstReflect.Resolve

theorem resolveFieldTypeSt_frame {st : VisitState} {ty : Option Int}
    {tyName scope : String} {file : Nat} {path : List Int} {st' : VisitState}
    {kr : Except Unit KindIndex}
    (h : resolveFieldTypeSt st ty tyName scope file path = some (st', kr)) :
    ErrExt st st' ∧ SameArenas st st' := by
  simp only [resolveFieldTypeSt] at h
  split at h
  · split at h
    · cases h
      exact ⟨errExt_push st _, sameArenas_of_pool _ _ rfl⟩
    · split at h <;> cases h <;>
        first
        | exact ⟨errExt_refl st, sameArenas_refl st⟩
        | exact ⟨errExt_push st _, sameArenas_of_pool _ _ rfl⟩
  · split at h
    · cases h
    · rename_i st1 d heq
      have hf := resolveNameSt_frame heq
      split at h
      · split at h <;> (cases h; exact ⟨⟨[], by simp [hf.1]⟩, hf.2⟩)
      · cases h
        exact ⟨⟨[], by simp [hf.1]⟩, hf.2⟩
      · cases h
        exact ⟨errExt_push_of_eq hf.1 _,
          sameArenas_trans hf.2 (sameArenas_of_pool _ _ rfl)⟩
    · rename_i st1 heq
      have hf := resolveNameSt_frame heq
      cases h
      exact ⟨errExt_push_of_eq hf.1 _,
        sameArenas_trans hf.2 (sameArenas_of_pool _ _ rfl)⟩

theorem parseFieldDefaultValueSt_frame {st : VisitState} {kind : KindIndex}
    {dv : Option String} {file : Nat} {path : List Int} {st' : VisitState}
    {v : Option Value}
    (h : parseFieldDefaultValueSt st kind dv file path = some (st', v)) :
    st'.pool = st.pool ∧ ErrExt st st' := by
  simp only [parseFieldDefaultValueSt] at h
  split at h
  · cases h
    exact ⟨rfl, errExt_refl st⟩
  · split at h
    · split at h
      · cases h
      · split at h <;> cases h <;>
          first
          | exact ⟨rfl, errExt_refl st⟩
          | exact ⟨rfl, errExt_push st _⟩
    · cases h
      exact ⟨rfl, errExt_push st _⟩
    · cases h
      exact ⟨rfl, errExt_push st _⟩
    · split at h
      · cases h
      · cases h
        exact ⟨rfl, errExt_refl st⟩
      · cases h
        exact ⟨rfl, errExt_push st _⟩

end ProstReflect.Resolve

namespace ProstReflect.Resolve

theorem getSet_self {α : Type} {l : List α} {i : Nat} {a : α} (h : i < l.length) :
    (l.set i a).get? i = some a := by
  simp [List.get?_eq_getElem?, List.getElem?_set_eq_of_lt a h]

theorem getSet_ne {α : Type} {l : List α} {i j : Nat} {a : α} (h : i ≠ j) :
    (l.set i a).get? j = l.get? j := by
  simp [List.get?_eq_getElem?, List.getElem?_set_ne h]

theorem errExt_push_r {a b : VisitState} (h : ErrExt a b) (e : DescriptorErrorKind) :
    ErrExt a (pushErr b e) :=
  errExt_trans h (errExt_push b e)

theorem dupCheck_spec {α : Type} {st : VisitState} {old : Option Nat}
    {xs : List α} {mk : α → DescriptorErrorKind} {st2 : VisitState}
    (h : dupCheck st old xs mk = some st2) :
    st2.pool = st.pool ∧ ErrExt st st2 := by
  simp only [dupCheck] at h
  split at h
  · cases h
    exact ⟨rfl, errExt_refl st⟩
  · split at h
    · cases h
    · cases h
      exact ⟨rfl, errExt_push st _⟩

theorem parseDefaultIfOk_spec {st : VisitState} {kind : Except Unit KindIndex}
    {dv : Option String} {file : Nat} {path : List Int} {st2 : VisitState}
    {v : Option Value}
    (h : parseDefaultIfOk st kind dv file path = some (st2, v)) :
    st2.pool = st.pool ∧ ErrExt st st2 := by
  simp only [parseDefaultIfOk] at h
  split at h
  · exact parseFieldDefaultValueSt_frame h
  · cases h
    exact ⟨rfl, errExt_refl st⟩

theorem oneofCheck_spec {st : VisitState} {msg : MessageInner} {index : Nat}
    {oneofIdx : Option Int} {msg2 : MessageInner} {st2 : VisitState}
    {oneof : Option Nat}
    (h : oneofCheck st msg index oneofIdx = some (msg2, st2, oneof)) :
    msg2.fields = msg.fields ∧ st2.pool = st.pool ∧ ErrExt st st2 := by
  simp only [oneofCheck] at h
  split at h
  · cases h
    exact ⟨rfl, rfl, errExt_refl st⟩
  · split at h
    · cases h
      exact ⟨rfl, rfl, errExt_push st _⟩
    · split at h
      · cases h
      · cases h
        exact ⟨rfl, rfl, errExt_refl st⟩

theorem finishField_spec {st : VisitState} {msg : MessageInner}
    {messageIdx index : Nat} {field : FieldDescriptorProto} {path : List Int}
    {fullName : String} {newField : FieldDescriptorInner} {st' : VisitState}
    (h : finishField st msg messageIdx index field path fullName newField = some st')
    (hlt : messageIdx < st.pool.messages.length) :
    ErrExt st st' ∧
    st'.pool.enums = st.pool.enums ∧
    st'.pool.services = st.pool.services ∧
    st'.pool.extensions = st.pool.extensions ∧
    st'.pool.files = st.pool.files ∧
    st'.pool.names = st.pool.names ∧
    st'.pool.file_names = st.pool.file_names ∧
    st'.pool.messages.length = st.pool.messages.length ∧
    (∀ j, j ≠ messageIdx → st'.pool.messages.get? j = st.pool.messages.get? j) ∧
    ∃ msgF, st'.pool.messages.get? messageIdx = some msgF ∧
      msgF.fields = msg.fields ++ [newField] := by
  simp only [finishField] at h
  split at h
  · cases h
  · rename_i st2 heq1
    obtain ⟨hp1, he1⟩ := dupCheck_spec heq1
    split at h
    · cases h
    · rename_i st3 heq2
      obtain ⟨hp2, he2⟩ := dupCheck_spec heq2
      split at h
      · cases h
      · rename_i st4 heq3
        obtain ⟨hp3, he3⟩ := dupCheck_spec heq3
        cases h
        have hpool : st4.pool = st.pool := by rw [hp3, hp2, hp1]
        refine ⟨errExt_trans he1 (errExt_trans he2 he3),
          by simp [hpool], by simp [hpool], by simp [hpool], by simp [hpool],
          by simp [hpool], by simp [hpool], by simp [hpool],
          fun j hj => ?_, ?_⟩
        · simp only [hpool]
          exact getSet_ne (Ne.symm hj)
        · simp only [hpool]
          exact ⟨_, getSet_self hlt, rfl⟩

end ProstReflect.Resolve

namespace ProstReflect.Resolve

/-- Structural characterization of `visit_field`: the number check runs
first, the kind is resolved (Double sentinel on failure), the new field is
appended to the message with the `is_packed` / `supports_presence` /
cardinality computations of resolve.rs 99-117, errors only accumulate, and
no other arena entry changes. -/
theorem visitFieldSt_spec {st : VisitState} {path : List Int} {fullName : String}
    {file messageIdx index : Nat} {field : FieldDescriptorProto} {st' : VisitState}
    (h : visitFieldSt st path fullName file messageIdx index field = some st') :
    ∃ fs0 errs1 st2 kind rest msg msgF oneof default,
      st.pool.files.get? file = some fs0 ∧
      checkFieldNumber st.pool messageIdx field file path = some errs1 ∧
      resolveFieldTypeSt (pushErrs st errs1) field.ty field.gtypeName fullName file path
        = some (st2, kind) ∧
      st'.errors = st.errors ++ errs1 ++ rest ∧
      st'.pool.enums = st.pool.enums ∧
      st'.pool.services = st.pool.services ∧
      st'.pool.extensions = st.pool.extensions ∧
      st'.pool.names = st.pool.names ∧
      st'.pool.file_names = st.pool.file_names ∧
      st'.pool.files.map (fun x => x.syn) = st.pool.files.map (fun x => x.syn) ∧
      st'.pool.messages.length = st.pool.messages.length ∧
      (∀ j, j ≠ messageIdx → st'.pool.messages.get? j = st.pool.messages.get? j) ∧
      st.pool.messages.get? messageIdx = some msg ∧
      st'.pool.messages.get? messageIdx = some msgF ∧
      msgF.fields = msg.fields ++
        [{ id := Identity.new file path fullName field.gname
           number := u32OfInt field.gnumber
           kind := match kind with
             | .ok k => k
             | .error _ => KindIndex.double
           oneof := oneof
           is_packed := fieldIsPacked (cardinalityOf field) kind field.options fs0.syn
           supports_presence :=
             fieldSupportsPresence field (cardinalityOf field) kind fs0.syn
           cardinality := cardinalityOf field
           default := default }] := by
  simp only [visitFieldSt] at h
  split at h
  · cases h
  rename_i fs0 heqFs
  split at h
  · cases h
  rename_i errs1 heqCk
  split at h
  · cases h
  rename_i st2 kind heqRes
  have hRes := resolveFieldTypeSt_frame heqRes
  split at h
  · cases h
  rename_i st3 default heqPd
  obtain ⟨hp3, he3⟩ := parseDefaultIfOk_spec heqPd
  split at h
  · cases h
  rename_i msg heqMsg
  split at h
  · cases h
  rename_i msgO stO oneof heqOo
  obtain ⟨hfO, hpO, heO⟩ := oneofCheck_spec heqOo
  have hmsgs3 : st3.pool.messages = st.pool.messages := by
    rw [hp3]
    exact hRes.2.1
  have hlt : messageIdx < stO.pool.messages.length := by
    rw [hpO]
    by_contra hc
    rw [List.get?_eq_none.mpr (Nat.le_of_not_lt hc)] at heqMsg
    cases heqMsg
  obtain ⟨heF, henums, hsvcs, hexts, hfiles, hnames, hfnames, hlen, hother,
    msgF, hgetF, hfieldsF⟩ := finishField_spec h hlt
  obtain ⟨rest, hrest⟩ :=
    errExt_trans hRes.1 (errExt_trans he3 (errExt_trans heO heF))
  refine ⟨fs0, errs1, st2, kind, rest, msg, msgF, oneof, default,
    heqFs, heqCk, heqRes, ?_, ?_, ?_, ?_, ?_, ?_, ?_, ?_, ?_, ?_, hgetF, ?_⟩
  · rw [hrest]
    simp [pushErrs, List.append_assoc]
  · rw [henums, hpO, hp3]
    exact hRes.2.2.1
  · rw [hsvcs, hpO, hp3]
    exact hRes.2.2.2.1
  · rw [hexts, hpO, hp3]
    exact hRes.2.2.2.2.1
  · rw [hnames, hpO, hp3]
    exact hRes.2.2.2.2.2.1
  · rw [hfnames, hpO, hp3]
    exact hRes.2.2.2.2.2.2.1
  · rw [hfiles, hpO, hp3]
    exact hRes.2.2.2.2.2.2.2
  · rw [hlen, hpO, hmsgs3]
  · intro j hj
    rw [hother j hj, hpO, hmsgs3]
  · rw [← hmsgs3]
    exact heqMsg
  · rw [hfieldsF, hfO]

end ProstReflect.Resolve

namespace ProstReflect.Resolve

theorem mapSyn_set {files : List FileState} {file : Nat} {fs fs' : FileState}
    (h : files.get? file = some fs) (hs : fs'.syn = fs.syn) :
    (files.set file fs').map (fun x => x.syn) = files.map fun x => x.syn := by
  rw [List.map_set]
  exact listSet_id _ _ _ (by simp only [List.get?_map, h, Option.map_some', hs])

theorem enumNumberInsertPos_spec {st : VisitState} {en : EnumInner}
    {value : EnumValueDescriptorProto} {file : Nat} {path : List Int}
    {pos : Nat} {st2 : VisitState}
    (h : enumNumberInsertPos st en value file path = some (pos, st2)) :
    st2.pool = st.pool ∧ ErrExt st st2 := by
  simp only [enumNumberInsertPos] at h
  split at h
  · split at h
    · split at h
      · cases h
      · cases h
        exact ⟨rfl, errExt_push st _⟩
    · cases h
      exact ⟨rfl, errExt_refl st⟩
  · cases h
    exact ⟨rfl, errExt_refl st⟩

/-- `visit_enum_value` touches only the enum arena and the error list. -/
theorem visitEnumValueSt_frame {st : VisitState} {path : List Int}
    {fullName : String} {file enumIdx index : Nat}
    {value : EnumValueDescriptorProto} {st' : VisitState}
    (h : visitEnumValueSt st path fullName file enumIdx index value = some st') :
    ErrExt st st' ∧
    st'.pool.messages = st.pool.messages ∧
    st'.pool.services = st.pool.services ∧
    st'.pool.extensions = st.pool.extensions ∧
    st'.pool.files = st.pool.files ∧
    st'.pool.names = st.pool.names ∧
    st'.pool.file_names = st.pool.file_names := by
  simp only [visitEnumValueSt] at h
  split at h
  · cases h
  rename_i errs heqCk
  split at h
  · cases h
  rename_i en heqEn
  split at h
  · cases h
  rename_i pos st4 heqPos
  obtain ⟨hp4, he4⟩ := enumNumberInsertPos_spec heqPos
  split at h
  · cases h
  rename_i st5 heqDup
  obtain ⟨hp5, he5⟩ := dupCheck_spec heqDup
  cases h
  have hpool : st5.pool = st.pool := by
    rw [hp5, hp4]
    rfl
  refine ⟨?_, by simp [hpool], by simp [hpool], by simp [hpool], by simp [hpool],
    by simp [hpool], by simp [hpool]⟩
  exact errExt_trans (errExt_pushs st errs) (errExt_trans he4 he5)

/-- `visit_service` appends one service, touching nothing else. -/
theorem visitServiceSt_spec (st : VisitState) (path : List Int)
    (fullName : String) (file index : Nat) (service : ServiceDescriptorProto) :
    (visitServiceSt st path fullName file index service).errors = st.errors ∧
    (visitServiceSt st path fullName file index service).pool.messages
      = st.pool.messages ∧
    (visitServiceSt st path fullName file index service).pool.enums
      = st.pool.enums ∧
    (visitServiceSt st path fullName file index service).pool.extensions
      = st.pool.extensions ∧
    (visitServiceSt st path fullName file index service).pool.files
      = st.pool.files ∧
    (visitServiceSt st path fullName file index service).pool.services
      = st.pool.services ++
        [{ id := Identity.new file path fullName service.gname, methods := [] }] :=
  ⟨rfl, rfl, rfl, rfl, rfl, rfl⟩

/-- `visit_method`: both type references are resolved through `find_message`
and the method is recorded with the `MessageIndex::MAX` sentinel wherever
resolution failed. -/
theorem visitMethodSt_spec {st : VisitState} {path : List Int}
    {fullName : String} {file serviceIdx index : Nat}
    {method : MethodDescriptorProto} {st' : VisitState}
    (h : visitMethodSt st path fullName file serviceIdx index method = some st') :
    ∃ stA inOpt stB outOpt svc,
      findMessageSt st fullName method.ginputType file path tagMethodInputType
        = some (stA, inOpt) ∧
      findMessageSt stA fullName method.goutputType file path tagMethodOutputType
        = some (stB, outOpt) ∧
      stB.pool.services.get? serviceIdx = some svc ∧
      ErrExt st st' ∧
      st'.pool.messages = st.pool.messages ∧
      st'.pool.enums = st.pool.enums ∧
      st'.pool.extensions = st.pool.extensions ∧
      (∀ j, j ≠ serviceIdx →
        st'.pool.services.get? j = st.pool.services.get? j) ∧
      ∃ svc', st'.pool.services.get? serviceIdx = some svc' ∧
        svc'.methods = svc.methods ++
          [{ id := Identity.new file path fullName method.gname
             input := inOpt.getD MessageIndexMAX
             output := outOpt.getD MessageIndexMAX }] := by
  simp only [visitMethodSt] at h
  split at h
  · cases h
  rename_i stA inOpt heqA
  obtain ⟨heA, haA, -⟩ := findMessageSt_frame heqA
  split at h
  · cases h
  rename_i stB outOpt heqB
  obtain ⟨heB, haB, -⟩ := findMessageSt_frame heqB
  split at h
  · cases h
  rename_i svc heqSvc
  cases h
  have hsvcs : stB.pool.services = st.pool.services := by
    rw [haB.2.2.1, haA.2.2.1]
  have hlt : serviceIdx < stB.pool.services.length := by
    by_contra hc
    rw [List.get?_eq_none.mpr (Nat.le_of_not_lt hc)] at heqSvc
    cases heqSvc
  refine ⟨stA, inOpt, stB, outOpt, svc, heqA, heqB, heqSvc,
    errExt_trans heA heB, ?_, ?_, ?_, ?_, ?_⟩
  · rw [haB.1, haA.1]
  · rw [haB.2.1, haA.2.1]
  · rw [haB.2.2.2.1, haA.2.2.2.1]
  · intro j hj
    rw [← hsvcs]
    exact getSet_ne (Ne.symm hj)
  · exact ⟨_, getSet_self hlt, rfl⟩

end ProstReflect.Resolve

namespace ProstReflect.Resolve

/-- The dependency loop of `visit_file` only touches the per-file dependency
handles (and the error list). -/
theorem visitFileDeps_frame {index : Nat} {path : List Int} :
    ∀ {deps : List (Nat × String)} {st st' : VisitState},
    visitFileDeps st index path deps = some st' →
    ErrExt st st' ∧
    st'.pool.messages = st.pool.messages ∧
    st'.pool.enums = st.pool.enums ∧
    st'.pool.services = st.pool.services ∧
    st'.pool.extensions = st.pool.extensions ∧
    st'.pool.names = st.pool.names ∧
    st'.pool.file_names = st.pool.file_names ∧
    st'.pool.files.map (fun x => x.syn) = st.pool.files.map (fun x => x.syn) := by
  intro deps
  induction deps with
  | nil =>
    intro st st' h
    simp only [visitFileDeps] at h
    cases h
    exact ⟨errExt_refl _, rfl, rfl, rfl, rfl, rfl, rfl, rfl⟩
  | cons hd tl ih =>
    intro st st' h
    obtain ⟨i, dep⟩ := hd
    simp only [visitFileDeps] at h
    split at h
    · split at h
      · cases h
      · rename_i depIdx _ fs heqFs
        have hi := ih h
        refine ⟨hi.1, hi.2.1, hi.2.2.1, hi.2.2.2.1, hi.2.2.2.2.1,
          hi.2.2.2.2.2.1, hi.2.2.2.2.2.2.1, ?_⟩
        exact hi.2.2.2.2.2.2.2.trans (mapSyn_set heqFs rfl)
    · have hi := ih h
      exact ⟨errExt_trans (errExt_push st _) hi.1, hi.2.1, hi.2.2.1,
        hi.2.2.2.1, hi.2.2.2.2.1, hi.2.2.2.2.2.1, hi.2.2.2.2.2.2.1,
        hi.2.2.2.2.2.2.2⟩

/-- A fold whose step only pushes errors preserves the pool. -/
theorem foldl_frame {β : Type} {f : VisitState → β → VisitState}
    (hf : ∀ st x, (f st x).pool = st.pool ∧ ErrExt st (f st x)) :
    ∀ (l : List β) (st : VisitState),
      (l.foldl f st).pool = st.pool ∧ ErrExt st (l.foldl f st) := by
  intro l
  induction l with
  | nil => exact fun st => ⟨rfl, errExt_refl st⟩
  | cons x xs ih =>
    intro st
    refine ⟨(ih (f st x)).1.trans (hf st x).1,
      errExt_trans (hf st x).2 (ih (f st x)).2⟩

/-- `visit_file` only records dependency handles and errors. -/
theorem visitFileSt_frame {st : VisitState} {path : List Int} {index : Nat}
    {fd : FileDescriptorProto} {st' : VisitState}
    (h : visitFileSt st path index fd = some st') :
    ErrExt st st' ∧
    st'.pool.messages = st.pool.messages ∧
    st'.pool.enums = st.pool.enums ∧
    st'.pool.services = st.pool.services ∧
    st'.pool.extensions = st.pool.extensions ∧
    st'.pool.names = st.pool.names ∧
    st'.pool.file_names = st.pool.file_names ∧
    st'.pool.files.map (fun x => x.syn) = st.pool.files.map (fun x => x.syn) := by
  simp only [visitFileSt] at h
  split at h
  · cases h
  rename_i st1 heqDeps
  have hd := visitFileDeps_frame heqDeps
  cases h
  have hstep : ∀ (st0 : VisitState) (x : Int),
      ((fun st0 pd => if 0 ≤ pd ∧ pd.toNat < fd.dependency.length then st0
        else pushErr st0 DescriptorErrorKind.invalidImportIndex) st0 x).pool
          = st0.pool ∧
      ErrExt st0 ((fun st0 pd =>
        if 0 ≤ pd ∧ pd.toNat < fd.dependency.length then st0
        else pushErr st0 DescriptorErrorKind.invalidImportIndex) st0 x) := by
    intro st0 x
    show (if 0 ≤ x ∧ x.toNat < fd.dependency.length then st0
        else pushErr st0 DescriptorErrorKind.invalidImportIndex).pool = st0.pool ∧
      ErrExt st0 (if 0 ≤ x ∧ x.toNat < fd.dependency.length then st0
        else pushErr st0 DescriptorErrorKind.invalidImportIndex)
    split
    · exact ⟨rfl, errExt_refl st0⟩
    · exact ⟨rfl, errExt_push st0 _⟩
  have h1 := foldl_frame hstep fd.public_dependency st1
  have h2 := foldl_frame hstep fd.weak_dependency
    (fd.public_dependency.foldl (fun st0 pd =>
      if 0 ≤ pd ∧ pd.toNat < fd.dependency.length then st0
      else pushErr st0 DescriptorErrorKind.invalidImportIndex) st1)
  refine ⟨errExt_trans hd.1 (errExt_trans h1.2 h2.2), ?_, ?_, ?_, ?_, ?_, ?_, ?_⟩
  · rw [h2.1, h1.1, hd.2.1]
  · rw [h2.1, h1.1, hd.2.2.1]
  · rw [h2.1, h1.1, hd.2.2.2.1]
  · rw [h2.1, h1.1, hd.2.2.2.2.1]
  · rw [h2.1, h1.1, hd.2.2.2.2.2.1]
  · rw [h2.1, h1.1, hd.2.2.2.2.2.2.1]
  · rw [h2.1, h1.1]
    exact hd.2.2.2.2.2.2.2

end ProstReflect.Resolve

namespace ProstReflect.Resolve

/-- `check_field_number` unfolded: the three error groups in push order. -/
theorem checkFieldNumber_decomp {pool : DescriptorPoolInner} {m : Nat}
    {fd : FieldDescriptorProto} {file : Nat} {path : List Int}
    {errs : List DescriptorErrorKind}
    (h : checkFieldNumber pool m fd file path = some errs) :
    ∃ msg fo mp,
      pool.messages.get? m = some msg ∧
      pool.files.get? msg.id.file = some fo ∧
      findMessageProto fo.raw msg.id.path = some mp ∧
      errs = (if !(inValidFieldRange fd.gnumber) || inReservedFieldRange fd.gnumber
          then [DescriptorErrorKind.invalidFieldNumber fd.gnumber
            (Label.new pool.files "defined here" file (joinPath path [tagFieldNumber]))]
          else []) ++
        (mp.reserved_range.enum.filterMap fun p =>
          if p.2.grstart ≤ fd.gnumber ∧ fd.gnumber < p.2.grend then
            some (DescriptorErrorKind.fieldNumberInReservedRange fd.gnumber
              p.2.grstart p.2.grend
              (Label.new pool.files "reserved range defined here" msg.id.file
                (joinPath msg.id.path [tagMessageReservedRange, (p.1 : Int)]))
              (Label.new pool.files "defined here" file
                (joinPath path [tagFieldNumber])))
          else none) ++
        (match fd.extendee, mp.extension_range.enum.find? fun p =>
            decide (p.2.grstart ≤ fd.gnumber ∧ fd.gnumber < p.2.grend) with
          | none, none => []
          | some _, some _ => []
          | none, some p =>
            [DescriptorErrorKind.fieldNumberInExtensionRange fd.gnumber
              p.2.grstart p.2.grend
              (Label.new pool.files "extension range defined here" msg.id.file
                (joinPath msg.id.path [tagMessageExtensionRange, (p.1 : Int)]))
              (Label.new pool.files "defined here" file
                (joinPath path [tagFieldNumber]))]
          | some _, none =>
            [DescriptorErrorKind.extensionNumberOutOfRange fd.gnumber
              msg.id.full_name
              (Label.new pool.files "defined here" file
                (joinPath path [tagFieldNumber]))]) := by
  simp only [checkFieldNumber] at h
  split at h
  · cases h
  rename_i msg heqM
  split at h
  · cases h
  rename_i fo heqF
  split at h
  · cases h
  rename_i mp heqP
  cases h
  exact ⟨msg, fo, mp, heqM, heqF, heqP, rfl⟩

/-- The `VALID_MESSAGE_FIELD_NUMBERS` / reserved-window test as a
proposition. -/
theorem invalidCond_iff (n : Int) :
    ((!(inValidFieldRange n) || inReservedFieldRange n) = true) ↔
      (¬(1 ≤ n ∧ n ≤ 536870911) ∨ (19000 ≤ n ∧ n ≤ 19999)) := by
  simp only [inValidFieldRange, inReservedFieldRange, Bool.or_eq_true,
    Bool.not_eq_true', Bool.and_eq_false_iff, Bool.and_eq_true,
    decide_eq_true_eq, decide_eq_false_iff_not, not_and]
  constructor
  · rintro (h | h) <;> omega
  · rintro (h | h) <;> omega

/-- A field whose number check reports nothing has a legal number. -/
theorem checkFieldNumber_good_of_nil {pool : DescriptorPoolInner} {m : Nat}
    {fd : FieldDescriptorProto} {file : Nat} {path : List Int}
    (h : checkFieldNumber pool m fd file path = some []) :
    goodFieldNumber (u32OfInt fd.gnumber) := by
  obtain ⟨msg, fo, mp, -, -, -, heq⟩ := checkFieldNumber_decomp h
  have h1 := (List.append_eq_nil.mp (List.append_eq_nil.mp heq.symm).1).1
  have hc : ¬((!(inValidFieldRange fd.gnumber) ||
      inReservedFieldRange fd.gnumber) = true) := by
    intro hcc
    rw [if_pos hcc] at h1
    cases h1
  rw [invalidCond_iff] at hc
  simp only [goodFieldNumber, u32OfInt]
  omega

end ProstReflect.Resolve

namespace ProstReflect.Resolve

theorem mapFields_set {msgs : List MessageInner} {i : Nat} {m m' : MessageInner}
    (h : msgs.get? i = some m) (hf : m'.fields = m.fields) :
    (msgs.set i m').map (fun x => x.fields) = msgs.map fun x => x.fields := by
  rw [List.map_set]
  exact listSet_id _ _ _ (by simp only [List.get?_map, h, Option.map_some', hf])

/-- Structural characterization of `visit_extension`: the extendee is
resolved (`MessageIndex::MAX` sentinel on failure), the number is checked
against the extendee when it resolved, the kind / packedness / default are
computed as for fields, one extension is appended to the global arena, and
field lists of messages are untouched.  If the step added no error, the
extension's number is legal. -/
theorem visitExtensionSt_spec {st : VisitState} {path : List Int}
    {fullName : String} {file : Nat} {parent : Option Nat} {index : Nat}
    {extension : FieldDescriptorProto} {st' : VisitState}
    (h : visitExtensionSt st path fullName file parent index extension = some st') :
    ∃ stE extendee stC st2 kind default rest,
      findMessageSt st fullName extension.gextendee file path tagFieldExtendee
        = some (stE, extendee) ∧
      resolveFieldTypeSt stC extension.ty extension.gtypeName fullName file path
        = some (st2, kind) ∧
      ∃ fs,
      stC.pool.files.get? file = some fs ∧
      ((st.pool.files.get? file).map fun x => x.syn) = some fs.syn ∧
      ErrExt st st' ∧
      st'.errors = st.errors ++ rest ∧
      st'.pool.enums = st.pool.enums ∧
      st'.pool.services = st.pool.services ∧
      st'.pool.messages.map (fun x => x.fields)
        = st.pool.messages.map (fun x => x.fields) ∧
      st'.pool.files.map (fun x => x.syn) = st.pool.files.map (fun x => x.syn) ∧
      st'.pool.extensions = st.pool.extensions ++
        [{ id := Identity.new file path fullName extension.gname
           parent := parent
           number := u32OfInt extension.gnumber
           json_name := "[" ++ fullName ++ "]"
           extendee := extendee.getD MessageIndexMAX
           kind := match kind with
             | .ok k => k
             | .error _ => KindIndex.double
           is_packed := fieldIsPacked (cardinalityOf extension) kind
             extension.options fs.syn
           cardinality := cardinalityOf extension
           default := default }] ∧
      (st'.errors = st.errors → goodFieldNumber (u32OfInt extension.gnumber)) := by
  simp only [visitExtensionSt] at h
  split at h
  · cases h
  rename_i stE extendee heqE
  obtain ⟨heE, haE, hnE⟩ := findMessageSt_frame heqE
  split at h
  · cases h
  rename_i stC heqB
  split at h
  · cases h
  rename_i fs heqFs
  split at h
  · cases h
  rename_i st2 kind heqRes
  obtain ⟨heR, haR⟩ := resolveFieldTypeSt_frame heqRes
  split at h
  · cases h
  rename_i st3 default heqPd
  obtain ⟨hp3, he3⟩ := parseDefaultIfOk_spec heqPd
  cases h
  obtain ⟨esE, hesE⟩ := heE
  obtain ⟨e2, he2⟩ := heR
  obtain ⟨e3, he3e⟩ := he3
  -- dissect the extendee block
  have hblock :
      (stC.pool.messages.map (fun x => x.fields)
          = stE.pool.messages.map fun x => x.fields) ∧
      stC.pool.enums = stE.pool.enums ∧
      stC.pool.services = stE.pool.services ∧
      stC.pool.extensions = stE.pool.extensions ∧
      stC.pool.files = stE.pool.files ∧
      ∃ errsC, stC.errors = stE.errors ++ errsC ∧
        (errsC = [] → extendee = none ∨
          goodFieldNumber (u32OfInt extension.gnumber)) := by
    split at heqB
    · cases heqB
      exact ⟨rfl, rfl, rfl, rfl, rfl, [], by simp, fun _ => Or.inl rfl⟩
    · rename_i ext
      split at heqB
      · cases heqB
      · rename_i mm heqMm
        split at heqB
        · cases heqB
        · rename_i errsC heqCk
          cases heqB
          refine ⟨mapFields_set heqMm rfl, rfl, rfl, rfl, rfl, errsC,
            by simp [pushErrs], fun hnil => Or.inr ?_⟩
          subst hnil
          exact checkFieldNumber_good_of_nil heqCk
  obtain ⟨hbF, hbE, hbS, hbX, hbFl, errsC, hbErr, hbGood⟩ := hblock
  have herrors : st3.errors = st.errors ++ (esE ++ errsC ++ e2 ++ e3) := by
    rw [he3e, he2, hbErr, hesE]
    simp [List.append_assoc]
  refine ⟨stE, extendee, stC, st2, kind, default, esE ++ errsC ++ e2 ++ e3,
    heqE, heqRes, fs, heqFs, ?_, ⟨_, herrors⟩, herrors,
    ?_, ?_, ?_, ?_, ?_, ?_⟩
  · -- syn of the file as seen from the initial state
    have hm : stC.pool.files.map (fun x => x.syn)
        = st.pool.files.map fun x => x.syn := by
      rw [hbFl]
      exact haE.2.2.2.2.2.2
    have := congrArg (fun l => l.get? file) hm
    simp only [List.get?_map] at this
    rw [← this, heqFs]
    rfl
  · show st3.pool.enums = st.pool.enums
    rw [hp3, haR.2.1, hbE, haE.2.1]
  · show st3.pool.services = st.pool.services
    rw [hp3, haR.2.2.1, hbS, haE.2.2.1]
  · show (st3.pool.messages.map fun x => x.fields)
      = st.pool.messages.map fun x => x.fields
    rw [hp3, haR.1, hbF, haE.1]
  · show (st3.pool.files.map fun x => x.syn)
      = st.pool.files.map fun x => x.syn
    rw [hp3, haR.2.2.2.2.2.2, hbFl]
    exact haE.2.2.2.2.2.2
  · show st3.pool.extensions ++ _ = _
    rw [hp3, haR.2.2.2.1, hbX, haE.2.2.2.1]
  · intro hsame
    have hsame2 : st.errors ++ (esE ++ errsC ++ e2 ++ e3) = st.errors := by
      rw [← herrors]
      exact hsame
    have hnil : esE ++ errsC ++ e2 ++ e3 = [] := by
      have := congrArg List.length hsame2
      simp only [List.length_append] at this
      have hlen : (esE ++ errsC ++ e2 ++ e3).length = 0 := by
        simp only [List.length_append]
        omega
      exact List.eq_nil_of_length_eq_zero hlen
    have hE : esE = [] := by
      rcases List.append_eq_nil.mp hnil with ⟨h12, -⟩
      rcases List.append_eq_nil.mp h12 with ⟨h1, -⟩
      exact (List.append_eq_nil.mp h1).1
    have hC : errsC = [] := by
      rcases List.append_eq_nil.mp hnil with ⟨h12, -⟩
      rcases List.append_eq_nil.mp h12 with ⟨h1, -⟩
      exact (List.append_eq_nil.mp h1).2
    rcases hbGood hC with hnone | hgood
    · subst hnone
      obtain ⟨e, he⟩ := hnE rfl
      rw [hesE] at he
      have := congrArg List.length he
      simp [hE] at this
    · exact hgood

end ProstReflect.Resolve

namespace ProstReflect.Resolve

/-- Transfer of the number invariant across a step that keeps every field
list and the extension arena. -/
theorem invGood_of_same {st st' : VisitState}
    (hf : st'.pool.messages.map (fun x => x.fields)
      = st.pool.messages.map fun x => x.fields)
    (hx : st'.pool.extensions = st.pool.extensions)
    (hinv : InvGoodNumbers st) : InvGoodNumbers st' := by
  constructor
  · intro m hm f hfm
    have hmem : m.fields ∈ st'.pool.messages.map fun x => x.fields :=
      List.mem_map_of_mem _ hm
    rw [hf] at hmem
    obtain ⟨m0, hm0, heq⟩ := List.mem_map.mp hmem
    exact hinv.1 m0 hm0 f (heq ▸ hfm)
  · intro e he
    rw [hx] at he
    exact hinv.2 e he

/-- Every event of the traversal only appends to the error list. -/
theorem stepEvent_errExt {st : VisitState} {e : VisitEvent} {st' : VisitState}
    (h : stepEvent st e = some st') : ErrExt st st' := by
  cases e with
  | file path index fd =>
    exact (visitFileSt_frame h).1
  | field path fn file m i fd =>
    simp only [stepEvent] at h
    obtain ⟨fs0, errs1, st2, kind, rest, msg, msgF, oneof, default, -, -, -,
      herr, -⟩ := visitFieldSt_spec h
    exact ⟨errs1 ++ rest, by rw [herr, List.append_assoc]⟩
  | service path fn file i sd =>
    cases h
    exact ⟨[], by simp [(visitServiceSt_spec st path fn file i sd).1]⟩
  | method path fn file sv i md =>
    simp only [stepEvent] at h
    obtain ⟨stA, inOpt, stB, outOpt, svc, -, -, -, he, -⟩ := visitMethodSt_spec h
    exact he
  | enumValue path fn file en i vd =>
    exact (visitEnumValueSt_frame h).1
  | extension path fn file p i fd =>
    simp only [stepEvent] at h
    obtain ⟨stE, extendee, stC, st2, kind, default, rest, -, -, fs, -, -, he, -⟩ :=
      visitExtensionSt_spec h
    exact he

/-- A step that adds no error preserves the legal-number invariant. -/
theorem stepEvent_inv {st : VisitState} {e : VisitEvent} {st' : VisitState}
    (h : stepEvent st e = some st') (hsame : st'.errors = st.errors)
    (hinv : InvGoodNumbers st) : InvGoodNumbers st' := by
  cases e with
  | file path index fd =>
    have hf := visitFileSt_frame h
    exact invGood_of_same (by rw [hf.2.1]) hf.2.2.2.2.1 hinv
  | field path fn file m i fd =>
    simp only [stepEvent] at h
    obtain ⟨fs0, errs1, st2, kind, rest, msg, msgF, oneof, default, -, heqCk, -,
      herr, -, -, hx, -, -, -, -, hother, hmsg, hmsgF, hfields⟩ :=
      visitFieldSt_spec h
    have hnil : errs1 = [] := by
      rw [hsame] at herr
      have := congrArg List.length herr
      simp only [List.length_append] at this
      have : errs1.length = 0 := by omega
      exact List.eq_nil_of_length_eq_zero this
    have hgood : goodFieldNumber (u32OfInt fd.gnumber) :=
      checkFieldNumber_good_of_nil (hnil ▸ heqCk)
    constructor
    · intro m' hm' f hfm
      obtain ⟨j, hj⟩ := List.mem_iff_get?.mp hm'
      by_cases hjm : j = m
      · subst hjm
        rw [hmsgF] at hj
        cases hj
        rw [hfields] at hfm
        rcases List.mem_append.mp hfm with hold | hnew
        · exact hinv.1 msg (List.get?_mem hmsg) f hold
        · obtain rfl := List.mem_singleton.mp hnew
          exact hgood
      · rw [hother j hjm] at hj
        exact hinv.1 m' (List.get?_mem hj) f hfm
    · intro e he
      rw [hx] at he
      exact hinv.2 e he
  | service path fn file i sd =>
    cases h
    have hs := visitServiceSt_spec st path fn file i sd
    exact invGood_of_same (by rw [hs.2.1]) hs.2.2.2.1 hinv
  | method path fn file sv i md =>
    simp only [stepEvent] at h
    obtain ⟨stA, inOpt, stB, outOpt, svc, -, -, -, -, hm, -, hx, -⟩ :=
      visitMethodSt_spec h
    exact invGood_of_same (by rw [hm]) hx hinv
  | enumValue path fn file en i vd =>
    have hf := visitEnumValueSt_frame h
    exact invGood_of_same (by rw [hf.2.1]) hf.2.2.2.1 hinv
  | extension path fn file p i fd =>
    simp only [stepEvent] at h
    obtain ⟨stE, extendee, stC, st2, kind, default, rest, -, -, fs, -, -, -, -,
      -, -, hf, -, hx, hgood⟩ := visitExtensionSt_spec h
    constructor
    · intro m' hm' f hfm
      have hmem : m'.fields ∈ st'.pool.messages.map fun x => x.fields :=
        List.mem_map_of_mem _ hm'
      rw [hf] at hmem
      obtain ⟨m0, hm0, heq⟩ := List.mem_map.mp hmem
      exact hinv.1 m0 hm0 f (heq ▸ hfm)
    · intro e he
      rw [hx] at he
      rcases List.mem_append.mp he with hold | hnew
      · exact hinv.2 e hold
      · obtain rfl := List.mem_singleton.mp hnew
        exact hgood hsame

/-- `runEvents` only appends to the error list. -/
theorem runEvents_errExt : ∀ {evs : List VisitEvent} {st st' : VisitState},
    runEvents evs st = some st' → ErrExt st st' := by
  intro evs
  induction evs with
  | nil =>
    intro st st' h
    simp only [runEvents] at h
    cases h
    exact errExt_refl _
  | cons e rest ih =>
    intro st st' h
    simp only [runEvents] at h
    split at h
    · cases h
    · rename_i st1 heq
      exact errExt_trans (stepEvent_errExt heq) (ih h)

/-- A run that ends with the error list it started from preserves the
legal-number invariant. -/
theorem runEvents_inv : ∀ {evs : List VisitEvent} {st st' : VisitState},
    runEvents evs st = some st' → st'.errors = st.errors →
    InvGoodNumbers st → InvGoodNumbers st' := by
  intro evs
  induction evs with
  | nil =>
    intro st st' h _ hinv
    simp only [runEvents] at h
    cases h
    exact hinv
  | cons e rest ih =>
    intro st st' h hsame hinv
    simp only [runEvents] at h
    split at h
    · cases h
    · rename_i st1 heq
      obtain ⟨es1, hes1⟩ := stepEvent_errExt heq
      obtain ⟨es2, hes2⟩ := runEvents_errExt h
      have hlens := congrArg List.length hsame
      rw [hes2, hes1] at hlens
      simp only [List.length_append] at hlens
      have h1 : es1.length = 0 := by omega
      have h2 : es2.length = 0 := by omega
      have hsame1 : st1.errors = st.errors := by
        rw [hes1, List.eq_nil_of_length_eq_zero h1, List.append_nil]
      have hsame2 : st'.errors = st1.errors := by
        rw [hes2, List.eq_nil_of_length_eq_zero h2, List.append_nil]
      exact ih h hsame2 (stepEvent_inv heq hsame1 hinv)

end ProstReflect.Resolve

namespace ProstReflect.Resolve

/-- `InvalidFieldNumber` is reported exactly for a number outside
`1..=536870911` or inside `19000..=19999`, and always cites the field's own
number. -/
theorem checkFieldNumber_invalid {pool : DescriptorPoolInner} {m : Nat}
    {fd : FieldDescriptorProto} {file : Nat} {path : List Int}
    {errs : List DescriptorErrorKind}
    (h : checkFieldNumber pool m fd file path = some errs) :
    ((∃ n l, DescriptorErrorKind.invalidFieldNumber n l ∈ errs) ↔
      (¬(1 ≤ fd.gnumber ∧ fd.gnumber ≤ 536870911) ∨
        (19000 ≤ fd.gnumber ∧ fd.gnumber ≤ 19999))) ∧
    (∀ n l, DescriptorErrorKind.invalidFieldNumber n l ∈ errs → n = fd.gnumber) := by
  obtain ⟨msg, fo, mp, -, -, -, heq⟩ := checkFieldNumber_decomp h
  subst heq
  refine ⟨⟨?_, ?_⟩, ?_⟩
  · rintro ⟨n, l, hm⟩
    rcases List.mem_append.mp hm with hm12 | h3
    · rcases List.mem_append.mp hm12 with h1 | h2
      · by_cases hc : (!(inValidFieldRange fd.gnumber) ||
            inReservedFieldRange fd.gnumber) = true
        · exact (invalidCond_iff _).mp hc
        · rw [if_neg hc] at h1
          cases h1
      · exfalso
        obtain ⟨p, hp, hf⟩ := List.mem_filterMap.mp h2
        split at hf
        · cases hf
        · cases hf
    · exfalso
      split at h3
      · cases h3
      · cases h3
      · cases List.mem_singleton.mp h3
      · cases List.mem_singleton.mp h3
  · intro hc
    refine ⟨fd.gnumber,
      Label.new pool.files "defined here" file (joinPath path [tagFieldNumber]), ?_⟩
    apply List.mem_append.mpr
    left
    apply List.mem_append.mpr
    left
    rw [if_pos ((invalidCond_iff _).mpr hc)]
    exact List.mem_singleton.mpr rfl
  · intro n l hm
    rcases List.mem_append.mp hm with hm12 | h3
    · rcases List.mem_append.mp hm12 with h1 | h2
      · by_cases hc : (!(inValidFieldRange fd.gnumber) ||
            inReservedFieldRange fd.gnumber) = true
        · rw [if_pos hc] at h1
          cases List.mem_singleton.mp h1
          rfl
        · rw [if_neg hc] at h1
          cases h1
      · exfalso
        obtain ⟨p, hp, hf⟩ := List.mem_filterMap.mp h2
        split at hf
        · cases hf
        · cases hf
    · exfalso
      split at h3
      · cases h3
      · cases h3
      · cases List.mem_singleton.mp h3
      · cases List.mem_singleton.mp h3

end ProstReflect.Resolve

namespace ProstReflect.Resolve

/-- C6: a field number triggers `FieldNumberInReservedRange` for a message
reserved range exactly when `start ≤ N < end` (half-open, as
`check_field_number` tests `r.start() <= number && number < r.end()`),
whereas an enum value triggers `EnumNumberInReservedRange` exactly when
`start ≤ n ≤ end` (inclusive on both ends, `check_enum_number` tests
`r.start() <= number && number <= r.end()`). -/
theorem c6_reserved_ranges_half_open_vs_inclusive :
    (∀ (pool : DescriptorPoolInner) (m : Nat) (fd : FieldDescriptorProto)
        (file : Nat) (path : List Int) (errs : List DescriptorErrorKind),
      checkFieldNumber pool m fd file path = some errs →
      ∃ msg fo mp,
        pool.messages.get? m = some msg ∧
        pool.files.get? msg.id.file = some fo ∧
        findMessageProto fo.raw msg.id.path = some mp ∧
        (∀ n s e l1 l2,
          DescriptorErrorKind.fieldNumberInReservedRange n s e l1 l2 ∈ errs →
          n = fd.gnumber ∧ s ≤ n ∧ n < e ∧
          ∃ p ∈ mp.reserved_range.enum, p.2.grstart = s ∧ p.2.grend = e) ∧
        (∀ p ∈ mp.reserved_range.enum,
          p.2.grstart ≤ fd.gnumber → fd.gnumber < p.2.grend →
          ∃ l1 l2,
            DescriptorErrorKind.fieldNumberInReservedRange fd.gnumber
              p.2.grstart p.2.grend l1 l2 ∈ errs)) ∧
    (∀ (pool : DescriptorPoolInner) (en : Nat) (v : EnumValueDescriptorProto)
        (file : Nat) (path : List Int) (errs : List DescriptorErrorKind),
      checkEnumNumber pool en v file path = some errs →
      ∃ eni fo ep,
        pool.enums.get? en = some eni ∧
        pool.files.get? eni.id.file = some fo ∧
        findEnumProto fo.raw eni.id.path = some ep ∧
        (∀ n s e l1 l2,
          DescriptorErrorKind.enumNumberInReservedRange n s e l1 l2 ∈ errs →
          n = v.gnumber ∧ s ≤ n ∧ n ≤ e ∧
          ∃ p ∈ ep.reserved_range.enum, p.2.grstart = s ∧ p.2.grend = e) ∧
        (∀ p ∈ ep.reserved_range.enum,
          p.2.grstart ≤ v.gnumber → v.gnumber ≤ p.2.grend →
          ∃ l1 l2,
            DescriptorErrorKind.enumNumberInReservedRange v.gnumber
              p.2.grstart p.2.grend l1 l2 ∈ errs)) := by
  constructor
  · intro pool m fd file path errs h
    obtain ⟨msg, fo, mp, hm, hf, hp, heq⟩ := checkFieldNumber_decomp h
    subst heq
    refine ⟨msg, fo, mp, hm, hf, hp, ?_, ?_⟩
    · intro n s e l1 l2 hmem
      rcases List.mem_append.mp hmem with hm12 | h3
      · rcases List.mem_append.mp hm12 with h1 | h2
        · exfalso
          split at h1
          · cases List.mem_singleton.mp h1
          · cases h1
        · obtain ⟨p, hpm, hfp⟩ := List.mem_filterMap.mp h2
          split at hfp
          · rename_i hcond
            cases hfp
            exact ⟨rfl, hcond.1, hcond.2, p, hpm, rfl, rfl⟩
          · cases hfp
      · exfalso
        split at h3
        · cases h3
        · cases h3
        · cases List.mem_singleton.mp h3
        · cases List.mem_singleton.mp h3
    · intro p hpm h1 h2
      refine ⟨Label.new pool.files "reserved range defined here" msg.id.file
          (joinPath msg.id.path [tagMessageReservedRange, (p.1 : Int)]),
        Label.new pool.files "defined here" file (joinPath path [tagFieldNumber]),
        ?_⟩
      apply List.mem_append.mpr
      left
      apply List.mem_append.mpr
      right
      apply List.mem_filterMap.mpr
      refine ⟨p, hpm, ?_⟩
      rw [if_pos ⟨h1, h2⟩]
  · intro pool en v file path errs h
    have hdec : ∃ eni fo ep,
        pool.enums.get? en = some eni ∧
        pool.files.get? eni.id.file = some fo ∧
        findEnumProto fo.raw eni.id.path = some ep ∧
        errs = ep.reserved_range.enum.filterMap fun p =>
          if p.2.grstart ≤ v.gnumber ∧ v.gnumber ≤ p.2.grend then
            some (DescriptorErrorKind.enumNumberInReservedRange v.gnumber
              p.2.grstart p.2.grend
              (Label.new pool.files "reserved range defined here" eni.id.file
                (joinPath eni.id.path [tagEnumReservedRange, (p.1 : Int)]))
              (Label.new pool.files "defined here" file
                (joinPath path [tagFieldNumber])))
          else none := by
      simp only [checkEnumNumber] at h
      split at h
      · cases h
      rename_i eni heqE
      split at h
      · cases h
      rename_i fo heqF
      split at h
      · cases h
      rename_i ep heqP
      cases h
      exact ⟨eni, fo, ep, heqE, heqF, heqP, rfl⟩
    obtain ⟨eni, fo, ep, hm, hf, hp, heq⟩ := hdec
    subst heq
    refine ⟨eni, fo, ep, hm, hf, hp, ?_, ?_⟩
    · intro n s e l1 l2 hmem
      obtain ⟨p, hpm, hfp⟩ := List.mem_filterMap.mp hmem
      split at hfp
      · rename_i hcond
        cases hfp
        exact ⟨rfl, hcond.1, hcond.2, p, hpm, rfl, rfl⟩
      · cases hfp
    · intro p hpm h1 h2
      refine ⟨Label.new pool.files "reserved range defined here" eni.id.file
          (joinPath eni.id.path [tagEnumReservedRange, (p.1 : Int)]),
        Label.new pool.files "defined here" file (joinPath path [tagFieldNumber]),
        ?_⟩
      apply List.mem_filterMap.mpr
      refine ⟨p, hpm, ?_⟩
      rw [if_pos ⟨h1, h2⟩]

end ProstReflect.Resolve

namespace ProstReflect.Resolve

/-- C5: `check_field_number` emits `InvalidFieldNumber` for a field or
extension number `N` exactly when `N ∉ [1, 536870911]` or
`N ∈ [19000, 19999]` (and the reported number is always the field's own);
consequently a pool built with no errors keeps the legal-number invariant:
every message field number and every extension number is in range and
outside the reserved window. -/
theorem c5_invalid_field_number_iff_and_built_pools_good :
    (∀ (pool : DescriptorPoolInner) (m : Nat) (fd : FieldDescriptorProto)
        (file : Nat) (path : List Int) (errs : List DescriptorErrorKind),
      checkFieldNumber pool m fd file path = some errs →
      ((∃ n l, DescriptorErrorKind.invalidFieldNumber n l ∈ errs) ↔
        (¬(1 ≤ fd.gnumber ∧ fd.gnumber ≤ 536870911) ∨
          (19000 ≤ fd.gnumber ∧ fd.gnumber ≤ 19999))) ∧
      (∀ n l, DescriptorErrorKind.invalidFieldNumber n l ∈ errs →
        n = fd.gnumber)) ∧
    (∀ (offsets : DescriptorPoolOffsets) (files : List FileDescriptorProto)
        (pool pool' : DescriptorPoolInner),
      resolveNames offsets files pool = some (Except.ok (), pool') →
      InvGoodNumbers ⟨pool, []⟩ → InvGoodNumbers ⟨pool', []⟩) := by
  constructor
  · intro pool m fd file path errs h
    exact checkFieldNumber_invalid h
  · intro offsets files pool pool' h hinv
    simp only [resolveNames] at h
    split at h
    · cases h
    · rename_i st heqRun
      split at h
      · rename_i hnil
        simp only [Option.some.injEq, Prod.mk.injEq] at h
        obtain ⟨-, hpool⟩ := h
        have hres : InvGoodNumbers st := runEvents_inv heqRun hnil hinv
        constructor
        · intro m hm f hf
          apply hres.1 m _ f hf
          rw [show st.pool = pool' from hpool]
          exact hm
        · intro e he
          apply hres.2 e
          rw [show st.pool = pool' from hpool]
          exact he
      · simp only [Option.some.injEq, Prod.mk.injEq] at h
        cases h.1

end ProstReflect.Resolve

namespace ProstReflect.Resolve

/-- C1: `resolve_names` drives the whole traversal and returns `Ok(())`
exactly when no error was accumulated; the error list only grows (no early
abort), a field whose kind resolution failed is still appended with the
`KindIndex::Double` sentinel, a method whose input or output failed to
resolve is still recorded with the `MessageIndex::MAX` sentinel, and the
`Err` result carries the entire accumulated list. -/
theorem c1_resolve_names_ok_iff_no_errors :
    (∀ (offsets : DescriptorPoolOffsets) (files : List FileDescriptorProto)
        (pool : DescriptorPoolInner) (r : Except (List DescriptorErrorKind) Unit)
        (pool' : DescriptorPoolInner),
      resolveNames offsets files pool = some (r, pool') →
      ∃ st', runEvents (visitEvents offsets files) ⟨pool, []⟩ = some st' ∧
        pool' = st'.pool ∧
        ((r = Except.ok ()) ↔ st'.errors = []) ∧
        (∀ es, r = Except.error es → es = st'.errors ∧ es ≠ [])) ∧
    (∀ (evs : List VisitEvent) (st st' : VisitState),
      runEvents evs st = some st' → ∃ es, st'.errors = st.errors ++ es) ∧
    (∀ (st : VisitState) (path : List Int) (fn : String) (file m i : Nat)
        (fd : FieldDescriptorProto) (st' : VisitState),
      visitFieldSt st path fn file m i fd = some st' →
      ∃ fs0 errs1 st2 kind oneof default msg msgF,
        st.pool.files.get? file = some fs0 ∧
        checkFieldNumber st.pool m fd file path = some errs1 ∧
        resolveFieldTypeSt (pushErrs st errs1) fd.ty fd.gtypeName fn file path
          = some (st2, kind) ∧
        st.pool.messages.get? m = some msg ∧
        st'.pool.messages.get? m = some msgF ∧
        msgF.fields = msg.fields ++
          [{ id := Identity.new file path fn fd.gname
             number := u32OfInt fd.gnumber
             kind := match kind with
               | Except.ok k => k
               | Except.error _ => KindIndex.double
             oneof := oneof
             is_packed := fieldIsPacked (cardinalityOf fd) kind fd.options fs0.syn
             supports_presence :=
               fieldSupportsPresence fd (cardinalityOf fd) kind fs0.syn
             cardinality := cardinalityOf fd
             default := default }] ∧
        (∀ u, kind = Except.error u →
          (match kind with
            | Except.ok k => k
            | Except.error _ => KindIndex.double) = KindIndex.double)) ∧
    (∀ (st : VisitState) (path : List Int) (fn : String) (file sv i : Nat)
        (md : MethodDescriptorProto) (st' : VisitState),
      visitMethodSt st path fn file sv i md = some st' →
      ∃ stA inOpt stB outOpt svc,
        findMessageSt st fn md.ginputType file path tagMethodInputType
          = some (stA, inOpt) ∧
        findMessageSt stA fn md.goutputType file path tagMethodOutputType
          = some (stB, outOpt) ∧
        stB.pool.services.get? sv = some svc ∧
        (∃ svc', st'.pool.services.get? sv = some svc' ∧
          svc'.methods = svc.methods ++
            [{ id := Identity.new file path fn md.gname
               input := inOpt.getD MessageIndexMAX
               output := outOpt.getD MessageIndexMAX }]) ∧
        (inOpt = none → inOpt.getD MessageIndexMAX = MessageIndexMAX) ∧
        (outOpt = none → outOpt.getD MessageIndexMAX = MessageIndexMAX)) := by
  refine ⟨?_, ?_, ?_, ?_⟩
  · intro offsets files pool r pool' h
    simp only [resolveNames] at h
    split at h
    · cases h
    · rename_i st heqRun
      simp only [Option.some.injEq, Prod.mk.injEq] at h
      obtain ⟨hr, hpool⟩ := h
      split at hr
      · rename_i hnil
        cases hr
        exact ⟨st, heqRun, hpool.symm, ⟨fun _ => hnil, fun _ => rfl⟩,
          fun es hes => (by cases hes)⟩
      · rename_i hne
        cases hr
        refine ⟨st, heqRun, hpool.symm,
          ⟨fun hok => (by cases hok), fun hnil => absurd hnil hne⟩,
          fun es hes => ?_⟩
        cases hes
        exact ⟨rfl, hne⟩
  · intro evs st st' h
    exact runEvents_errExt h
  · intro st path fn file m i fd st' h
    obtain ⟨fs0, errs1, st2, kind, rest, msg, msgF, oneof, default, hFs, hCk,
      hRes, -, -, -, -, -, -, -, -, -, hmsg, hmsgF, hfields⟩ :=
      visitFieldSt_spec h
    refine ⟨fs0, errs1, st2, kind, oneof, default, msg, msgF, hFs, hCk, hRes,
      hmsg, hmsgF, hfields, ?_⟩
    rintro u rfl
    rfl
  · intro st path fn file sv i md st' h
    obtain ⟨stA, inOpt, stB, outOpt, svc, hA, hB, hSvc, -, -, -, -, -, hsvc'⟩ :=
      visitMethodSt_spec h
    refine ⟨stA, inOpt, stB, outOpt, svc, hA, hB, hSvc, hsvc', ?_, ?_⟩
    · rintro rfl
      rfl
    · rintro rfl
      rfl

end ProstReflect.Resolve

namespace ProstReflect.Resolve

/-- C2 counterexample: a repeated int32 field in a proto3 file whose
`FieldOptions` message is present but whose `packed` field is unset.  The
claim's rule ("options.packed is unset and the syntax is Proto3") makes it
packed; the code computes `options.as_ref().map_or(syntax == Proto3,
|o| o.value.packed())`, and `packed()` on a present options message with
`packed` unset is `false`, so the field is not packed. -/
theorem c2_is_packed_options_present_unset_counterexample :
    fieldIsPacked Cardinality.repeated (Except.ok KindIndex.int32)
      (some { packed := none }) Syn.proto3 = false ∧
    claimIsPacked Cardinality.repeated (Except.ok KindIndex.int32)
      (some { packed := none }) Syn.proto3 = true := by
  exact ⟨rfl, rfl⟩

/-- C2 (amended): for every resolved field and extension, `is_packed` is
true iff cardinality is Repeated, the resolved kind is packable, and — when
an options message is present — `options.packed` is explicitly true, or —
when no options message is present — the file's syntax is Proto3.  (An
options message that is present with `packed` unset gives false even under
Proto3.)  `is_packed = true` still implies Repeated ∧ packable, the code's
predicate implies the claim's, and `visit_field` / `visit_extension` store
exactly this computation. -/
theorem c2_is_packed_iff :
    (∀ (c : Cardinality) (kind : Except Unit KindIndex)
        (opts : Option FieldOptions) (syn : Syn),
      fieldIsPacked c kind opts syn = true ↔
        (c = Cardinality.repeated ∧
          (∃ k, kind = Except.ok k ∧ k.is_packable = true) ∧
          (match opts with
            | some o => o.gpacked = true
            | none => syn = Syn.proto3))) ∧
    (∀ (c : Cardinality) (kind : Except Unit KindIndex)
        (opts : Option FieldOptions) (syn : Syn),
      fieldIsPacked c kind opts syn = true →
        c = Cardinality.repeated ∧
          ∃ k, kind = Except.ok k ∧ k.is_packable = true) ∧
    (∀ (c : Cardinality) (kind : Except Unit KindIndex)
        (opts : Option FieldOptions) (syn : Syn),
      fieldIsPacked c kind opts syn = true → claimIsPacked c kind opts syn = true) ∧
    (∀ (st : VisitState) (path : List Int) (fn : String) (file m i : Nat)
        (fd : FieldDescriptorProto) (st' : VisitState),
      visitFieldSt st path fn file m i fd = some st' →
      ∃ fs0 errs1 st2 kind msg msgF,
        st.pool.files.get? file = some fs0 ∧
        checkFieldNumber st.pool m fd file path = some errs1 ∧
        resolveFieldTypeSt (pushErrs st errs1) fd.ty fd.gtypeName fn file path
          = some (st2, kind) ∧
        st.pool.messages.get? m = some msg ∧
        st'.pool.messages.get? m = some msgF ∧
        ∃ nf, msgF.fields = msg.fields ++ [nf] ∧
          nf.is_packed = fieldIsPacked (cardinalityOf fd) kind fd.options fs0.syn ∧
          nf.cardinality = cardinalityOf fd) ∧
    (∀ (st : VisitState) (path : List Int) (fn : String) (file : Nat)
        (parent : Option Nat) (i : Nat) (fd : FieldDescriptorProto)
        (st' : VisitState),
      visitExtensionSt st path fn file parent i fd = some st' →
      ∃ stC st2 kind fsSyn,
        resolveFieldTypeSt stC fd.ty fd.gtypeName fn file path = some (st2, kind) ∧
        ((st.pool.files.get? file).map fun x => x.syn) = some fsSyn ∧
        ∃ ne, st'.pool.extensions = st.pool.extensions ++ [ne] ∧
          ne.is_packed = fieldIsPacked (cardinalityOf fd) kind fd.options fsSyn ∧
          ne.cardinality = cardinalityOf fd) := by
  have hiff : ∀ (c : Cardinality) (kind : Except Unit KindIndex)
      (opts : Option FieldOptions) (syn : Syn),
      fieldIsPacked c kind opts syn = true ↔
        (c = Cardinality.repeated ∧
          (∃ k, kind = Except.ok k ∧ k.is_packable = true) ∧
          (match opts with
            | some o => o.gpacked = true
            | none => syn = Syn.proto3)) := by
    intro c kind opts syn
    simp only [fieldIsPacked, Bool.and_eq_true, beq_iff_eq]
    constructor
    · rintro ⟨⟨hc, hk⟩, ho⟩
      refine ⟨hc, ?_, ?_⟩
      · cases kind with
        | ok k => exact ⟨k, rfl, hk⟩
        | error e => cases hk
      · cases opts with
        | some o => exact ho
        | none => simpa using ho
    · rintro ⟨hc, ⟨k, rfl, hk⟩, ho⟩
      refine ⟨⟨hc, hk⟩, ?_⟩
      cases opts with
      | some o => exact ho
      | none => simpa using ho
  refine ⟨hiff, ?_, ?_, ?_, ?_⟩
  · intro c kind opts syn h
    obtain ⟨hc, hk, -⟩ := (hiff c kind opts syn).mp h
    exact ⟨hc, hk⟩
  · intro c kind opts syn h
    obtain ⟨hc, ⟨k, rfl, hk⟩, ho⟩ := (hiff c kind opts syn).mp h
    subst hc
    cases opts with
    | some o =>
      have hg : o.packed.getD false = true := ho
      have hp : o.packed = some true := by
        cases hpk : o.packed with
        | none =>
          rw [hpk] at hg
          cases hg
        | some b =>
          rw [hpk] at hg
          simp only [Option.getD_some] at hg
          rw [hg]
      simp [claimIsPacked, hk, hp]
    | none =>
      have hs : syn = Syn.proto3 := ho
      subst hs
      simp [claimIsPacked, hk]
  · intro st path fn file m i fd st' h
    obtain ⟨fs0, errs1, st2, kind, rest, msg, msgF, oneof, default, hFs, hCk,
      hRes, -, -, -, -, -, -, -, -, -, hmsg, hmsgF, hfields⟩ :=
      visitFieldSt_spec h
    exact ⟨fs0, errs1, st2, kind, msg, msgF, hFs, hCk, hRes, hmsg, hmsgF,
      _, hfields, rfl, rfl⟩
  · intro st path fn file parent i fd st' h
    obtain ⟨stE, extendee, stC, st2, kind, default, rest, -, hRes, fs, -,
      hsyn, -, -, -, -, -, -, hx, -⟩ := visitExtensionSt_spec h
    exact ⟨stC, st2, kind, fs.syn, hRes, hsyn, _, hx, rfl, rfl⟩

end ProstReflect.Resolve

namespace ProstReflect.Resolve

/-- C3: `supports_presence` is true iff the field has
`proto3_optional = true`, or belongs to a oneof, or its cardinality is not
Repeated and (its resolved kind is a message or group, or the file's syntax
is Proto2); in particular a Required field of a proto2 file always supports
presence, and `visit_field` stores exactly this computation. -/
theorem c3_supports_presence_iff :
    (∀ (fd : FieldDescriptorProto) (c : Cardinality)
        (kind : Except Unit KindIndex) (syn : Syn),
      fieldSupportsPresence fd c kind syn = true ↔
        (fd.gproto3Optional = true ∨ fd.oneof_index.isSome = true ∨
          (c ≠ Cardinality.repeated ∧
            ((∃ k, kind = Except.ok k ∧ k.is_message = true) ∨
              syn = Syn.proto2)))) ∧
    (∀ (fd : FieldDescriptorProto) (kind : Except Unit KindIndex),
      fieldSupportsPresence fd Cardinality.required kind Syn.proto2 = true) ∧
    (∀ (st : VisitState) (path : List Int) (fn : String) (file m i : Nat)
        (fd : FieldDescriptorProto) (st' : VisitState),
      visitFieldSt st path fn file m i fd = some st' →
      ∃ fs0 errs1 st2 kind msg msgF,
        st.pool.files.get? file = some fs0 ∧
        checkFieldNumber st.pool m fd file path = some errs1 ∧
        resolveFieldTypeSt (pushErrs st errs1) fd.ty fd.gtypeName fn file path
          = some (st2, kind) ∧
        st.pool.messages.get? m = some msg ∧
        st'.pool.messages.get? m = some msgF ∧
        ∃ nf, msgF.fields = msg.fields ++ [nf] ∧
          nf.supports_presence =
            fieldSupportsPresence fd (cardinalityOf fd) kind fs0.syn) := by
  refine ⟨?_, ?_, ?_⟩
  · intro fd c kind syn
    simp only [fieldSupportsPresence, Bool.or_eq_true, Bool.and_eq_true,
      bne_iff_ne, ne_eq, beq_iff_eq]
    constructor
    · rintro ((h3 | hoo) | ⟨hc, hk | hs⟩)
      · exact Or.inl h3
      · exact Or.inr (Or.inl hoo)
      · refine Or.inr (Or.inr ⟨hc, ?_⟩)
        cases kind with
        | ok k => exact Or.inl ⟨k, rfl, hk⟩
        | error e => cases hk
      · exact Or.inr (Or.inr ⟨hc, Or.inr hs⟩)
    · rintro (h3 | hoo | ⟨hc, ⟨k, rfl, hk⟩ | hs⟩)
      · exact Or.inl (Or.inl h3)
      · exact Or.inl (Or.inr hoo)
      · exact Or.inr ⟨hc, Or.inl hk⟩
      · exact Or.inr ⟨hc, Or.inr hs⟩
  · intro fd kind
    simp [fieldSupportsPresence]
  · intro st path fn file m i fd st' h
    obtain ⟨fs0, errs1, st2, kind, rest, msg, msgF, oneof, default, hFs, hCk,
      hRes, -, -, -, -, -, -, -, -, -, hmsg, hmsgF, hfields⟩ :=
      visitFieldSt_spec h
    exact ⟨fs0, errs1, st2, kind, msg, msgF, hFs, hCk, hRes, hmsg, hmsgF,
      _, hfields, rfl⟩

end ProstReflect.Resolve

namespace ProstReflect.Resolve

theorem setFieldTypeName_write {f : FieldDescriptorProto} {tag : Int}
    {tn : String} {t : ProtoType} {f' : FieldDescriptorProto}
    (h : setFieldTypeName f tag tn t = some f') : FieldWrite tag tn t f f' := by
  simp only [setFieldTypeName] at h
  split at h
  · rename_i ht
    simp only [Option.some.injEq] at h
    by_cases hg : ({ f with type_name := some tn } :
        FieldDescriptorProto).gtype = ProtoType.group
    · rw [if_neg (not_not_intro hg)] at h
      subst h
      exact ⟨rfl, rfl, rfl, rfl, rfl, rfl, rfl, rfl,
        Or.inl ⟨ht, rfl, rfl, fun _ => rfl, fun hne => absurd hg hne⟩⟩
    · rw [if_pos hg] at h
      subst h
      exact ⟨rfl, rfl, rfl, rfl, rfl, rfl, rfl, rfl,
        Or.inl ⟨ht, rfl, rfl, fun hgr => absurd hgr hg, fun _ => rfl⟩⟩
  · split at h
    · rename_i ht2
      simp only [Option.some.injEq] at h
      subst h
      exact ⟨rfl, rfl, rfl, rfl, rfl, rfl, rfl, rfl, Or.inr ⟨ht2, rfl, rfl, rfl⟩⟩
    · cases h

theorem setMessageTypeName_write :
    ∀ (path : List Int) (m : DescriptorProto) (tag : Int) (tn : String)
      (t : ProtoType) (m' : DescriptorProto),
    setMessageTypeName m path tag tn t = some m' → MessageWrite tag tn t m m'
  | p0 :: i :: rest, m, tag, tn, t, m', h => by
    simp only [setMessageTypeName] at h
    split at h
    · split at h
      · split at h
        · rename_i f heqf
          cases hsf : setFieldTypeName f tag tn t with
          | none =>
            rw [hsf] at h
            cases h
          | some f' =>
            rw [hsf] at h
            simp only [Option.map_some', Option.some.injEq] at h
            subst h
            exact MessageWrite.field m i.toNat f f' heqf (setFieldTypeName_write hsf)
        · cases h
      · cases h
    · split at h
      · split at h
        · split at h
          · rename_i f heqf
            cases hsf : setFieldTypeName f tag tn t with
            | none =>
              rw [hsf] at h
              cases h
            | some f' =>
              rw [hsf] at h
              simp only [Option.map_some', Option.some.injEq] at h
              subst h
              exact MessageWrite.extension m i.toNat f f' heqf
                (setFieldTypeName_write hsf)
          · cases h
        · cases h
      · split at h
        · split at h
          · split at h
            · rename_i nm heqn
              cases hsm : setMessageTypeName nm rest tag tn t with
              | none =>
                rw [hsm] at h
                cases h
              | some nm' =>
                rw [hsm] at h
                simp only [Option.map_some', Option.some.injEq] at h
                subst h
                exact MessageWrite.nested m i.toNat nm nm' heqn
                  (setMessageTypeName_write rest nm tag tn t nm' hsm)
            · cases h
          · cases h
        · cases h
  | [], _, _, _, _, _, h => by simp [setMessageTypeName] at h
  | [p0], _, _, _, _, _, h => by simp [setMessageTypeName] at h
  termination_by path _ _ _ _ _ => path.length

end ProstReflect.Resolve

namespace ProstReflect.Resolve

theorem setFileTypeName_write {f : FileDescriptorProto} {path : List Int}
    {tag : Int} {tn : String} {t : ProtoType} {f' : FileDescriptorProto}
    (h : setFileTypeName f path tag tn t = some f') : FileWrite tag tn t f f' := by
  simp only [setFileTypeName] at h
  split at h
  · -- path = p0 :: i :: rest
    split at h
    · -- message_type
      split at h
      · split at h
        · rename_i m heqm
          cases hsm : setMessageTypeName m _ tag tn t with
          | none =>
            rw [hsm] at h
            cases h
          | some m' =>
            rw [hsm] at h
            simp only [Option.map_some', Option.some.injEq] at h
            subst h
            exact ⟨rfl, rfl, rfl, rfl, rfl, rfl, rfl,
              Or.inl ⟨_, m, m', heqm, rfl,
                setMessageTypeName_write _ m tag tn t m' hsm, rfl, rfl⟩⟩
        · cases h
      · cases h
    · split at h
      · -- service
        split at h
        · split at h
          · split at h
            · rename_i sv heqsv
              split at h
              · rename_i md heqmd
                split at h
                · rename_i htin
                  simp only [Option.some.injEq] at h
                  subst h
                  exact ⟨rfl, rfl, rfl, rfl, rfl, rfl, rfl,
                    Or.inr (Or.inl ⟨_, sv, _, heqsv, rfl,
                      ⟨rfl, _, md, _, heqmd, rfl,
                        ⟨rfl, Or.inl ⟨htin, rfl, rfl⟩⟩⟩, rfl, rfl⟩)⟩
                · split at h
                  · rename_i htout
                    simp only [Option.some.injEq] at h
                    subst h
                    exact ⟨rfl, rfl, rfl, rfl, rfl, rfl, rfl,
                      Or.inr (Or.inl ⟨_, sv, _, heqsv, rfl,
                        ⟨rfl, _, md, _, heqmd, rfl,
                          ⟨rfl, Or.inr ⟨htout, rfl, rfl⟩⟩⟩, rfl, rfl⟩)⟩
                  · cases h
              · cases h
            · cases h
          · cases h
        · cases h
      · split at h
        · -- extension
          split at h
          · split at h
            · rename_i e heqe
              cases hse : setFieldTypeName e tag tn t with
              | none =>
                rw [hse] at h
                cases h
              | some e' =>
                rw [hse] at h
                simp only [Option.map_some', Option.some.injEq] at h
                subst h
                exact ⟨rfl, rfl, rfl, rfl, rfl, rfl, rfl,
                  Or.inr (Or.inr ⟨_, e, e', heqe, rfl,
                    setFieldTypeName_write hse, rfl, rfl⟩)⟩
            · cases h
          · cases h
        · cases h
  · cases h

end ProstReflect.Resolve

namespace ProstReflect.Resolve

/-- The canonical name handed to the write-back carries a leading dot and
resolves in the name table to the returned definition (or the reference was
already absolute). -/
theorem resolveNameTable_canonical {names : List (String × Definition)}
    {scope name : String} {tn : String} {d : Definition}
    (h : resolveNameTable names scope name = some (tn, d)) :
    (∃ full, tn = "." ++ full ∧ lookupName names full = some d) ∨
      (name.startsWith "." = true ∧ tn = name ∧
        lookupName names (name.drop 1) = some d) := by
  simp only [resolveNameTable] at h
  split at h
  · rename_i hs
    cases hmap : lookupName names (name.drop 1) with
    | none =>
      rw [hmap] at h
      cases h
    | some d0 =>
      rw [hmap] at h
      simp only [Option.map_some', Option.some.injEq, Prod.mk.injEq] at h
      obtain ⟨htn, hd⟩ := h
      exact Or.inr ⟨hs, htn.symm, by rw [hd]⟩
  · split at h
    · cases h
    · rename_i pfx hfind
      split at h
      · rename_i d0 hlook
        cases h
        exact Or.inl ⟨joinFullName pfx name, rfl, hlook⟩
      · cases h

/-- C4: when a type-name reference resolves, the resolver's only mutation is
the canonicalization write-back into the one referenced raw file: the
addressed `type_name` / `extendee` / `input_type` / `output_type` string is
replaced by the leading-dot form of the resolved name, for non-GROUP field
type references the numeric tag is additionally set to MESSAGE or ENUM
matching the resolved definition (`FieldWrite` / `FileWrite`), and nothing
else — no other raw file, no arena, no name table, no error — changes.
When the reference does not resolve, nothing changes at all. -/
theorem c4_canonicalization_only_mutation :
    (∀ (st : VisitState) (scope name : String) (file : Nat) (path : List Int)
        (tag : Int) (st' : VisitState) (d : Definition),
      resolveNameSt st scope name file path tag = some (st', some d) →
      st'.errors = st.errors ∧
      st'.pool.messages = st.pool.messages ∧
      st'.pool.enums = st.pool.enums ∧
      st'.pool.services = st.pool.services ∧
      st'.pool.extensions = st.pool.extensions ∧
      st'.pool.names = st.pool.names ∧
      st'.pool.file_names = st.pool.file_names ∧
      ∃ fs raw' tn,
        st.pool.files.get? file = some fs ∧
        resolveNameTable st.pool.names scope name = some (tn, d) ∧
        ((∃ full, tn = "." ++ full ∧ lookupName st.pool.names full = some d) ∨
          (name.startsWith "." = true ∧ tn = name ∧
            lookupName st.pool.names (name.drop 1) = some d)) ∧
        setFileTypeName fs.raw path tag tn (definitionProtoType d) = some raw' ∧
        FileWrite tag tn (definitionProtoType d) fs.raw raw' ∧
        st'.pool.files = st.pool.files.set file { fs with raw := raw' }) ∧
    (∀ (st : VisitState) (scope name : String) (file : Nat) (path : List Int)
        (tag : Int) (st' : VisitState),
      resolveNameSt st scope name file path tag = some (st', none) → st' = st) := by
  constructor
  · intro st scope name file path tag st' d h
    simp only [resolveNameSt] at h
    split at h
    · rename_i typeName d0 heqTable
      split at h
      · cases h
      · rename_i fs heqFs
        split at h
        · cases h
        · rename_i raw' heqSet
          simp only [setRaw, Option.some.injEq, Prod.mk.injEq,
            Option.some.injEq] at h
          obtain ⟨hst, hd⟩ := h
          subst hd
          subst hst
          refine ⟨rfl, rfl, rfl, rfl, rfl, rfl, rfl,
            fs, raw', typeName, heqFs, heqTable,
            resolveNameTable_canonical heqTable, heqSet,
            setFileTypeName_write heqSet, rfl⟩
    · cases h
  · intro st scope name file path tag st' h
    simp only [resolveNameSt] at h
    split at h
    · split at h
      · cases h
      · split at h
        · cases h
        · simp only [Option.some.injEq, Prod.mk.injEq] at h
          cases h.2
    · simp only [Option.some.injEq, Prod.mk.injEq] at h
      exact h.1.symm

end ProstReflect.Resolve
